import Mathlib

/-!
Projekat: state persistence and input handling of the scene viewer.

A shallow embedding of `src/main.cpp`: the `ProgramState` record, its
`SaveToFile` / `LoadFromFile` text persistence, the GLFW callbacks
(`key_callback`, `mouse_callback`, `scroll_callback`), `processInput`, and the
format selection of `loadTexture`.

`float` and `double` are IEEE-754 binary32 / binary64 data given by their bit
fields; arithmetic is exact arithmetic on the denoted dyadic numbers followed
by rounding to nearest, ties to even.  The formatted stream operations of the
C++ standard library (`operator<<`, `operator>>` on `float` and `bool`) are
embedded at character level, following [istream.formatted.arithmetic] and
[facet.num.get.virtuals] / [facet.num.put.virtuals] for the default stream
flags (decimal, `skipws`, precision 6, no `boolalpha`).
-/

namespace Projekat

/-! ## Binary floating point -/

/-- Width parameters of an IEEE-754 binary interchange format. -/
structure FpFormat where
  /-- number of stored fraction bits (23 for `float`, 52 for `double`) -/
  mbits : Nat
  /-- number of exponent bits (8 for `float`, 11 for `double`) -/
  ebits : Nat
deriving DecidableEq, Repr

/-- The format of C++ `float`. -/
def binary32 : FpFormat := ⟨23, 8⟩

/-- The format of C++ `double`. -/
def binary64 : FpFormat := ⟨52, 11⟩

/-- Exponent bias, `2^(ebits-1) - 1`. -/
def FpFormat.bias (f : FpFormat) : Nat := 2 ^ (f.ebits - 1) - 1

/-- The all-ones biased exponent that marks infinities and NaNs. -/
def FpFormat.expoMax (f : FpFormat) : Nat := 2 ^ f.ebits - 1

/-- A floating-point datum of format `f`, as sign bit, biased exponent field and
fraction field.  Equality is equality of the bit pattern. -/
structure Fp (f : FpFormat) where
  sign : Bool
  expo : Nat
  frac : Nat
deriving DecidableEq, Repr

/-- C++ `float`. -/
abbrev CFloat := Fp binary32

/-- C++ `double`. -/
abbrev CDouble := Fp binary64

namespace Fp

variable {f : FpFormat}

/-- Signed zero. -/
def zero (f : FpFormat) (neg : Bool) : Fp f := ⟨neg, 0, 0⟩

/-- Signed infinity. -/
def inf (f : FpFormat) (neg : Bool) : Fp f := ⟨neg, f.expoMax, 0⟩

/-- The default quiet NaN. -/
def nan (f : FpFormat) : Fp f := ⟨false, f.expoMax, 2 ^ (f.mbits - 1)⟩

/-- Largest finite datum (`FLT_MAX` / `DBL_MAX`) with the given sign. -/
def maxFinite (f : FpFormat) (neg : Bool) : Fp f := ⟨neg, f.expoMax - 1, 2 ^ f.mbits - 1⟩

def isNaN (x : Fp f) : Bool := x.expo == f.expoMax && x.frac != 0

def isInf (x : Fp f) : Bool := x.expo == f.expoMax && x.frac == 0

def isFinite (x : Fp f) : Bool := x.expo != f.expoMax

/-- Integer significand of a finite datum: the value is `(-1)^sign * mant * 2^exp2`. -/
def mant (x : Fp f) : Nat := if x.expo = 0 then x.frac else 2 ^ f.mbits + x.frac

/-- Binary exponent of the unit in the last place of a finite datum. -/
def exp2 (x : Fp f) : Int :=
  (if x.expo = 0 then 1 else (x.expo : Int)) - (f.bias : Int) - (f.mbits : Int)

end Fp

/-- Integer logarithm with fuel: the number of times `n` can be divided by `b`
before it drops below `b`. -/
def ilog (b : Nat) : Nat → Nat → Nat
  | 0, _ => 0
  | fuel + 1, n => if n < b then 0 else ilog b fuel (n / b) + 1

/-- For positive `n`, `d` and base `b ≥ 2`: `⌊log_b (n / d)⌋`. -/
def floorLog (b n d : Nat) : Int :=
  if d ≤ n then (ilog b n (n / d) : Int)
  else
    let j := ilog b d (d / n)
    if d ≤ n * b ^ j then -(j : Int) else -(j : Int) - 1

/-- The quotient `n / d` rounded to the nearest integer, ties to even. -/
def roundHalfEven (n d : Nat) : Nat :=
  let q := n / d
  let r := n % d
  if 2 * r < d then q
  else if d < 2 * r then q + 1
  else if q % 2 = 0 then q else q + 1

/-- `n / d * 2^(-e)` rounded to the nearest integer, ties to even. -/
def scaleRound2 (n d : Nat) (e : Int) : Nat :=
  if 0 ≤ e then roundHalfEven n (d * 2 ^ e.toNat) else roundHalfEven (n * 2 ^ (-e).toNat) d

/-- Round the rational `(-1)^neg * n / d` (`d > 0`) to format `f`: nearest datum,
ties to even, gradual underflow, overflow to infinity. -/
def Fp.round (f : FpFormat) (neg : Bool) (n d : Nat) : Fp f :=
  if n = 0 then Fp.zero f neg
  else
    let emin : Int := 1 - (f.bias : Int) - (f.mbits : Int)
    let e0 : Int := max (floorLog 2 n d - (f.mbits : Int)) emin
    let m0 := scaleRound2 n d e0
    let carry : Bool := m0 == 2 ^ (f.mbits + 1)
    let m := if carry then 2 ^ f.mbits else m0
    let e := if carry then e0 + 1 else e0
    if m < 2 ^ f.mbits then ⟨neg, 0, m⟩
    else
      let E : Int := e + (f.bias : Int) + (f.mbits : Int)
      if (f.expoMax : Int) ≤ E then Fp.inf f neg else ⟨neg, E.toNat, m - 2 ^ f.mbits⟩

/-- The datum of format `f` nearest to `(-1)^neg * N * 10^k`: the value of a decimal
literal or of a decimal string converted by `strtof` / `strtod`. -/
def Fp.ofDecimal (f : FpFormat) (neg : Bool) (N : Nat) (k : Int) : Fp f :=
  if 0 ≤ k then Fp.round f neg (N * 10 ^ k.toNat) 1 else Fp.round f neg N (10 ^ (-k).toNat)

/-- Conversion between formats (`float` to `double` is exact, `double` to `float`
rounds); infinities and NaNs are carried over. -/
def Fp.convert {f : FpFormat} (g : FpFormat) (x : Fp f) : Fp g :=
  if x.isNaN then Fp.nan g
  else if x.isInf then Fp.inf g x.sign
  else if 0 ≤ x.exp2 then Fp.round g x.sign (x.mant * 2 ^ x.exp2.toNat) 1
  else Fp.round g x.sign x.mant (2 ^ (-x.exp2).toNat)

/-- Signed integer significand of a finite datum at the common exponent `e ≤ x.exp2`. -/
def Fp.signedAt {f : FpFormat} (x : Fp f) (e : Int) : Int :=
  let m : Int := (x.mant * 2 ^ (x.exp2 - e).toNat : Nat)
  if x.sign then -m else m

/-- IEEE subtraction `a - b` in format `f`, rounding to nearest. -/
def Fp.sub {f : FpFormat} (a b : Fp f) : Fp f :=
  if a.isNaN || b.isNaN then Fp.nan f
  else if a.isInf then (if b.isInf && (a.sign == b.sign) then Fp.nan f else Fp.inf f a.sign)
  else if b.isInf then Fp.inf f (!b.sign)
  else
    let e := min a.exp2 b.exp2
    let d : Int := a.signedAt e - b.signedAt e
    if d = 0 then Fp.zero f (a.sign && !b.sign)
    else if 0 ≤ e then Fp.round f (decide (d < 0)) (d.natAbs * 2 ^ e.toNat) 1
    else Fp.round f (decide (d < 0)) d.natAbs (2 ^ (-e).toNat)

/-! ## Formatted output: `operator<<` -/

/-- ASCII digit for `d % 10`. -/
def digitChar (d : Nat) : Char := Char.ofNat (48 + d % 10)

/-- The `w` lowest decimal digits of `n`, most significant first. -/
def digitsFixed (w n : Nat) : List Char :=
  (List.range w).map (fun i => digitChar (n / 10 ^ (w - 1 - i)))

/-- Remove trailing `'0'` characters. -/
def stripZeros (l : List Char) : List Char :=
  (l.reverse.dropWhile (fun c => c == '0')).reverse

/-- A fraction part with its decimal point, or nothing when no digit is left. -/
def withPoint (fracDigits : List Char) : List Char :=
  if fracDigits.isEmpty then [] else '.' :: fracDigits

/-- The positive rational `n / d` rounded to `p` significant decimal digits
(ties to even): the digits as a number in `[10^(p-1), 10^p)` and the decimal
exponent of the leading digit. -/
def sigDigits (p n d : Nat) : Nat × Int :=
  let X := floorLog 10 n d
  let s : Int := (p : Int) - 1 - X
  let D := if 0 ≤ s then roundHalfEven (n * 10 ^ s.toNat) d
           else roundHalfEven n (d * 10 ^ (-s).toNat)
  if D = 10 ^ p then (10 ^ (p - 1), X + 1) else (D, X)

/-- Digits of a decimal exponent as `%e` prints them: at least two. -/
def expDigits (a : Nat) : List Char :=
  if a < 100 then digitsFixed 2 a else digitsFixed (ilog 10 a a + 1) a

/-- The `%g` conversion with precision `p ≥ 1` of a `float`: what
`std::ostream::operator<<(float)` writes when `floatfield` is unset.  The value
is rounded to `p` significant digits; fixed notation is used when the decimal
exponent `X` satisfies `-4 ≤ X < p`, scientific notation otherwise; trailing
zeros of the fraction, and a decimal point left bare, are removed. -/
def fmtG (p : Nat) (x : CFloat) : List Char :=
  let sgn : List Char := if x.sign then ['-'] else []
  if x.isNaN then sgn ++ ['n', 'a', 'n']
  else if x.isInf then sgn ++ ['i', 'n', 'f']
  else if x.mant = 0 then sgn ++ ['0']
  else
    let n := if 0 ≤ x.exp2 then x.mant * 2 ^ x.exp2.toNat else x.mant
    let d := if 0 ≤ x.exp2 then 1 else 2 ^ (-x.exp2).toNat
    let r := sigDigits p n d
    let ds := digitsFixed p r.1
    let X := r.2
    if -4 ≤ X ∧ X < (p : Int) then
      if 0 ≤ X then
        sgn ++ ds.take (X.toNat + 1) ++ withPoint (stripZeros (ds.drop (X.toNat + 1)))
      else
        sgn ++ ['0', '.'] ++ stripZeros (List.replicate ((-X).toNat - 1) '0' ++ ds)
    else
      sgn ++ ds.take 1 ++ withPoint (stripZeros (ds.drop 1))
        ++ ['e', if X < 0 then '-' else '+'] ++ expDigits X.natAbs

/-- Default `precision()` of a stream. -/
def defaultPrecision : Nat := 6

/-- Text written by `out << x` for a `float` on a stream with default flags. -/
def putFloat (x : CFloat) : List Char := fmtG defaultPrecision x

/-- Text written by `out << b` for a `bool` on a stream without `boolalpha`. -/
def putBool (b : Bool) : List Char := if b then ['1'] else ['0']

/-- A finite number of the format: the exponent field is not all ones and the fraction
field fits its width. -/
def Fp.isNumber {f : FpFormat} (x : Fp f) : Bool :=
  decide (x.expo < f.expoMax) && decide (x.frac < 2 ^ f.mbits)

/-- The largest finite `float`, `(2^24 - 1) * 2^104`, as a natural number. -/
def maxFloatNat : Nat := 340282346638528859811704183484516925440

/-- The `float` nearest to the value of `v` rounded to six significant decimal digits,
both roundings to nearest with ties to even. -/
def sixDigits (v : CFloat) : CFloat :=
  if v.mant = 0 then Fp.zero binary32 v.sign
  else
    let n := if 0 ≤ v.exp2 then v.mant * 2 ^ v.exp2.toNat else v.mant
    let d := if 0 ≤ v.exp2 then 1 else 2 ^ (-v.exp2).toNat
    let r := sigDigits defaultPrecision n d
    Fp.ofDecimal binary32 v.sign r.1 (r.2 - 5)

/-! ## Formatted input: `operator>>` -/

/-- `std::isspace` in the "C" locale. -/
def isSpace (c : Char) : Bool :=
  c == ' ' || c == '\t' || c == '\n' || c == '\x0b' || c == '\x0c' || c == '\r'

/-- ASCII decimal digit. -/
def isDigit (c : Char) : Bool := decide (48 ≤ c.toNat) && decide (c.toNat ≤ 57)

/-- Value of a string of decimal digits. -/
def natOfDigits (ds : List Char) : Nat :=
  ds.foldl (fun a c => 10 * a + (c.toNat - 48)) 0

/-- An input file stream: the characters not yet read and the two state bits the
program can reach (`badbit` needs a device error, which is not modelled). -/
structure IStream where
  buf : List Char
  failbit : Bool
  eofbit : Bool
deriving DecidableEq, Repr

/-- `good()`. -/
def IStream.good (s : IStream) : Bool := !s.failbit && !s.eofbit

/-- `operator bool`, i.e. `!fail()`. -/
def IStream.toBool (s : IStream) : Bool := !s.failbit

/-- The `sentry` of a formatted input function with `skipws` set: on a stream that
is not good it sets `failbit`; otherwise it skips white space, and if that reaches
the end of the input it sets `eofbit` and `failbit`.  The flag tells whether the
extraction may proceed. -/
def IStream.sentry (s : IStream) : IStream × Bool :=
  if s.good then
    let rest := s.buf.dropWhile isSpace
    if rest.isEmpty then (⟨[], true, true⟩, false) else (⟨rest, false, false⟩, true)
  else (⟨s.buf, true, s.eofbit⟩, false)

/-- Stage 2 of `num_get`: characters are accumulated for as long as the automaton
`step` accepts the next one.  Returns the accumulated field and the unread rest. -/
def scanWith {σ : Type} (step : σ → Char → Option σ) : σ → List Char → List Char × List Char
  | _, [] => ([], [])
  | st, c :: cs =>
    match step st c with
    | none => ([], c :: cs)
    | some st1 => let r := scanWith step st1 cs; (c :: r.1, r.2)

/-- What the accumulation of a floating-point field has seen so far. -/
structure FloatScan where
  /-- a sign is acceptable next (at the start, and right after the exponent letter) -/
  signOk : Bool
  /-- a mantissa digit was found -/
  mant : Bool
  /-- the decimal point was found -/
  dec : Bool
  /-- the exponent letter was found -/
  sci : Bool
deriving DecidableEq, Repr

def FloatScan.init : FloatScan := ⟨true, false, false, false⟩

/-- One character of a floating-point field: digits always; a sign at the start or
right after the exponent letter; one decimal point, before the exponent; one
exponent letter, after a mantissa digit. -/
def floatStep (st : FloatScan) (c : Char) : Option FloatScan :=
  if isDigit c then some ⟨false, true, st.dec, st.sci⟩
  else if c == '+' || c == '-' then
    (if st.signOk then some ⟨false, st.mant, st.dec, st.sci⟩ else none)
  else if c == '.' then
    (if !st.dec && !st.sci then some ⟨false, st.mant, true, st.sci⟩ else none)
  else if c == 'e' || c == 'E' then
    (if !st.sci && st.mant then some ⟨true, st.mant, st.dec, true⟩ else none)
  else none

/-- One character of a decimal integer field: a sign at the start, then digits. -/
def intStep (signOk : Bool) (c : Char) : Option Bool :=
  if isDigit c then some false
  else if c == '+' || c == '-' then (if signOk then some false else none)
  else none

/-- Split an optional leading sign off a field: `(negative, rest)`. -/
def splitSign : List Char → Bool × List Char
  | [] => (false, [])
  | c :: cs =>
    if c == '-' then (true, cs) else if c == '+' then (false, cs) else (false, c :: cs)

/-- Split an optional fraction part `. digits` off a field: `(fraction digits, rest)`. -/
def splitFraction : List Char → List Char × List Char
  | [] => ([], [])
  | c :: cs =>
    if c == '.' then (cs.takeWhile isDigit, cs.dropWhile isDigit) else ([], c :: cs)

/-- The decimal exponent denoted by an exponent part `e [sign] digits` with at least
one digit, `0` for no exponent part, `none` for anything else. -/
def parseExponent : List Char → Option Int
  | [] => some 0
  | c :: cs =>
    if c == 'e' || c == 'E' then
      let es := splitSign cs
      if !es.2.isEmpty && es.2.all isDigit then
        some (if es.1 then -(natOfDigits es.2 : Int) else (natOfDigits es.2 : Int))
      else none
    else none

/-- The decimal number `(-1)^neg * N * 10^k` denoted by a whole field of the shape
`[sign] digits [. digits] [e [sign] digits]` with at least one mantissa digit;
`none` when the field is not of that shape, which is when `strtof` does not
consume all of it. -/
def parseDecimal (s : List Char) : Option (Bool × Nat × Int) :=
  let sg := splitSign s
  let ip := sg.2.takeWhile isDigit
  let fr := splitFraction (sg.2.dropWhile isDigit)
  if (ip ++ fr.1).isEmpty then none
  else
    match parseExponent fr.2 with
    | some ex => some (sg.1, natOfDigits (ip ++ fr.1), ex - (fr.1.length : Int))
    | none => none

/-- The decimal integer denoted by a whole field `[sign] digits` with at least one
digit. -/
def parseInt (s : List Char) : Option Int :=
  let sg := splitSign s
  if !sg.2.isEmpty && sg.2.all isDigit then
    let n : Int := natOfDigits sg.2
    some (if sg.1 then -n else n)
  else none

/-- Outcome of stage 3 of `num_get`, the conversion of the accumulated field. -/
inductive Conv (α : Type) where
  /-- the field converts; the value is stored -/
  | ok (v : α)
  /-- the field does not convert: zero is stored and `failbit` is set -/
  | invalid
  /-- the field converts to a value out of range: the nearest representable value
  is stored and `failbit` is set -/
  | range (v : α)
deriving DecidableEq, Repr

/-- Stage 3 for `float`: the field is converted as by `strtof` (correctly rounded);
an overflowing value is replaced by the largest finite value of its sign. -/
def convFloat (field : List Char) : Conv CFloat :=
  match parseDecimal field with
  | none => Conv.invalid
  | some (neg, N, k) =>
    let v : CFloat := Fp.ofDecimal binary32 neg N k
    if v.isInf then Conv.range (Fp.maxFinite binary32 neg) else Conv.ok v

/-- Stage 3 for `bool` without `boolalpha`: the field is converted as a `long`;
`0` gives `false`, `1` gives `true`, any other value (also one that overflows
`long`) gives `true` with `failbit`. -/
def convBool (field : List Char) : Conv Bool :=
  match parseInt field with
  | none => Conv.invalid
  | some n => if n = 0 then Conv.ok false else if n = 1 then Conv.ok true else Conv.range true

/-- The common part of the arithmetic extractors: once the sentry lets the extraction
proceed, a field is accumulated and converted; the target keeps its value only when
the sentry stops the extraction.  `eofbit` is set when the accumulation used up the
input. -/
def IStream.extract {σ α : Type} (step : σ → Char → Option σ) (init : σ)
    (conv : List Char → Conv α) (zero : α) (s : IStream) (v : α) : IStream × α :=
  match s.sentry with
  | (s1, false) => (s1, v)
  | (s1, true) =>
    let r := scanWith step init s1.buf
    match conv r.1 with
    | Conv.ok x => (⟨r.2, false, r.2.isEmpty⟩, x)
    | Conv.invalid => (⟨r.2, true, r.2.isEmpty⟩, zero)
    | Conv.range x => (⟨r.2, true, r.2.isEmpty⟩, x)

/-- `in >> v` for a `float`. -/
def IStream.extractFloat (s : IStream) (v : CFloat) : IStream × CFloat :=
  s.extract floatStep FloatScan.init convFloat (Fp.zero binary32 false) v

/-- `in >> v` for a `bool`. -/
def IStream.extractBool (s : IStream) (v : Bool) : IStream × Bool :=
  s.extract intStep true convBool false v

/-- Contents of the files the program can see, by path; `none` for a path at which
no file exists. -/
abbrev FileSystem := String → Option (List Char)

/-- `std::ifstream in(filename)`: a stream over the file's characters, or a stream
with `failbit` set when the file cannot be opened. -/
def ifstreamOpen (fs : FileSystem) (filename : String) : IStream :=
  match fs filename with
  | some text => ⟨text, false, false⟩
  | none => ⟨[], true, false⟩

/-! ## Program state (`main.cpp`, lines 31-102) -/

/-- A `float` constant `N * 10^k`, as written with an `f` suffix. -/
def flt (N : Nat) (k : Int) : CFloat := Fp.ofDecimal binary32 false N k

/-- A `double` constant `N * 10^k`. -/
def dbl (N : Nat) (k : Int) : CDouble := Fp.ofDecimal binary64 false N k

/-- Implicit conversion `double` to `float`. -/
def toFloat (x : CDouble) : CFloat := Fp.convert binary32 x

/-- Implicit conversion `float` to `double`. -/
def toDouble (x : CFloat) : CDouble := Fp.convert binary64 x

/-- `glm::vec3`; the colour members `r`, `g`, `b` are other names of `x`, `y`, `z`. -/
structure Vec3 where
  x : CFloat
  y : CFloat
  z : CFloat
deriving DecidableEq, Repr

/-- `glm::vec3(v)`: all three components equal to `v`. -/
def Vec3.splat (v : CFloat) : Vec3 := ⟨v, v, v⟩

def SCR_WIDTH : Nat := 800

def SCR_HEIGHT : Nat := 600

structure PointLight where
  position : Vec3
  ambient : Vec3
  diffuse : Vec3
  specular : Vec3
  constant : CFloat
  linear : CFloat
  quadratic : CFloat
deriving DecidableEq, Repr

/-- Modelled from the spec: the `Camera` class is declared in `learnopengl/camera.h`,
which is not among the sources.  The record holds the pose the spec lists: position,
front, up and right vectors, yaw, pitch and zoom. -/
structure Camera where
  Position : Vec3
  Front : Vec3
  Up : Vec3
  Right : Vec3
  Yaw : CFloat
  Pitch : CFloat
  Zoom : CFloat
deriving DecidableEq, Repr

/-- Modelled from the spec: `Camera(position)`.  The constructor stores the position
it is given; `own` carries the members the header initialises on its own. -/
def Camera.new (position : Vec3) (own : Camera) : Camera :=
  { own with Position := position }

inductive Camera_Movement where
  | FORWARD
  | BACKWARD
  | LEFT
  | RIGHT
deriving DecidableEq, Repr

/-- The member functions of `Camera` that `main.cpp` calls.  Their bodies are in
`learnopengl/camera.h`; they are taken as parameters. -/
structure CameraOps where
  ProcessKeyboard : Camera → Camera_Movement → CFloat → Camera
  ProcessMouseMovement : Camera → CFloat → CFloat → Camera
  ProcessMouseScroll : Camera → CFloat → Camera

structure ProgramState where
  clearColor : Vec3
  ImGuiEnabled : Bool
  camera : Camera
  CameraMouseMovementUpdateEnabled : Bool
  backpackPosition : Vec3
  backpackScale : CFloat
  pointLight : PointLight
deriving DecidableEq, Repr

/-- `ProgramState::ProgramState()` with the default member initialisers.  `pointLight`
has no initialiser: its indeterminate content is the parameter `pl`. -/
def ProgramState.new (own : Camera) (pl : PointLight) : ProgramState :=
  { clearColor := Vec3.splat (flt 0 0)
    ImGuiEnabled := false
    camera := Camera.new ⟨flt 0 0, flt 0 0, flt 3 0⟩ own
    CameraMouseMovementUpdateEnabled := true
    backpackPosition := Vec3.splat (flt 0 0)
    backpackScale := flt 1 0
    pointLight := pl }

/-- The text `SaveToFile` sends to its output stream: ten values, each followed by a
newline. -/
def ProgramState.saveText (s : ProgramState) : List Char :=
  putFloat s.clearColor.x ++ '\n'
    :: putFloat s.clearColor.y ++ '\n'
    :: putFloat s.clearColor.z ++ '\n'
    :: putBool s.ImGuiEnabled ++ '\n'
    :: putFloat s.camera.Position.x ++ '\n'
    :: putFloat s.camera.Position.y ++ '\n'
    :: putFloat s.camera.Position.z ++ '\n'
    :: putFloat s.camera.Front.x ++ '\n'
    :: putFloat s.camera.Front.y ++ '\n'
    :: putFloat s.camera.Front.z ++ ['\n']

/-- `ProgramState::SaveToFile`.  `std::ofstream out(filename)` either opens the file,
emptying it, or fails; the stream is never tested (line 73), so after a failed open every
`<<` is dropped and no file is created or changed.  `writable` tells for which paths the
open succeeds; after a successful open the file holds the text written. -/
def ProgramState.SaveToFile (s : ProgramState) (filename : String) (writable : String → Bool)
    (fs : FileSystem) : FileSystem :=
  if writable filename then fun path => if path = filename then some s.saveText else fs path
  else fs

/-- `ProgramState::LoadFromFile`: when the stream opened, ten chained extractions,
each into the member it names. -/
def ProgramState.LoadFromFile (s : ProgramState) (filename : String) (fs : FileSystem) :
    ProgramState :=
  let in0 := ifstreamOpen fs filename
  if in0.toBool then
    let r1 := in0.extractFloat s.clearColor.x
    let r2 := r1.1.extractFloat s.clearColor.y
    let r3 := r2.1.extractFloat s.clearColor.z
    let r4 := r3.1.extractBool s.ImGuiEnabled
    let r5 := r4.1.extractFloat s.camera.Position.x
    let r6 := r5.1.extractFloat s.camera.Position.y
    let r7 := r6.1.extractFloat s.camera.Position.z
    let r8 := r7.1.extractFloat s.camera.Front.x
    let r9 := r8.1.extractFloat s.camera.Front.y
    let r10 := r9.1.extractFloat s.camera.Front.z
    { s with
      clearColor := ⟨r1.2, r2.2, r3.2⟩
      ImGuiEnabled := r4.2
      camera := { s.camera with
        Position := ⟨r5.2, r6.2, r7.2⟩
        Front := ⟨r8.2, r9.2, r10.2⟩ } }
  else s

/-! ## Window, globals and callbacks -/

/-- Values of the `GLFW_CURSOR` input mode. -/
inductive CursorMode where
  | GLFW_CURSOR_NORMAL
  | GLFW_CURSOR_HIDDEN
  | GLFW_CURSOR_DISABLED
deriving DecidableEq, Repr

def GLFW_RELEASE : Int := 0

def GLFW_PRESS : Int := 1

def GLFW_REPEAT : Int := 2

def GLFW_KEY_A : Int := 65

def GLFW_KEY_D : Int := 68

def GLFW_KEY_S : Int := 83

def GLFW_KEY_W : Int := 87

def GLFW_KEY_ESCAPE : Int := 256

def GLFW_KEY_F1 : Int := 290

/-- The part of the `GLFWwindow` the program reads or writes. -/
structure Window where
  cursorMode : CursorMode
  shouldClose : Bool
deriving DecidableEq, Repr

/-- The global variables of `main.cpp` together with the window. -/
structure App where
  lastX : CFloat
  lastY : CFloat
  firstMouse : Bool
  deltaTime : CFloat
  lastFrame : CFloat
  programState : ProgramState
  window : Window
deriving DecidableEq, Repr

/-- `key_callback` (lines 637-647). -/
def key_callback (a : App) (key _scancode action _mods : Int) : App :=
  if key = GLFW_KEY_F1 ∧ action = GLFW_PRESS then
    let ps := { a.programState with ImGuiEnabled := !a.programState.ImGuiEnabled }
    if ps.ImGuiEnabled then
      { a with
        programState := { ps with CameraMouseMovementUpdateEnabled := false }
        window := { a.window with cursorMode := CursorMode.GLFW_CURSOR_NORMAL } }
    else
      { a with
        programState := ps
        window := { a.window with cursorMode := CursorMode.GLFW_CURSOR_DISABLED } }
  else a

/-- `mouse_callback` (lines 579-594).  `xpos - lastX` and `lastY - ypos` are evaluated
in `double` and narrowed to `float`; the assignments to `lastX`, `lastY` narrow. -/
def mouse_callback (ops : CameraOps) (a : App) (xpos ypos : CDouble) : App :=
  let a1 := if a.firstMouse then
      { a with lastX := toFloat xpos, lastY := toFloat ypos, firstMouse := false } else a
  let xoffset := toFloat (Fp.sub xpos (toDouble a1.lastX))
  let yoffset := toFloat (Fp.sub (toDouble a1.lastY) ypos)
  let a2 := { a1 with lastX := toFloat xpos, lastY := toFloat ypos }
  if a2.programState.CameraMouseMovementUpdateEnabled then
    { a2 with programState := { a2.programState with
        camera := ops.ProcessMouseMovement a2.programState.camera xoffset yoffset } }
  else a2

/-- `scroll_callback` (lines 598-600). -/
def scroll_callback (ops : CameraOps) (a : App) (_xoffset yoffset : CDouble) : App :=
  { a with programState := { a.programState with
      camera := ops.ProcessMouseScroll a.programState.camera (toFloat yoffset) } }

/-- One conditional camera move of `processInput`. -/
def moveIf (ops : CameraOps) (down : Bool) (dir : Camera_Movement) (a : App) : App :=
  if down then
    { a with programState := { a.programState with
        camera := ops.ProcessKeyboard a.programState.camera dir a.deltaTime } }
  else a

/-- `processInput` (lines 555-567); `pressed k` is `glfwGetKey(window, k) == GLFW_PRESS`. -/
def processInput (ops : CameraOps) (pressed : Int → Bool) (a : App) : App :=
  let a0 := if pressed GLFW_KEY_ESCAPE then
      { a with window := { a.window with shouldClose := true } } else a
  let a1 := moveIf ops (pressed GLFW_KEY_W) Camera_Movement.FORWARD a0
  let a2 := moveIf ops (pressed GLFW_KEY_S) Camera_Movement.BACKWARD a1
  let a3 := moveIf ops (pressed GLFW_KEY_A) Camera_Movement.LEFT a2
  moveIf ops (pressed GLFW_KEY_D) Camera_Movement.RIGHT a3

/-- What the widgets of one `DrawImGui` pass leave in the variables they are bound
to (lines 613-619 and 629). -/
structure UiEdit where
  clearColor : Vec3
  backpackPosition : Vec3
  backpackScale : CFloat
  constant : CFloat
  linear : CFloat
  quadratic : CFloat
  CameraMouseMovementUpdateEnabled : Bool

/-- `DrawImGui` (lines 602-635), as far as it changes the program state. -/
def DrawImGui (e : UiEdit) (ps : ProgramState) : ProgramState :=
  { ps with
    clearColor := e.clearColor
    backpackPosition := e.backpackPosition
    backpackScale := e.backpackScale
    pointLight := { ps.pointLight with
      constant := e.constant, linear := e.linear, quadratic := e.quadratic }
    CameraMouseMovementUpdateEnabled := e.CameraMouseMovementUpdateEnabled }

/-- The path of the state file. -/
def stateFile : String := "resources/program_state.txt"

/-- The light parameters `main` assigns before the render loop (lines 334-342). -/
def mainPointLight : PointLight :=
  { position := Vec3.splat (toFloat (dbl 1 0))
    ambient := Vec3.splat (toFloat (dbl 1 (-1)))
    diffuse := Vec3.splat (toFloat (dbl 6 (-1)))
    specular := Vec3.splat (toFloat (dbl 1 0))
    constant := flt 1 0
    linear := flt 9 (-2)
    quadratic := flt 32 (-3) }

/-- The state `main` reaches at the head of the render loop (lines 37-43, 133,
145-149, 334-342): cursor captured, state constructed and loaded, cursor released if
the loaded state shows the UI, light parameters assigned. -/
def startup (own : Camera) (pl : PointLight) (fs : FileSystem) : App :=
  let ps := (ProgramState.new own pl).LoadFromFile stateFile fs
  { lastX := flt (SCR_WIDTH / 2) 0
    lastY := flt (SCR_HEIGHT / 2) 0
    firstMouse := true
    deltaTime := flt 0 0
    lastFrame := flt 0 0
    programState := { ps with pointLight := mainPointLight }
    window :=
      { cursorMode := if ps.ImGuiEnabled then CursorMode.GLFW_CURSOR_NORMAL
          else CursorMode.GLFW_CURSOR_DISABLED
        shouldClose := false } }

/-- What can happen between two tests of the loop condition. -/
inductive Event where
  /-- the head of a loop iteration up to `glfwSwapBuffers`: the clock is read, the
  keys are polled, and the UI pass runs if the UI is shown -/
  | frame (now : CDouble) (pressed : Int → Bool) (edit : UiEdit)
  /-- a key event delivered by `glfwPollEvents` -/
  | key (key scancode action mods : Int)
  /-- a cursor motion delivered by `glfwPollEvents` -/
  | cursorPos (xpos ypos : CDouble)
  /-- a scroll event delivered by `glfwPollEvents` -/
  | scroll (xoffset yoffset : CDouble)

/-- The state changes of one loop iteration before the events are polled (lines
352-360 and 533-534). -/
def frame (ops : CameraOps) (now : CDouble) (pressed : Int → Bool) (edit : UiEdit)
    (a : App) : App :=
  let currentFrame := toFloat now
  let a1 := { a with deltaTime := Fp.sub currentFrame a.lastFrame, lastFrame := currentFrame }
  let a2 := processInput ops pressed a1
  if a2.programState.ImGuiEnabled then
    { a2 with programState := DrawImGui edit a2.programState }
  else a2

/-- The effect of one event. -/
def handle (ops : CameraOps) (a : App) : Event → App
  | Event.frame now pressed edit => frame ops now pressed edit a
  | Event.key k sc act mods => key_callback a k sc act mods
  | Event.cursorPos x y => mouse_callback ops a x y
  | Event.scroll x y => scroll_callback ops a x y

/-- The effect of a sequence of events, in order. -/
def run (ops : CameraOps) (evs : List Event) (a : App) : App :=
  evs.foldl (handle ops) a

/-- The state of the program when the render loop is left, for the events handled
since startup. -/
def session (ops : CameraOps) (own : Camera) (pl : PointLight) (evs : List Event)
    (fs : FileSystem) : App :=
  run ops evs (startup own pl fs)

/-- The whole of `main` from the state file found at startup to the files left at
exit (line 542), for the events handled in between; `writable` tells which paths can be
opened for writing. -/
def mainRun (ops : CameraOps) (own : Camera) (pl : PointLight) (evs : List Event)
    (writable : String → Bool) (fs : FileSystem) : FileSystem :=
  (session ops own pl evs fs).programState.SaveToFile stateFile writable fs

/-! ## Texture upload (`loadTexture`, lines 648-683) -/

def GL_RED : Nat := 0x1903

def GL_RGB : Nat := 0x1907

def GL_RGBA : Nat := 0x1908

/-- The `format` variable of `loadTexture` after the `if` chain (lines 657-663);
`none` is the variable left without a value. -/
def textureFormat (nrComponents : Int) : Option Nat :=
  if nrComponents = 1 then some GL_RED
  else if nrComponents = 3 then some GL_RGB
  else if nrComponents = 4 then some GL_RGBA
  else none

/-- The arguments of the `glTexImage2D` call. -/
structure TexImage where
  internalformat : Option Nat
  width : Int
  height : Int
  format : Option Nat
deriving DecidableEq, Repr

/-- `loadTexture`, as far as the upload goes: `decoded` is what `stbi_load` reports
(`none` for a null pointer, else width, height and channel count); the result is the
upload made, if any. -/
def loadTexture (decoded : Option (Int × Int × Int)) : Option TexImage :=
  match decoded with
  | some (width, height, nrComponents) =>
    some ⟨textureFormat nrComponents, width, height, textureFormat nrComponents⟩
  | none => none

/-! ## The persisted fields, as a list -/

/-- A persisted value: a `float` member or the `bool` member. -/
inductive Field where
  | num (v : CFloat)
  | flag (b : Bool)
deriving DecidableEq, Repr

/-- The ten persisted members in file order: `clearColor.r/g/b`, `ImGuiEnabled`,
`camera.Position.x/y/z`, `camera.Front.x/y/z`. -/
def ProgramState.persisted (s : ProgramState) : List Field :=
  [Field.num s.clearColor.x, Field.num s.clearColor.y, Field.num s.clearColor.z,
   Field.flag s.ImGuiEnabled,
   Field.num s.camera.Position.x, Field.num s.camera.Position.y, Field.num s.camera.Position.z,
   Field.num s.camera.Front.x, Field.num s.camera.Front.y, Field.num s.camera.Front.z]

/-- The text `operator<<` writes for the value. -/
def Field.put : Field → List Char
  | Field.num v => putFloat v
  | Field.flag b => putBool b

/-- The zero of the value's type: `0.0f` or `false`. -/
def Field.zero : Field → Field
  | Field.num _ => Field.num (Fp.zero binary32 false)
  | Field.flag _ => Field.flag false

/-- The value rounded to six significant decimal digits: a `float` member by `sixDigits`,
the `bool` member unchanged. -/
def Field.sixDigits : Field → Field
  | Field.num v => Field.num (Projekat.sixDigits v)
  | Field.flag b => Field.flag b

/-- The field that `operator>>` accumulates from the input for a target of the slot's
type, and the input left. -/
def Field.scan : Field → List Char → List Char × List Char
  | Field.num _ => scanWith floatStep FloatScan.init
  | Field.flag _ => scanWith intStep true

/-- Conversion of an accumulated field for a target of the slot's type. -/
def Field.conv : Field → List Char → Conv Field
  | Field.num _, t =>
    match convFloat t with
    | Conv.ok v => Conv.ok (Field.num v)
    | Conv.invalid => Conv.invalid
    | Conv.range v => Conv.range (Field.num v)
  | Field.flag _, t =>
    match convBool t with
    | Conv.ok b => Conv.ok (Field.flag b)
    | Conv.invalid => Conv.invalid
    | Conv.range b => Conv.range (Field.flag b)

/-- `in >> member` for a persisted member. -/
def Field.extract (s : IStream) : Field → IStream × Field
  | Field.num v => ((s.extractFloat v).1, Field.num (s.extractFloat v).2)
  | Field.flag b => ((s.extractBool b).1, Field.flag (s.extractBool b).2)

/-- The values left in the targets by a chain `in >> m1 >> m2 >> ...`. -/
def IStream.extractAll (s : IStream) : List Field → List Field
  | [] => []
  | x :: xs => (x.extract s).2 :: IStream.extractAll (x.extract s).1 xs

/-- A token of a state file together with the white space in front of it. -/
structure Token where
  pre : List Char
  text : List Char
deriving DecidableEq, Repr

/-- The characters of a sequence of tokens. -/
def tokensText : List Token → List Char
  | [] => []
  | t :: ts => t.pre ++ t.text ++ tokensText ts

/-- Every token after the first is separated from its predecessor by white space. -/
def separatedTail : List Token → Bool
  | [] => true
  | t :: ts => !t.pre.isEmpty && t.pre.all isSpace && separatedTail ts

/-- The tokens are separated by white space; the first may start the file. -/
def separated : List Token → Bool
  | [] => true
  | t :: ts => t.pre.all isSpace && separatedTail ts

/-- The values the tokens denote for the given targets, when each token is a
well-formed number for its target: a decimal floating-point literal within the range
of `float` for a `float` member, the integer `0` or `1` for the `bool` member. -/
def decodeTokens : List Field → List Token → Option (List Field)
  | _, [] => some []
  | [], _ :: _ => none
  | slot :: slots, t :: ts =>
    match slot.conv t.text with
    | Conv.ok v => (decodeTokens slots ts).map (fun vs => v :: vs)
    | _ => none

/-- The text at which a target of the slot's type is expected is not a number: it
starts with a visible character and the field accumulated from it does not convert. -/
def nonNumeric (slot : Field) (junk : List Char) : Bool :=
  (match junk with
    | [] => false
    | c :: _ => !isSpace c)
  && (slot.conv (slot.scan junk).1 == Conv.invalid)

/-- The state in which the program can be after startup and after any key event: the
cursor is free exactly when the UI is shown and captured otherwise. -/
def cursorMatchesUi (a : App) : Prop :=
  a.window.cursorMode =
    if a.programState.ImGuiEnabled then CursorMode.GLFW_CURSOR_NORMAL
    else CursorMode.GLFW_CURSOR_DISABLED

/-- Successive `F1` press events, one for each `(scancode, mods)` pair. -/
def pressF1 (presses : List (Int × Int)) (a : App) : App :=
  presses.foldl (fun b p => key_callback b GLFW_KEY_F1 p.1 GLFW_PRESS p.2) a

/-- The event is a press of `F1`. -/
def Event.isF1Press : Event → Bool
  | Event.key k _ act _ => decide (k = GLFW_KEY_F1) && decide (act = GLFW_PRESS)
  | _ => false

/-! ## Auxiliary definitions for the statements -/

/-- The input left after a token ends the token: nothing, or white space first. -/
def fieldEnd : List Char → Bool
  | [] => true
  | c :: _ => isSpace c

/-- The part of a decimal field after the sign is well formed. -/
def bodyOk (body : List Char) : Bool :=
  !(body.takeWhile isDigit ++ (splitFraction (body.dropWhile isDigit)).1).isEmpty
    && (parseExponent (splitFraction (body.dropWhile isDigit)).2).isSome

/-- The nine persisted `float` members. -/
def ProgramState.persistedFloats (s : ProgramState) : List CFloat :=
  [s.clearColor.x, s.clearColor.y, s.clearColor.z,
   s.camera.Position.x, s.camera.Position.y, s.camera.Position.z,
   s.camera.Front.x, s.camera.Front.y, s.camera.Front.z]

/-- A file system without files. -/
def noFiles : FileSystem := fun _ => none

/-- Every path can be opened for writing. -/
def allWritable : String → Bool := fun _ => true

/-- No path can be opened for writing. -/
def noneWritable : String → Bool := fun _ => false

/-- A file system with one file. -/
def oneFile (filename : String) (text : List Char) : FileSystem :=
  fun path => if path = filename then some text else none

/-- A camera looking down the negative z axis from the origin. -/
def sampleCamera : Camera :=
  { Position := Vec3.splat (flt 0 0)
    Front := ⟨flt 0 0, flt 0 0, Fp.ofDecimal binary32 true 1 0⟩
    Up := ⟨flt 0 0, flt 1 0, flt 0 0⟩
    Right := ⟨flt 1 0, flt 0 0, flt 0 0⟩
    Yaw := Fp.ofDecimal binary32 true 90 0
    Pitch := flt 0 0
    Zoom := flt 45 0 }

/-- A freshly constructed program state. -/
def sampleState : ProgramState := ProgramState.new sampleCamera mainPointLight

/-- A state whose camera sits at `x = 1234567`, a `float` with seven significant
decimal digits. -/
def farState : ProgramState :=
  { sampleState with
    camera := { sampleState.camera with Position := ⟨flt 1234567 0, flt 0 0, flt 3 0⟩ } }

/-- A state with non-default values in several persisted members. -/
def tunedState : ProgramState :=
  { sampleState with
    clearColor := ⟨flt 5 (-1), flt 25 (-2), flt 1 (-1)⟩
    ImGuiEnabled := true
    camera := { sampleState.camera with
      Position := ⟨Fp.ofDecimal binary32 true 25 (-1), flt 1 0, flt 3 0⟩ } }

/-- A state like `tunedState` whose camera has drifted to `x = +infinity`. -/
def overflowState : ProgramState :=
  { tunedState with
    camera := { tunedState.camera with
      Position := ⟨Fp.inf binary32 false, flt 1 0, flt 3 0⟩ } }

/-- Camera operations that leave a visible trace of every call. -/
def sampleOps : CameraOps :=
  { ProcessKeyboard := fun c _ _ => { c with Zoom := flt 1 0 }
    ProcessMouseMovement := fun c x y => { c with Yaw := x, Pitch := y }
    ProcessMouseScroll := fun c z => { c with Zoom := z } }

/-- A program with the UI hidden, the cursor captured and mouse-look off. -/
def sampleApp : App :=
  { lastX := flt 400 0
    lastY := flt 300 0
    firstMouse := true
    deltaTime := flt 0 0
    lastFrame := flt 0 0
    programState := { sampleState with CameraMouseMovementUpdateEnabled := false }
    window := ⟨CursorMode.GLFW_CURSOR_DISABLED, false⟩ }


/-- The text `SaveToFile` writes, token by token: the first value starts the file, every
other value follows a newline. -/
def ProgramState.saveTokens (s : ProgramState) : List Token :=
  [⟨[], putFloat s.clearColor.x⟩, ⟨['\n'], putFloat s.clearColor.y⟩,
   ⟨['\n'], putFloat s.clearColor.z⟩, ⟨['\n'], putBool s.ImGuiEnabled⟩,
   ⟨['\n'], putFloat s.camera.Position.x⟩, ⟨['\n'], putFloat s.camera.Position.y⟩,
   ⟨['\n'], putFloat s.camera.Position.z⟩, ⟨['\n'], putFloat s.camera.Front.x⟩,
   ⟨['\n'], putFloat s.camera.Front.y⟩, ⟨['\n'], putFloat s.camera.Front.z⟩]

/-- The text of a file made of the given lines, each ended by a newline. -/
def linesText : List (List Char) → List Char
  | [] => []
  | l :: ls => l ++ '\n' :: linesText ls

/-! ## Rendering (`main`, lines 176-304 and 349-540) -/

/-- A `float` given in tenths, as the vertex tables write them. -/
def tenth (z : Int) : CFloat := Fp.ofDecimal binary32 (decide (z < 0)) z.natAbs (-1)

/-- The table `vertices0` (lines 179-224) in tenths: 36 vertices of a cube, each with
position, normal and texture coordinates. -/
def vertices0Tenths : List Int :=
  [
   -2, -2, -2, 0, 0, -10, 0, 0,
   2, -2, -2, 0, 0, -10, 10, 0,
   2, 2, -2, 0, 0, -10, 10, 10,
   2, 2, -2, 0, 0, -10, 10, 10,
   -2, 2, -2, 0, 0, -10, 0, 10,
   -2, -2, -2, 0, 0, -10, 0, 0,
   2, -2, 2, 0, 0, 10, 0, 0,
   -2, -2, 2, 0, 0, 10, 10, 0,
   -2, 2, 2, 0, 0, 10, 10, 10,
   -2, 2, 2, 0, 0, 10, 10, 10,
   2, 2, 2, 0, 0, 10, 0, 10,
   2, -2, 2, 0, 0, 10, 0, 0,
   -2, 2, -2, -10, 0, 0, 10, 0,
   -2, 2, 2, -10, 0, 0, 10, 10,
   -2, -2, 2, -10, 0, 0, 0, 10,
   -2, -2, 2, -10, 0, 0, 0, 10,
   -2, -2, -2, -10, 0, 0, 0, 0,
   -2, 2, -2, -10, 0, 0, 10, 0,
   2, 2, 2, 10, 0, 0, 10, 0,
   2, -2, 2, 10, 0, 0, 10, 10,
   2, -2, -2, 10, 0, 0, 0, 10,
   2, -2, -2, 10, 0, 0, 0, 10,
   2, 2, -2, 10, 0, 0, 0, 0,
   2, 2, 2, 10, 0, 0, 10, 0,
   -2, -2, -2, 0, -10, 0, 0, 10,
   2, -2, -2, 0, -10, 0, 10, 10,
   2, -2, 2, 0, -10, 0, 10, 0,
   2, -2, 2, 0, -10, 0, 10, 0,
   -2, -2, 2, 0, -10, 0, 0, 0,
   -2, -2, -2, 0, -10, 0, 0, 10,
   -2, 2, -2, 0, 10, 0, 0, 10,
   2, 2, -2, 0, 10, 0, 10, 10,
   2, 2, 2, 0, 10, 0, 10, 0,
   2, 2, 2, 0, 10, 0, 10, 0,
   -2, 2, 2, 0, 10, 0, 0, 0,
   -2, 2, -2, 0, 10, 0, 0, 10]

/-- The table `vertices1` (lines 227-260) in tenths: 24 vertices of four faces of the
room. -/
def vertices1Tenths : List Int :=
  [
   5, 5, -5, 10, 0, 0, 10, 10,
   5, -5, -5, 10, 0, 0, 10, 0,
   5, -5, 5, 10, 0, 0, 0, 0,
   5, 5, -5, 10, 0, 0, 10, 10,
   5, -5, 5, 10, 0, 0, 0, 0,
   5, 5, 5, 10, 0, 0, 0, 10,
   5, 5, -5, 0, 10, 0, 10, 0,
   -5, 5, -5, 0, 10, 0, 0, 0,
   -5, 5, 5, 0, 10, 0, 0, 10,
   5, 5, -5, 0, 10, 0, 10, 0,
   -5, 5, 5, 0, 10, 0, 0, 10,
   5, 5, 5, 0, 10, 0, 10, 10,
   5, 5, 5, 0, 0, 10, 10, 0,
   -5, 5, 5, 0, 0, 10, 0, 0,
   -5, -5, 5, 0, 0, 10, 0, 10,
   5, 5, 5, 0, 0, 10, 10, 0,
   -5, -5, 5, 0, 0, 10, 0, 10,
   5, -5, 5, 0, 0, 10, 10, 10,
   5, -5, -5, 0, -10, 0, 10, 10,
   -5, -5, -5, 0, -10, 0, 0, 10,
   -5, -5, 5, 0, -10, 0, 0, 0,
   5, -5, -5, 0, -10, 0, 10, 10,
   -5, -5, 5, 0, -10, 0, 0, 0,
   5, -5, 5, 0, -10, 0, 10, 0]

def vertices0 : List CFloat := vertices0Tenths.map tenth

def vertices1 : List CFloat := vertices1Tenths.map tenth

/-- The vertex array objects `main` creates. -/
inductive VaoId where
  | VAO
  | VAO1
deriving DecidableEq, Repr

/-- The buffer each vertex array reads from (lines 268-304): `VAO` is set up over
`VBO`, filled with `vertices1`; `VAO1` over `VBO1`, filled with `vertices0`. -/
def vaoBuffer : VaoId → List CFloat
  | VaoId.VAO => vertices1
  | VaoId.VAO1 => vertices0

/-- The stride of every attribute, in floats (`8 * sizeof(float)`). -/
def vertexStride : Nat := 8

/-- The attributes both vertex arrays enable, as `(size, offset)` in floats: position,
normal, texture coordinates. -/
def vertexAttribs : List (Nat × Nat) := [(3, 0), (3, 3), (2, 6)]

/-- The number of whole vertices a vertex array's buffer holds. -/
def vertexCount (v : VaoId) : Nat := (vaoBuffer v).length / vertexStride

/-- The shader objects `main` creates (lines 168-174). -/
inductive ShaderId where
  | ourShader
  | ourShader1
  | ourShader2
  | ourShader3
  | ourShader4
  | ourShader5
  | lightShader
deriving DecidableEq, Repr

/-- The textures `main` loads (lines 306-322). -/
inductive TextureId where
  | diffuseMap1
  | diffuseMap2
  | diffuseMap3
  | diffuseMap4
  | diffuseMap5
deriving DecidableEq, Repr

/-- The argument of `glCullFace`. -/
inductive CullMode where
  | GL_FRONT
  | GL_BACK
  | GL_FRONT_AND_BACK
deriving DecidableEq, Repr

/-- A 4x4 matrix, as the `glm` expression that builds it; the arithmetic of `glm` is not
modelled. `rotate m d axis` is `glm::rotate(m, glm::radians(d), axis)`, `perspective z w h
n f` is `glm::perspective(glm::radians(z), (float) w / (float) h, n, f)` and `view c` is
`c.GetViewMatrix()`. -/
inductive Mat4 where
  | identity
  | translate (m : Mat4) (v : Vec3)
  | rotate (m : Mat4) (degrees : CFloat) (axis : Vec3)
  | scale (m : Mat4) (v : Vec3)
  | perspective (zoom : CFloat) (width height : Nat) (near far : CFloat)
  | view (c : Camera)
deriving DecidableEq, Repr

/-- The value of a uniform variable. -/
inductive Uniform where
  | int (n : Int)
  | float (x : CFloat)
  | vec3 (v : Vec3)
  | mat4 (m : Mat4)
deriving DecidableEq, Repr

/-- The part of the OpenGL context the render loop reads or writes. -/
structure GLContext where
  /-- the program made current by `glUseProgram` -/
  program : Option ShaderId
  /-- the active texture unit, as an index -/
  activeTexture : Nat
  /-- the texture bound to `GL_TEXTURE_2D` on each unit -/
  texture2D : Nat → Option TextureId
  /-- the bound vertex array -/
  vertexArray : Option VaoId
  /-- whether `GL_CULL_FACE` is enabled -/
  cullFace : Bool
  cullMode : CullMode
  /-- red, green, blue and alpha of `glClearColor` -/
  clearColor : Vec3 × CFloat
  /-- the uniform variables of each program, by name -/
  uniforms : ShaderId → String → Option Uniform

/-- What one `glDrawArrays(GL_TRIANGLES, first, count)` call finds in the context. -/
structure DrawCall where
  program : Option ShaderId
  texture : Option TextureId
  vertexArray : Option VaoId
  first : Nat
  count : Nat
  cullFace : Bool
  cullMode : CullMode
  /-- the uniform variables of the current program -/
  uniforms : String → Option Uniform

/-- The context together with the draw calls issued so far, oldest first. -/
structure Gfx where
  gl : GLContext
  draws : List DrawCall

namespace Gfx

/-- `shader.use()`, i.e. `glUseProgram`. -/
def use (s : ShaderId) (x : Gfx) : Gfx :=
  { x with gl := { x.gl with program := some s } }

/-- `shader.setVec3`, `setFloat`, `setInt`, `setMat4`: the named uniform of the shader's
program takes the value.  In `main` every such call follows `use()` of the same shader. -/
def set (s : ShaderId) (name : String) (u : Uniform) (x : Gfx) : Gfx :=
  { x with gl := { x.gl with
      uniforms := fun s2 n => if s2 = s ∧ n = name then some u else x.gl.uniforms s2 n } }

def glClearColor (c : Vec3) (alpha : CFloat) (x : Gfx) : Gfx :=
  { x with gl := { x.gl with clearColor := (c, alpha) } }

/-- `glActiveTexture(GL_TEXTURE0 + unit)`. -/
def glActiveTexture (unit : Nat) (x : Gfx) : Gfx :=
  { x with gl := { x.gl with activeTexture := unit } }

/-- `glBindTexture(GL_TEXTURE_2D, t)`: on the active unit. -/
def glBindTexture (t : TextureId) (x : Gfx) : Gfx :=
  { x with gl := { x.gl with
      texture2D := fun u => if u = x.gl.activeTexture then some t else x.gl.texture2D u } }

def glBindVertexArray (v : VaoId) (x : Gfx) : Gfx :=
  { x with gl := { x.gl with vertexArray := some v } }

/-- `glEnable(GL_CULL_FACE)`. -/
def glEnableCullFace (x : Gfx) : Gfx :=
  { x with gl := { x.gl with cullFace := true } }

/-- `glDisable(GL_CULL_FACE)`. -/
def glDisableCullFace (x : Gfx) : Gfx :=
  { x with gl := { x.gl with cullFace := false } }

def glCullFace (m : CullMode) (x : Gfx) : Gfx :=
  { x with gl := { x.gl with cullMode := m } }

/-- `glDrawArrays(GL_TRIANGLES, first, count)`: the call is recorded with the context
it finds. -/
def glDrawArrays (first count : Nat) (x : Gfx) : Gfx :=
  { x with draws := x.draws ++
      [{ program := x.gl.program
         texture := x.gl.texture2D x.gl.activeTexture
         vertexArray := x.gl.vertexArray
         first := first
         count := count
         cullFace := x.gl.cullFace
         cullMode := x.gl.cullMode
         uniforms := match x.gl.program with
           | some p => x.gl.uniforms p
           | none => fun _ => none }] }

/-- The seven assignments that open the block of each of the shaders 1 to 5 (lines
372-381, 401-410, 431-440, 453-462, 482-491): light position, view position, the fixed
ambient, diffuse and specular light colours, the fixed specular material colour and the
block's shininess. -/
def setLightAndMaterial (s : ShaderId) (ps : ProgramState) (shininess : CFloat) (x : Gfx) :
    Gfx :=
  x |>.set s "pointLight.position" (Uniform.vec3 ps.pointLight.position)
    |>.set s "viewPos" (Uniform.vec3 ps.camera.Position)
    |>.set s "pointLight.ambient" (Uniform.vec3 (Vec3.splat (flt 2 (-1))))
    |>.set s "pointLight.diffuse" (Uniform.vec3 (Vec3.splat (flt 5 (-1))))
    |>.set s "pointLight.specular" (Uniform.vec3 (Vec3.splat (flt 1 0)))
    |>.set s "material.specular" (Uniform.vec3 (Vec3.splat (flt 5 (-1))))
    |>.set s "material.shininess" (Uniform.float shininess)

end Gfx

/-- The `model` matrix of the room (lines 389-391). -/
def roomModel : Mat4 :=
  Mat4.scale
    (Mat4.rotate Mat4.identity (flt 30 0) ⟨flt 0 0, flt 1 0, flt 0 0⟩)
    (Vec3.splat (toFloat (dbl 30 0)))

/-- The `model1` matrix of the terrain (lines 470-473). -/
def terrainModel : Mat4 :=
  Mat4.scale
    (Mat4.rotate
      (Mat4.translate Mat4.identity ⟨flt 0 0, Fp.ofDecimal binary32 true 1235 (-2), flt 0 0⟩)
      (flt 30 0) ⟨flt 0 0, flt 1 0, flt 0 0⟩)
    (Vec3.splat (flt 13 0))

/-- The `model1` matrix of the plant (lines 497-500). -/
def plantModel : Mat4 :=
  Mat4.scale
    (Mat4.rotate
      (Mat4.translate Mat4.identity ⟨flt 1 0, Fp.ofDecimal binary32 true 6 0, flt 25 (-1)⟩)
      (flt 30 0) ⟨flt 0 0, flt 1 0, flt 0 0⟩)
    ⟨flt 13 0, flt 18 0, flt 13 0⟩

/-- The rendering part of one loop iteration (lines 366-504), from the context it finds:
the context it leaves and the draw calls it issues. -/
def renderScene (ps : ProgramState) (g : GLContext) : Gfx :=
  let projection := Mat4.perspective ps.camera.Zoom SCR_WIDTH SCR_HEIGHT (flt 1 (-1)) (flt 100 0)
  let view1 := Mat4.view ps.camera
  (⟨g, []⟩ : Gfx)
    |>.glClearColor ps.clearColor (flt 1 0)
    -- room, first face
    |>.use ShaderId.ourShader1
    |>.setLightAndMaterial ShaderId.ourShader1 ps (flt 100 0)
    |>.glActiveTexture 0
    |>.glBindTexture TextureId.diffuseMap1
    |>.glBindVertexArray VaoId.VAO
    |>.set ShaderId.ourShader1 "model" (Uniform.mat4 roomModel)
    |>.set ShaderId.ourShader1 "projection" (Uniform.mat4 projection)
    |>.set ShaderId.ourShader1 "view" (Uniform.mat4 view1)
    |>.glDrawArrays 0 6
    -- room, second face
    |>.use ShaderId.ourShader3
    |>.setLightAndMaterial ShaderId.ourShader3 ps (flt 80 0)
    |>.glActiveTexture 0
    |>.glBindTexture TextureId.diffuseMap3
    |>.set ShaderId.ourShader3 "model" (Uniform.mat4 roomModel)
    |>.set ShaderId.ourShader3 "projection" (Uniform.mat4 projection)
    |>.set ShaderId.ourShader3 "view" (Uniform.mat4 view1)
    |>.glDrawArrays 6 6
    -- room, third face
    |>.use ShaderId.ourShader1
    |>.glActiveTexture 0
    |>.glBindTexture TextureId.diffuseMap1
    |>.glDrawArrays 12 6
    -- room, fourth face
    |>.use ShaderId.ourShader2
    |>.setLightAndMaterial ShaderId.ourShader2 ps (flt 50 0)
    |>.glActiveTexture 0
    |>.glBindTexture TextureId.diffuseMap2
    |>.set ShaderId.ourShader2 "model" (Uniform.mat4 roomModel)
    |>.set ShaderId.ourShader2 "projection" (Uniform.mat4 projection)
    |>.set ShaderId.ourShader2 "view" (Uniform.mat4 view1)
    |>.glDrawArrays 18 6
    -- terrain
    |>.use ShaderId.ourShader4
    |>.setLightAndMaterial ShaderId.ourShader4 ps (flt 45 0)
    |>.glEnableCullFace
    |>.glCullFace CullMode.GL_FRONT
    |>.glBindVertexArray VaoId.VAO1
    |>.glActiveTexture 0
    |>.glBindTexture TextureId.diffuseMap4
    |>.set ShaderId.ourShader4 "model" (Uniform.mat4 terrainModel)
    |>.set ShaderId.ourShader4 "view" (Uniform.mat4 view1)
    |>.set ShaderId.ourShader4 "projection" (Uniform.mat4 projection)
    |>.glDrawArrays 0 36
    |>.glDisableCullFace
    -- plant
    |>.use ShaderId.ourShader5
    |>.setLightAndMaterial ShaderId.ourShader5 ps (flt 30 0)
    |>.glActiveTexture 0
    |>.glBindTexture TextureId.diffuseMap5
    |>.set ShaderId.ourShader5 "model" (Uniform.mat4 plantModel)
    |>.set ShaderId.ourShader5 "view" (Uniform.mat4 view1)
    |>.set ShaderId.ourShader5 "projection" (Uniform.mat4 projection)
    |>.glDrawArrays 0 6

/-- The program state the rendering of a loop iteration reads: after the clock and the
keys were handled (lines 352-360), before the UI pass. -/
def afterInput (ops : CameraOps) (now : CDouble) (pressed : Int → Bool) (a : App) : App :=
  processInput ops pressed
    { a with deltaTime := Fp.sub (toFloat now) a.lastFrame, lastFrame := toFloat now }

/-- The running program with its OpenGL context and the draw calls of every loop
iteration so far, oldest first. -/
structure Machine where
  app : App
  gl : GLContext
  frames : List (List DrawCall)

/-- The effect of one event on program and context.  A loop iteration renders the
scene from the context the previous one left; the UI pass restores the context it
finds, and the callbacks do not touch it. -/
def Machine.step (ops : CameraOps) (m : Machine) : Event → Machine
  | Event.frame now pressed edit =>
    { app := frame ops now pressed edit m.app
      gl := (renderScene (afterInput ops now pressed m.app).programState m.gl).gl
      frames := m.frames ++
        [(renderScene (afterInput ops now pressed m.app).programState m.gl).draws] }
  | e => { m with app := handle ops m.app e }

/-- The effect of a sequence of events on program and context. -/
def Machine.run (ops : CameraOps) (evs : List Event) (m : Machine) : Machine :=
  evs.foldl (Machine.step ops) m

/-- Program and context at the head of the render loop.  Face culling is enabled with
mode `GL_FRONT` (lines 176-177) and nothing before the loop changes it again; `g0`
carries the rest of the context. -/
def Machine.start (own : Camera) (pl : PointLight) (fs : FileSystem) (g0 : GLContext) :
    Machine :=
  { app := startup own pl fs
    gl := { g0 with cullFace := true, cullMode := CullMode.GL_FRONT }
    frames := [] }

/-- The parts of a draw call that do not depend on the camera: program, texture,
vertex array, vertex range, and the `model` and `pointLight.position` uniforms. -/
structure DrawSummary where
  program : Option ShaderId
  texture : Option TextureId
  vertexArray : Option VaoId
  first : Nat
  count : Nat
  model : Option Uniform
  lightPosition : Option Uniform
deriving DecidableEq, Repr

def DrawCall.summary (d : DrawCall) : DrawSummary :=
  { program := d.program
    texture := d.texture
    vertexArray := d.vertexArray
    first := d.first
    count := d.count
    model := d.uniforms "model"
    lightPosition := d.uniforms "pointLight.position" }

/-- The draw calls of a loop iteration, for the light position held by the state. -/
def sceneDraws (light : Vec3) : List DrawSummary :=
  [⟨some ShaderId.ourShader1, some TextureId.diffuseMap1, some VaoId.VAO, 0, 6,
      some (Uniform.mat4 roomModel), some (Uniform.vec3 light)⟩,
   ⟨some ShaderId.ourShader3, some TextureId.diffuseMap3, some VaoId.VAO, 6, 6,
      some (Uniform.mat4 roomModel), some (Uniform.vec3 light)⟩,
   ⟨some ShaderId.ourShader1, some TextureId.diffuseMap1, some VaoId.VAO, 12, 6,
      some (Uniform.mat4 roomModel), some (Uniform.vec3 light)⟩,
   ⟨some ShaderId.ourShader2, some TextureId.diffuseMap2, some VaoId.VAO, 18, 6,
      some (Uniform.mat4 roomModel), some (Uniform.vec3 light)⟩,
   ⟨some ShaderId.ourShader4, some TextureId.diffuseMap4, some VaoId.VAO1, 0, 36,
      some (Uniform.mat4 terrainModel), some (Uniform.vec3 light)⟩,
   ⟨some ShaderId.ourShader5, some TextureId.diffuseMap5, some VaoId.VAO1, 0, 6,
      some (Uniform.mat4 plantModel), some (Uniform.vec3 light)⟩]

/-- The face culling a draw call is made with: the culled face, or `none` when culling
is disabled. -/
def DrawCall.culling (d : DrawCall) : Option CullMode :=
  if d.cullFace then some d.cullMode else none

/-- The vertex indices a draw call reads. -/
def DrawCall.vertices (d : DrawCall) : List Nat := List.range' d.first d.count

/-- The indices into the buffer, in floats, that the attributes of vertex `i` read. -/
def floatsOfVertex (i : Nat) : List Nat :=
  vertexAttribs.flatMap (fun sa => List.range' (vertexStride * i + sa.2) sa.1)

/-- Every float read for the vertices `first .. first + count - 1` lies inside the
buffer of the vertex array. -/
def rangeInBounds (v : Option VaoId) (first count : Nat) : Bool :=
  match v with
  | some v => (List.range' first count).all (fun i => (floatsOfVertex i).all
      (fun j => decide (j < (vaoBuffer v).length)))
  | none => false

/-- Every float the draw call reads lies inside the buffer of the bound vertex
array. -/
def DrawCall.inBounds (d : DrawCall) : Bool :=
  rangeInBounds d.vertexArray d.first d.count

/-- A cursor position is carried by `float` without loss. -/
def fitsFloat (x : CDouble) : Bool := x.isFinite && (toDouble (toFloat x) == x)

/-- The event is a loop iteration. -/
def Event.isFrame : Event → Bool
  | Event.frame _ _ _ => true
  | _ => false

/-- The face culling of the six draw calls of a loop iteration that finds the
context with culling `c`: the four room faces inherit it, the terrain is drawn with
front faces culled, the plant with culling disabled. -/
def sceneCulling (c : Option CullMode) : List (Option CullMode) :=
  [c, c, c, c, some CullMode.GL_FRONT, none]

/-! ## Lemmas on the stream operations -/

theorem isSpace_cases {c : Char} (h : isSpace c = true) :
    c = ' ' ∨ c = '\t' ∨ c = '\n' ∨ c = '\x0b' ∨ c = '\x0c' ∨ c = '\r' := by
  simpa [isSpace, or_assoc] using h

theorem floatStep_space (st : FloatScan) {c : Char} (h : isSpace c = true) :
    floatStep st c = none := by
  rcases isSpace_cases h with h | h | h | h | h | h <;> subst h <;> rfl

theorem intStep_space (b : Bool) {c : Char} (h : isSpace c = true) :
    intStep b c = none := by
  rcases isSpace_cases h with h | h | h | h | h | h <;> subst h <;> rfl

theorem scanWith_cons_some {σ : Type} (step : σ → Char → Option σ) {st st1 : σ} {c : Char}
    (cs : List Char) (h : step st c = some st1) :
    scanWith step st (c :: cs) = (c :: (scanWith step st1 cs).1, (scanWith step st1 cs).2) := by
  simp [scanWith, h]

theorem scanWith_cons_none {σ : Type} (step : σ → Char → Option σ) {st : σ} {c : Char}
    (cs : List Char) (h : step st c = none) :
    scanWith step st (c :: cs) = ([], c :: cs) := by
  simp [scanWith, h]

theorem scanWith_fieldEnd_float (st : FloatScan) {rest : List Char} (h : fieldEnd rest = true) :
    scanWith floatStep st rest = ([], rest) := by
  cases rest with
  | nil => rfl
  | cons c cs => simp [scanWith, floatStep_space st (show isSpace c = true from h)]

theorem scanWith_fieldEnd_int (b : Bool) {rest : List Char} (h : fieldEnd rest = true) :
    scanWith intStep b rest = ([], rest) := by
  cases rest with
  | nil => rfl
  | cons c cs => simp [scanWith, intStep_space b (show isSpace c = true from h)]

theorem floatStep_digit (st : FloatScan) {c : Char} (h : isDigit c = true) :
    floatStep st c = some ⟨false, true, st.dec, st.sci⟩ := by
  simp [floatStep, h]

theorem intStep_digit (b : Bool) {c : Char} (h : isDigit c = true) :
    intStep b c = some false := by
  simp [intStep, h]

theorem scan_float_digits (ds : List Char) (hd : ds.all isDigit = true) (hne : ds ≠ [])
    (st : FloatScan) (rest : List Char) :
    scanWith floatStep st (ds ++ rest)
      = (ds ++ (scanWith floatStep ⟨false, true, st.dec, st.sci⟩ rest).1,
         (scanWith floatStep ⟨false, true, st.dec, st.sci⟩ rest).2) := by
  induction ds generalizing st with
  | nil => exact absurd rfl hne
  | cons c cs ih =>
    simp only [List.all_cons, Bool.and_eq_true] at hd
    rw [List.cons_append, scanWith_cons_some floatStep _ (floatStep_digit st hd.1)]
    cases cs with
    | nil => simp
    | cons c2 cs2 =>
      have := ih hd.2 (by simp) ⟨false, true, st.dec, st.sci⟩
      simp only [List.cons_append] at this
      simp [this]

theorem scan_int_digits (ds : List Char) (hd : ds.all isDigit = true) (hne : ds ≠ [])
    (b : Bool) (rest : List Char) :
    scanWith intStep b (ds ++ rest)
      = (ds ++ (scanWith intStep false rest).1, (scanWith intStep false rest).2) := by
  induction ds generalizing b with
  | nil => exact absurd rfl hne
  | cons c cs ih =>
    simp only [List.all_cons, Bool.and_eq_true] at hd
    rw [List.cons_append, scanWith_cons_some intStep _ (intStep_digit b hd.1)]
    cases cs with
    | nil => simp
    | cons c2 cs2 =>
      have := ih hd.2 (by simp) false
      simp only [List.cons_append] at this
      simp [this]

theorem scan_float_signed_digits (st : FloatScan) (hso : st.signOk = true)
    (cs rest : List Char)
    (h : ((splitSign cs).2.isEmpty = false) ∧ (splitSign cs).2.all isDigit = true)
    (hr : fieldEnd rest = true) :
    scanWith floatStep st (cs ++ rest) = (cs, rest) := by
  cases cs with
  | nil => simp [splitSign] at h
  | cons c t =>
    by_cases hm : c = '-'
    · subst hm
      have h2 : (t.isEmpty = false) ∧ t.all isDigit = true := by simpa [splitSign] using h
      have hne : t ≠ [] := by
        intro h0; simp [h0] at h2
      have hs : floatStep st '-' = some ⟨false, st.mant, st.dec, st.sci⟩ := by
        simp [floatStep, hso, isDigit]
      rw [List.cons_append, scanWith_cons_some floatStep _ hs,
        scan_float_digits t h2.2 hne, scanWith_fieldEnd_float _ hr]
      simp
    · by_cases hp : c = '+'
      · subst hp
        have h2 : (t.isEmpty = false) ∧ t.all isDigit = true := by simpa [splitSign] using h
        have hne : t ≠ [] := by
          intro h0; simp [h0] at h2
        have hs : floatStep st '+' = some ⟨false, st.mant, st.dec, st.sci⟩ := by
          simp [floatStep, hso, isDigit]
        rw [List.cons_append, scanWith_cons_some floatStep _ hs,
          scan_float_digits t h2.2 hne, scanWith_fieldEnd_float _ hr]
        simp
      · have h2 : (c :: t).all isDigit = true := by
          have := h.2
          simpa [splitSign, hm, hp] using this
        rw [scan_float_digits (c :: t) h2 (by simp), scanWith_fieldEnd_float _ hr]
        simp

theorem scan_float_exponent (st : FloatScan) (hm : st.mant = true) (hs : st.sci = false)
    (r2 rest : List Char) (h : (parseExponent r2).isSome = true) (hr : fieldEnd rest = true) :
    scanWith floatStep st (r2 ++ rest) = (r2, rest) := by
  cases r2 with
  | nil => simpa using scanWith_fieldEnd_float st hr
  | cons c cs =>
    have hc : c = 'e' ∨ c = 'E' := by
      by_contra hcon
      push_neg at hcon
      simp [parseExponent, hcon.1, hcon.2] at h
    have hstep : floatStep st c = some ⟨true, st.mant, st.dec, true⟩ := by
      rcases hc with hc | hc <;> subst hc <;> simp [floatStep, hm, hs, isDigit]
    have h2 : ((splitSign cs).2.isEmpty = false) ∧ (splitSign cs).2.all isDigit = true := by
      rcases hc with hc | hc <;> subst hc <;>
      · simp only [parseExponent] at h
        by_contra hcon
        have : (!(splitSign cs).2.isEmpty && (splitSign cs).2.all isDigit) = false := by
          cases h1 : (splitSign cs).2.isEmpty <;> cases h3 : (splitSign cs).2.all isDigit <;> simp_all
        simp [this] at h
    rw [List.cons_append, scanWith_cons_some floatStep _ hstep,
      scan_float_signed_digits ⟨true, st.mant, st.dec, true⟩ rfl cs rest h2 hr]

theorem scan_float_digits_ex (ds : List Char) (hd : ds.all isDigit = true)
    (st : FloatScan) (rest : List Char) :
    ∃ st1 : FloatScan, st1.mant = (st.mant || !ds.isEmpty) ∧ st1.dec = st.dec
      ∧ st1.sci = st.sci
      ∧ scanWith floatStep st (ds ++ rest)
          = (ds ++ (scanWith floatStep st1 rest).1, (scanWith floatStep st1 rest).2) := by
  cases ds with
  | nil => exact ⟨st, by simp, rfl, rfl, by simp⟩
  | cons c cs =>
    exact ⟨⟨false, true, st.dec, st.sci⟩, by simp, rfl, rfl,
      scan_float_digits (c :: cs) hd (by simp) st rest⟩

theorem all_takeWhile_isDigit (l : List Char) : (l.takeWhile isDigit).all isDigit = true := by
  simp only [List.all_eq_true]
  intro x hx
  exact List.mem_takeWhile_imp hx

theorem scan_float_body (st : FloatScan) (hm : st.mant = false) (hd : st.dec = false)
    (hs : st.sci = false) (body rest : List Char) (h : bodyOk body = true)
    (hr : fieldEnd rest = true) :
    scanWith floatStep st (body ++ rest) = (body, rest) := by
  have hsplit : body.takeWhile isDigit ++ body.dropWhile isDigit = body :=
    List.takeWhile_append_dropWhile isDigit body
  have hip : (body.takeWhile isDigit).all isDigit = true := all_takeWhile_isDigit body
  simp only [bodyOk, Bool.and_eq_true] at h
  obtain ⟨hne, hex⟩ := h
  generalize body.takeWhile isDigit = ip at *
  generalize body.dropWhile isDigit = r1 at *
  subst hsplit
  obtain ⟨st1, hm1, hd1, hs1, hscan1⟩ := scan_float_digits_ex ip hip st (r1 ++ rest)
  rw [List.append_assoc, hscan1]
  rw [hm] at hm1
  rw [hd] at hd1
  rw [hs] at hs1
  cases r1 with
  | nil =>
    simp only [splitFraction] at hne
    rw [List.nil_append, scanWith_fieldEnd_float _ hr]
  | cons c t =>
    by_cases hdot : c = '.'
    · subst hdot
      have hfr : splitFraction ('.' :: t) = (t.takeWhile isDigit, t.dropWhile isDigit) := by
        simp [splitFraction]
      rw [hfr] at hne hex
      simp only at hne hex
      have hstep : floatStep st1 '.' = some ⟨false, st1.mant, true, st1.sci⟩ := by
        simp [floatStep, hd1, hs1, isDigit]
      obtain ⟨st3, hm3, _, hs3, hscan3⟩ :=
        scan_float_digits_ex (t.takeWhile isDigit) (all_takeWhile_isDigit t)
          ⟨false, st1.mant, true, st1.sci⟩ (t.dropWhile isDigit ++ rest)
      have hm3t : st3.mant = true := by
        rw [hm3, hm1]
        cases hi : ip.isEmpty <;> cases hf : (t.takeWhile isDigit).isEmpty <;> simp_all
      have hs3f : st3.sci = false := by rw [hs3]; exact hs1
      have ht : t = t.takeWhile isDigit ++ t.dropWhile isDigit :=
        (List.takeWhile_append_dropWhile isDigit t).symm
      have hrest : t ++ rest = t.takeWhile isDigit ++ (t.dropWhile isDigit ++ rest) := by
        rw [← List.append_assoc, ← ht]
      rw [List.cons_append, scanWith_cons_some floatStep _ hstep, hrest, hscan3,
        scan_float_exponent st3 hm3t hs3f _ rest hex hr]
      simp only [← List.append_assoc, ← ht]
    · have hfr : splitFraction (c :: t) = ([], c :: t) := by
        simp [splitFraction, hdot]
      rw [hfr] at hne hex
      simp only [List.append_nil] at hne hex
      have hm1t : st1.mant = true := by
        rw [hm1]
        cases hi : ip.isEmpty <;> simp_all
      rw [scan_float_exponent st1 hm1t hs1 _ rest hex hr]

theorem splitSign_cases (s : List Char) :
    (s = '-' :: (splitSign s).2) ∨ (s = '+' :: (splitSign s).2)
      ∨ (s = (splitSign s).2 ∧ ∀ c t, s = c :: t → c ≠ '-' ∧ c ≠ '+') := by
  cases s with
  | nil => right; right; simp [splitSign]
  | cons c t =>
    by_cases hm : c = '-'
    · left; simp [splitSign, hm]
    · by_cases hp : c = '+'
      · right; left; simp [splitSign, hp]
      · right; right; simp [splitSign, hm, hp]

theorem bodyOk_of_parseDecimal {s : List Char} {r : Bool × Nat × Int}
    (h : parseDecimal s = some r) : bodyOk (splitSign s).2 = true := by
  unfold parseDecimal at h
  unfold bodyOk
  simp only at h
  split at h
  · exact absurd h (by simp)
  · rename_i hne
    split at h
    · rename_i ex hex
      simp [hne, hex]
    · exact absurd h (by simp)

/-- A decimal field is accumulated whole when the input after it ends the field. -/
theorem scan_float_whole {tok : List Char} {r : Bool × Nat × Int}
    (h : parseDecimal tok = some r) (rest : List Char) (hr : fieldEnd rest = true) :
    scanWith floatStep FloatScan.init (tok ++ rest) = (tok, rest) := by
  have hb := bodyOk_of_parseDecimal h
  rcases splitSign_cases tok with hs | hs | hs
  · have hstep : floatStep FloatScan.init '-' = some ⟨false, false, false, false⟩ := rfl
    rw [hs, List.cons_append, scanWith_cons_some floatStep _ hstep,
      scan_float_body _ rfl rfl rfl _ rest hb hr]
  · have hstep : floatStep FloatScan.init '+' = some ⟨false, false, false, false⟩ := rfl
    rw [hs, List.cons_append, scanWith_cons_some floatStep _ hstep,
      scan_float_body _ rfl rfl rfl _ rest hb hr]
  · rw [← hs.1] at hb
    exact scan_float_body _ rfl rfl rfl _ rest hb hr

theorem scan_int_whole {tok : List Char} {n : Int}
    (h : parseInt tok = some n) (rest : List Char) (hr : fieldEnd rest = true) :
    scanWith intStep true (tok ++ rest) = (tok, rest) := by
  have hb : ((splitSign tok).2.isEmpty = false) ∧ (splitSign tok).2.all isDigit = true := by
    unfold parseInt at h
    simp only at h
    split at h
    · rename_i hc
      simpa using hc
    · exact absurd h (by simp)
  have hne : (splitSign tok).2 ≠ [] := by
    intro h0; rw [h0] at hb; simp at hb
  rcases splitSign_cases tok with hs | hs | hs
  · have hstep : intStep true '-' = some false := rfl
    rw [hs, List.cons_append, scanWith_cons_some intStep _ hstep,
      scan_int_digits _ hb.2 hne, scanWith_fieldEnd_int _ hr]
    simp
  · have hstep : intStep true '+' = some false := rfl
    rw [hs, List.cons_append, scanWith_cons_some intStep _ hstep,
      scan_int_digits _ hb.2 hne, scanWith_fieldEnd_int _ hr]
    simp
  · have := scan_int_digits _ hb.2 hne true rest
    rw [← hs.1, scanWith_fieldEnd_int _ hr] at this
    simpa using this

theorem parseDecimal_nil : parseDecimal [] = none := rfl

theorem parseDecimal_head_not_space {c : Char} {t : List Char} {r : Bool × Nat × Int}
    (h : parseDecimal (c :: t) = some r) : isSpace c = false := by
  have hw := scan_float_whole h [] rfl
  rw [List.append_nil] at hw
  cases hsp : isSpace c
  · rfl
  · rw [scanWith_cons_none floatStep _ (floatStep_space _ hsp)] at hw
    simp at hw

theorem dropWhile_space_append (pre : List Char) (hpre : pre.all isSpace = true)
    (c : Char) (t : List Char) (hc : isSpace c = false) :
    (pre ++ c :: t).dropWhile isSpace = c :: t := by
  induction pre with
  | nil => simp [List.dropWhile, hc]
  | cons p ps ih =>
    simp only [List.all_cons, Bool.and_eq_true] at hpre
    simp [List.dropWhile, hpre.1, ih hpre.2]

theorem dropWhile_space_all (l : List Char) (h : l.all isSpace = true) :
    l.dropWhile isSpace = [] := by
  induction l with
  | nil => rfl
  | cons p ps ih =>
    simp only [List.all_cons, Bool.and_eq_true] at h
    simp [List.dropWhile, h.1, ih h.2]

theorem sentry_at_token (pre : List Char) (hpre : pre.all isSpace = true)
    (c : Char) (t : List Char) (hc : isSpace c = false) :
    IStream.sentry ⟨pre ++ c :: t, false, false⟩ = (⟨c :: t, false, false⟩, true) := by
  simp [IStream.sentry, IStream.good, dropWhile_space_append pre hpre c t hc]

theorem sentry_failed (s : IStream) (h : s.failbit = true) :
    s.sentry = (s, false) := by
  cases s with
  | mk buf fb eb =>
    simp only at h
    subst h
    simp [IStream.sentry, IStream.good]

theorem sentry_blank (s : IStream) (h : s.buf.all isSpace = true) :
    s.sentry.2 = false ∧ s.sentry.1.failbit = true := by
  unfold IStream.sentry
  cases hg : s.good
  · simp
  · simp [dropWhile_space_all s.buf h]

theorem extract_stopped {σ α : Type} (step : σ → Char → Option σ) (init : σ)
    (conv : List Char → Conv α) (zero : α) (s : IStream) (v : α) (h : s.sentry.2 = false) :
    s.extract step init conv zero v = (s.sentry.1, v) := by
  unfold IStream.extract
  rcases hs : s.sentry with ⟨s1, b⟩
  rw [hs] at h
  simp only at h
  subst h
  rfl

theorem extract_proceeds {σ α : Type} (step : σ → Char → Option σ) (init : σ)
    (conv : List Char → Conv α) (zero : α) (s s1 : IStream) (v : α)
    (h : s.sentry = (s1, true)) :
    s.extract step init conv zero v
      = match conv (scanWith step init s1.buf).1 with
        | Conv.ok x => (⟨(scanWith step init s1.buf).2, false,
            (scanWith step init s1.buf).2.isEmpty⟩, x)
        | Conv.invalid => (⟨(scanWith step init s1.buf).2, true,
            (scanWith step init s1.buf).2.isEmpty⟩, zero)
        | Conv.range x => (⟨(scanWith step init s1.buf).2, true,
            (scanWith step init s1.buf).2.isEmpty⟩, x) := by
  unfold IStream.extract
  rw [h]

theorem Field.extract_failed (slot : Field) (s : IStream) (h : s.failbit = true) :
    slot.extract s = (s, slot) := by
  cases slot <;>
    simp [Field.extract, IStream.extractFloat, IStream.extractBool,
      extract_stopped _ _ _ _ s _ (by rw [sentry_failed s h]), sentry_failed s h]

theorem Field.extract_blank (slot : Field) (s : IStream) (h : s.buf.all isSpace = true) :
    (slot.extract s).2 = slot ∧ (slot.extract s).1.failbit = true := by
  have hb := sentry_blank s h
  cases slot <;>
    simp [Field.extract, IStream.extractFloat, IStream.extractBool,
      extract_stopped _ _ _ _ s _ hb.1, hb.2]

theorem Field.conv_ok_scan {slot v : Field} {tok : List Char} (h : slot.conv tok = Conv.ok v)
    (rest : List Char) (hr : fieldEnd rest = true) :
    slot.scan (tok ++ rest) = (tok, rest) := by
  cases slot with
  | num x =>
    simp only [Field.conv] at h
    cases hp : parseDecimal tok with
    | none => simp [convFloat, hp] at h
    | some r => exact scan_float_whole hp rest hr
  | flag b =>
    simp only [Field.conv] at h
    cases hp : parseInt tok with
    | none => simp [convBool, hp] at h
    | some r => exact scan_int_whole hp rest hr

theorem Field.scan_space (slot : Field) {c : Char} (t : List Char) (h : isSpace c = true) :
    slot.scan (c :: t) = ([], c :: t) := by
  cases slot
  · exact scanWith_cons_none floatStep _ (floatStep_space _ h)
  · exact scanWith_cons_none intStep _ (intStep_space _ h)

theorem Field.conv_nil (slot : Field) : slot.conv [] = Conv.invalid := by
  cases slot <;> rfl

theorem Field.conv_ok_head {slot v : Field} {tok : List Char} (h : slot.conv tok = Conv.ok v) :
    ∃ c t, tok = c :: t ∧ isSpace c = false := by
  cases tok with
  | nil => rw [Field.conv_nil] at h; exact absurd h (by simp)
  | cons c t =>
    refine ⟨c, t, rfl, ?_⟩
    have hw := Field.conv_ok_scan h [] rfl
    rw [List.append_nil] at hw
    cases hsp : isSpace c
    · rfl
    · rw [Field.scan_space slot t hsp] at hw
      simp at hw

theorem Field.extract_eq (slot : Field) (s s1 : IStream) (h : s.sentry = (s1, true)) :
    slot.extract s
      = match slot.conv (slot.scan s1.buf).1 with
        | Conv.ok x => (⟨(slot.scan s1.buf).2, false, (slot.scan s1.buf).2.isEmpty⟩, x)
        | Conv.invalid => (⟨(slot.scan s1.buf).2, true, (slot.scan s1.buf).2.isEmpty⟩, slot.zero)
        | Conv.range x => (⟨(slot.scan s1.buf).2, true, (slot.scan s1.buf).2.isEmpty⟩, x) := by
  cases slot with
  | num v =>
    simp only [Field.extract, IStream.extractFloat, extract_proceeds _ _ _ _ s s1 _ h,
      Field.conv, Field.scan, Field.zero]
    cases convFloat (scanWith floatStep FloatScan.init s1.buf).1 <;> rfl
  | flag b =>
    simp only [Field.extract, IStream.extractBool, extract_proceeds _ _ _ _ s s1 _ h,
      Field.conv, Field.scan, Field.zero]
    cases convBool (scanWith intStep true s1.buf).1 <;> rfl

/-- Reading one well-formed token: the white space in front is skipped, the token is
consumed whole, its value is stored, and the stream stays good unless the token ends
the input. -/
theorem Field.extract_token {slot v : Field} {tok : List Char}
    (h : slot.conv tok = Conv.ok v) (pre : List Char) (hpre : pre.all isSpace = true)
    (rest : List Char) (hr : fieldEnd rest = true) :
    slot.extract ⟨pre ++ tok ++ rest, false, false⟩ = (⟨rest, false, rest.isEmpty⟩, v) := by
  obtain ⟨c, t, htok, hc⟩ := Field.conv_ok_head h
  have hs : IStream.sentry ⟨pre ++ tok ++ rest, false, false⟩
      = (⟨tok ++ rest, false, false⟩, true) := by
    rw [htok, List.append_assoc, List.cons_append]
    exact sentry_at_token pre hpre c (t ++ rest) hc
  rw [Field.extract_eq slot _ _ hs]
  simp only [Field.conv_ok_scan h rest hr, h]

/-- Reading where the text is not a number: zero is stored and `failbit` is set. -/
theorem Field.extract_junk {slot : Field} {junk : List Char}
    (h : nonNumeric slot junk = true) (pre : List Char) (hpre : pre.all isSpace = true) :
    (slot.extract ⟨pre ++ junk, false, false⟩).2 = slot.zero
      ∧ (slot.extract ⟨pre ++ junk, false, false⟩).1.failbit = true := by
  cases junk with
  | nil => simp [nonNumeric] at h
  | cons c t =>
    simp only [nonNumeric, Bool.and_eq_true, Bool.not_eq_true', beq_iff_eq] at h
    have hs := sentry_at_token pre hpre c t h.1
    rw [Field.extract_eq slot _ _ hs]
    simp [h.2]

theorem extractAll_failed (slots : List Field) (s : IStream) (h : s.failbit = true) :
    s.extractAll slots = slots := by
  induction slots with
  | nil => rfl
  | cons x xs ih => simp [IStream.extractAll, Field.extract_failed x s h, ih]

theorem extractAll_blank (slots : List Field) (s : IStream) (h : s.buf.all isSpace = true) :
    s.extractAll slots = slots := by
  cases slots with
  | nil => rfl
  | cons x xs =>
    have hb := Field.extract_blank x s h
    simp [IStream.extractAll, hb.1, extractAll_failed xs _ hb.2]

theorem separated_of_separatedTail {toks : List Token} (h : separatedTail toks = true) :
    separated toks = true := by
  cases toks with
  | nil => rfl
  | cons t ts =>
    simp only [separatedTail, Bool.and_eq_true] at h
    simp [separated, h.1.2, h.2]

theorem fieldEnd_tokensText {toks : List Token} (h : separatedTail toks = true)
    (tail : List Char) (ht : toks = [] → fieldEnd tail = true) :
    fieldEnd (tokensText toks ++ tail) = true := by
  cases toks with
  | nil => simpa [tokensText] using ht rfl
  | cons t ts =>
    simp only [separatedTail, Bool.and_eq_true] at h
    obtain ⟨⟨hne, hsp⟩, _⟩ := h
    cases hp : t.pre with
    | nil => simp [hp] at hne
    | cons c cs =>
      rw [hp] at hsp
      simp only [List.all_cons, Bool.and_eq_true] at hsp
      simp [tokensText, hp, fieldEnd, hsp.1]

theorem tokensText_ne_nil {t : Token} {ts : List Token} (h : separatedTail (t :: ts) = true)
    (tail : List Char) : (tokensText (t :: ts) ++ tail).isEmpty = false := by
  simp only [separatedTail, Bool.and_eq_true] at h
  obtain ⟨⟨hne, _⟩, _⟩ := h
  cases hp : t.pre with
  | nil => simp [hp] at hne
  | cons c cs => simp [tokensText, hp]

theorem decodeTokens_cons {slots : List Field} {t : Token} {ts : List Token}
    {vals : List Field} (h : decodeTokens slots (t :: ts) = some vals) :
    ∃ slot rest v vs, slots = slot :: rest ∧ slot.conv t.text = Conv.ok v
      ∧ decodeTokens rest ts = some vs ∧ vals = v :: vs := by
  cases slots with
  | nil => simp [decodeTokens] at h
  | cons slot rest =>
    simp only [decodeTokens] at h
    cases hc : slot.conv t.text with
    | ok v =>
      rw [hc] at h
      simp only [Option.map_eq_some'] at h
      obtain ⟨vs, hvs, hv⟩ := h
      exact ⟨slot, rest, v, vs, rfl, hc, hvs, hv.symm⟩
    | invalid => rw [hc] at h; simp at h
    | range v => rw [hc] at h; simp at h

theorem decodeTokens_length {slots : List Field} {toks : List Token} {vals : List Field}
    (h : decodeTokens slots toks = some vals) : vals.length = toks.length := by
  induction toks generalizing slots vals with
  | nil =>
    cases slots <;> simp [decodeTokens] at h <;> simp [h]
  | cons t ts ih =>
    obtain ⟨slot, rest, v, vs, _, _, hvs, hv⟩ := decodeTokens_cons h
    rw [hv, List.length_cons, List.length_cons, ih hvs]

/-- Reading a run of well-formed tokens: each target takes the value of its token,
and the chain goes on with the text after the last token. -/
theorem extractAll_tokens (toks : List Token) (slots vals : List Field) (tail : List Char)
    (hsep : separated toks = true) (hdec : decodeTokens slots toks = some vals)
    (ht : toks ≠ [] → fieldEnd tail = true) :
    IStream.extractAll ⟨tokensText toks ++ tail, false, false⟩ slots
      = vals ++ IStream.extractAll ⟨tail, false, !toks.isEmpty && tail.isEmpty⟩
          (slots.drop toks.length) := by
  induction toks generalizing slots vals with
  | nil =>
    cases slots <;> simp [decodeTokens] at hdec <;> subst hdec <;> simp [tokensText]
  | cons t ts ih =>
    obtain ⟨slot, rest, v, vs, hslots, hconv, hvs, hv⟩ := decodeTokens_cons hdec
    subst hslots
    subst hv
    simp only [separated, Bool.and_eq_true] at hsep
    have hend : fieldEnd (tokensText ts ++ tail) = true :=
      fieldEnd_tokensText hsep.2 tail (fun _ => ht (by simp))
    have hx := Field.extract_token hconv t.pre hsep.1 (tokensText ts ++ tail) hend
    have htext : tokensText (t :: ts) ++ tail = t.pre ++ t.text ++ (tokensText ts ++ tail) := by
      simp [tokensText]
    rw [htext]
    simp only [IStream.extractAll, hx, List.length_cons, List.drop_succ_cons, List.cons_append,
      List.isEmpty_cons, Bool.not_false, Bool.true_and]
    congr 1
    cases ts with
    | nil =>
      cases rest <;> simp [decodeTokens] at hvs <;> subst hvs <;> simp [tokensText]
    | cons t2 ts2 =>
      rw [tokensText_ne_nil hsep.2 tail,
        ih rest vs (separated_of_separatedTail hsep.2) hvs (fun _ => ht (by simp))]
      simp

theorem fieldEnd_of_all_space {l : List Char} (h : l.all isSpace = true) : fieldEnd l = true := by
  cases l with
  | nil => rfl
  | cons c cs =>
    simp only [List.all_cons, Bool.and_eq_true] at h
    exact h.1

theorem persisted_LoadFromFile_some (s : ProgramState) (filename : String) (fs : FileSystem)
    (text : List Char) (h : fs filename = some text) :
    (s.LoadFromFile filename fs).persisted
      = IStream.extractAll ⟨text, false, false⟩ s.persisted := by
  simp [ProgramState.LoadFromFile, ifstreamOpen, h, IStream.toBool, ProgramState.persisted,
    IStream.extractAll, Field.extract]

theorem LoadFromFile_none (s : ProgramState) (filename : String) (fs : FileSystem)
    (h : fs filename = none) : s.LoadFromFile filename fs = s := by
  simp [ProgramState.LoadFromFile, ifstreamOpen, h, IStream.toBool]

/-- The members `LoadFromFile` never assigns. -/
theorem LoadFromFile_frame (s : ProgramState) (filename : String) (fs : FileSystem) :
    (s.LoadFromFile filename fs).CameraMouseMovementUpdateEnabled
        = s.CameraMouseMovementUpdateEnabled
      ∧ (s.LoadFromFile filename fs).backpackPosition = s.backpackPosition
      ∧ (s.LoadFromFile filename fs).backpackScale = s.backpackScale
      ∧ (s.LoadFromFile filename fs).pointLight = s.pointLight
      ∧ (s.LoadFromFile filename fs).camera.Up = s.camera.Up
      ∧ (s.LoadFromFile filename fs).camera.Right = s.camera.Right
      ∧ (s.LoadFromFile filename fs).camera.Yaw = s.camera.Yaw
      ∧ (s.LoadFromFile filename fs).camera.Pitch = s.camera.Pitch
      ∧ (s.LoadFromFile filename fs).camera.Zoom = s.camera.Zoom := by
  by_cases h : (ifstreamOpen fs filename).toBool = true <;>
    simp [ProgramState.LoadFromFile, h]

theorem LoadFromFile_tokens (t : ProgramState) (filename : String) (fs : FileSystem)
    (toks : List Token) (trail : List Char) (vals : List Field)
    (hsep : separated toks = true) (htrail : trail.all isSpace = true)
    (hdec : decodeTokens t.persisted toks = some vals)
    (hfile : fs filename = some (tokensText toks ++ trail)) :
    (t.LoadFromFile filename fs).persisted = vals ++ t.persisted.drop toks.length := by
  rw [persisted_LoadFromFile_some t filename fs _ hfile,
    extractAll_tokens toks _ vals trail hsep hdec (fun _ => fieldEnd_of_all_space htrail),
    extractAll_blank _ _ htrail]

/-! ## Lemmas on the text of a `float` -/

theorem ilog_succ (b fuel x : Nat) :
    ilog b (fuel + 1) x = if x < b then 0 else ilog b fuel (x / b) + 1 := rfl

theorem ilog_lt_pow (b : Nat) (hb : 2 ≤ b) (fuel x : Nat) (hx : x ≤ fuel) :
    x < b ^ (ilog b fuel x + 1) := by
  induction fuel generalizing x with
  | zero =>
    have : x = 0 := by omega
    subst this
    simp [ilog]
    omega
  | succ fuel ih =>
    rw [ilog_succ]
    split
    · simpa using ‹x < b›
    · rename_i hlt
      have hxb : b ≤ x := by omega
      have hdiv : x / b < x := Nat.div_lt_self (by omega) (by omega)
      have := ih (x / b) (by omega)
      rw [Nat.div_lt_iff_lt_mul (by omega)] at this
      rw [pow_succ]
      exact this

theorem pow_ilog_le (b : Nat) (hb : 2 ≤ b) (fuel x : Nat) (h1 : 1 ≤ x) :
    b ^ ilog b fuel x ≤ x := by
  induction fuel generalizing x with
  | zero => simpa [ilog] using h1
  | succ fuel ih =>
    rw [ilog_succ]
    split
    · simpa using h1
    · rename_i hlt
      have hxb : b ≤ x := by omega
      have h1' : 1 ≤ x / b := by
        rw [Nat.le_div_iff_mul_le (by omega)]
        omega
      have := ih (x / b) h1'
      rw [pow_succ]
      calc b ^ ilog b fuel (x / b) * b ≤ x / b * b := Nat.mul_le_mul_right b this
        _ ≤ x := Nat.div_mul_le_self x b

theorem ilog_le_of_lt_pow (b : Nat) (hb : 1 ≤ b) (fuel x k : Nat) (h : x < b ^ (k + 1)) :
    ilog b fuel x ≤ k := by
  induction fuel generalizing x k with
  | zero => simp [ilog]
  | succ fuel ih =>
    rw [ilog_succ]
    split
    · omega
    · rename_i hlt
      cases k with
      | zero => simp at h; omega
      | succ k =>
        have : x / b < b ^ (k + 1) := by
          rw [Nat.div_lt_iff_lt_mul (by omega)]
          rw [pow_succ] at h
          exact h
        have := ih (x / b) k this
        omega

theorem ilog_fuel (b : Nat) (hb : 2 ≤ b) (fuel fuel2 x : Nat) (h1 : x ≤ fuel) (h2 : x ≤ fuel2) :
    ilog b fuel x = ilog b fuel2 x := by
  induction fuel generalizing fuel2 x with
  | zero =>
    have : x = 0 := by omega
    subst this
    cases fuel2 with
    | zero => rfl
    | succ f =>
      have hb0 : 0 < b := by omega
      rw [ilog_succ]; simp [ilog, hb0]
  | succ fuel ih =>
    cases fuel2 with
    | zero =>
      have : x = 0 := by omega
      subst this
      have hb0 : 0 < b := by omega
      rw [ilog_succ]; simp [ilog, hb0]
    | succ f =>
      rw [ilog_succ, ilog_succ]
      split
      · rfl
      · rename_i hlt
        have hdiv : x / b < x := Nat.div_lt_self (by omega) (by omega)
        rw [ih f (x / b) (by omega) (by omega)]

theorem mul_le_mul_left_pos (c a b : Nat) (hc : 0 < c) : (c * a ≤ c * b) ↔ (a ≤ b) :=
  ⟨fun h => Nat.le_of_mul_le_mul_left h hc, fun h => Nat.mul_le_mul_left c h⟩

theorem roundHalfEven_scale (c a b : Nat) (hc : 0 < c) :
    roundHalfEven (c * a) (c * b) = roundHalfEven a b := by
  unfold roundHalfEven
  simp only [Nat.mul_div_mul_left a b hc, Nat.mul_mod_mul_left]
  have h1 : (2 * (c * (a % b)) < c * b) ↔ (2 * (a % b) < b) := by
    rw [show 2 * (c * (a % b)) = c * (2 * (a % b)) by ring]
    exact Nat.mul_lt_mul_left hc
  have h2 : (c * b < 2 * (c * (a % b))) ↔ (b < 2 * (a % b)) := by
    rw [show 2 * (c * (a % b)) = c * (2 * (a % b)) by ring]
    exact Nat.mul_lt_mul_left hc
  simp only [h1, h2]

theorem roundHalfEven_le (a b : Nat) : roundHalfEven a b ≤ a / b + 1 := by
  unfold roundHalfEven
  simp only
  split
  · omega
  · split
    · omega
    · split <;> omega

theorem floorLog_scale (b : Nat) (hb : 2 ≤ b) (c n d : Nat) (hc : 0 < c) :
    floorLog b (c * n) (c * d) = floorLog b n d := by
  unfold floorLog
  have hle : (c * d ≤ c * n) ↔ (d ≤ n) := mul_le_mul_left_pos c d n hc
  by_cases h : d ≤ n
  · have h2 : c * d ≤ c * n := hle.mpr h
    simp only [h, h2, if_true, Nat.mul_div_mul_left n d hc]
    have hn : n ≤ c * n := Nat.le_mul_of_pos_left n hc
    rw [ilog_fuel b hb (c * n) n (n / d) ((Nat.div_le_self n d).trans hn) (Nat.div_le_self n d)]
  · have h2 : ¬ c * d ≤ c * n := fun h3 => h (hle.mp h3)
    simp only [h, h2, if_false, Nat.mul_div_mul_left d n hc]
    have hd : d ≤ c * d := Nat.le_mul_of_pos_left d hc
    rw [ilog_fuel b hb (c * d) d (d / n) ((Nat.div_le_self d n).trans hd) (Nat.div_le_self d n)]
    have h3 : (c * d ≤ c * n * b ^ ilog b d (d / n)) ↔ (d ≤ n * b ^ ilog b d (d / n)) := by
      rw [Nat.mul_assoc]
      exact mul_le_mul_left_pos c _ _ hc
    simp only [h3]

theorem scaleRound2_scale (c n d : Nat) (e : Int) (hc : 0 < c) :
    scaleRound2 (c * n) (c * d) e = scaleRound2 n d e := by
  unfold scaleRound2
  split
  · rw [Nat.mul_assoc, roundHalfEven_scale c _ _ hc]
  · rw [Nat.mul_assoc, roundHalfEven_scale c _ _ hc]

theorem Fp.round_scale (f : FpFormat) (neg : Bool) (c n d : Nat) (hc : 0 < c) :
    Fp.round f neg (c * n) (c * d) = Fp.round f neg n d := by
  unfold Fp.round
  have h0 : (c * n = 0) ↔ (n = 0) := by
    constructor
    · intro h
      rcases Nat.mul_eq_zero.mp h with h | h
      · omega
      · exact h
    · intro h; simp [h]
  simp only [h0, floorLog_scale 2 (by omega) c n d hc, scaleRound2_scale c n d _ hc]

theorem Fp.ofDecimal_scale (f : FpFormat) (neg : Bool) (N z : Nat) (k : Int) :
    Fp.ofDecimal f neg N (k + z) = Fp.ofDecimal f neg (N * 10 ^ z) k := by
  unfold Fp.ofDecimal
  by_cases hk : 0 ≤ k
  · have hkz : 0 ≤ k + z := by omega
    simp only [hk, hkz, if_true]
    have : (k + z).toNat = z + k.toNat := by omega
    rw [this, pow_add, Nat.mul_assoc]
  · by_cases hkz : 0 ≤ k + (z : Int)
    · simp only [hk, hkz, if_true, if_false]
      have hz : z = (-k).toNat + (k + z).toNat := by omega
      have hpos : 0 < 10 ^ (-k).toNat := pow_pos (by omega) _
      have h1 : N * 10 ^ z = 10 ^ (-k).toNat * (N * 10 ^ (k + z).toNat) := by
        conv_lhs => rw [hz, pow_add]
        ring
      have h2 := Fp.round_scale f neg (10 ^ (-k).toNat) (N * 10 ^ (k + z).toNat) 1 hpos
      rw [Nat.mul_one] at h2
      rw [h1, h2]
    · simp only [hk, hkz, if_false]
      have hz : (-k).toNat = z + (-(k + z)).toNat := by omega
      have hpos : 0 < 10 ^ z := pow_pos (by omega) _
      have h1 : N * 10 ^ z = 10 ^ z * N := by ring
      rw [hz, pow_add, h1, Fp.round_scale f neg _ _ _ hpos]

theorem floorLog2_le (n d : Nat) (h : n ≤ maxFloatNat * d) : floorLog 2 n d ≤ 127 := by
  unfold floorLog
  split
  · have h1 : n / d ≤ maxFloatNat := by
      rw [Nat.mul_comm] at h
      exact Nat.div_le_of_le_mul h
    have h2 : n / d < 2 ^ (127 + 1) := by
      have : maxFloatNat < 2 ^ (127 + 1) := by decide
      omega
    have := ilog_le_of_lt_pow 2 (by omega) n (n / d) 127 h2
    omega
  · simp only
    split <;> omega

theorem Fp.round_not_inf (neg : Bool) (n d : Nat) (hd : 0 < d) (h : n ≤ maxFloatNat * d) :
    (Fp.round binary32 neg n d).isInf = false := by
  have hL := floorLog2_le n d h
  unfold Fp.round
  by_cases hn : n = 0
  · simp [hn, Fp.zero, Fp.isInf, binary32, FpFormat.expoMax]
  · simp only [hn, if_false]
    have hbias : ((binary32.bias : Nat) : Int) = 127 := by decide
    have hm : binary32.mbits = 23 := rfl
    have hmax : binary32.expoMax = 255 := by decide
    simp only [hbias, hm, hmax]
    generalize he0 : max (floorLog 2 n d - ((23 : Nat) : Int)) (1 - 127 - ((23 : Nat) : Int)) = e0
    have he0le : e0 ≤ 104 := by
      rw [← he0]
      omega
    have hcarry : e0 = 104 → scaleRound2 n d e0 ≠ 2 ^ (23 + 1) := by
      intro h104
      subst h104
      unfold scaleRound2
      simp only [show (0 : Int) ≤ 104 by omega, if_true, show (104 : Int).toNat = 104 by rfl]
      have hle := roundHalfEven_le n (d * 2 ^ 104)
      have hq : n / (d * 2 ^ 104) ≤ 2 ^ 24 - 1 := by
        apply Nat.div_le_of_le_mul
        have : maxFloatNat = 2 ^ 104 * (2 ^ 24 - 1) := by decide
        rw [this] at h
        calc n ≤ 2 ^ 104 * (2 ^ 24 - 1) * d := h
          _ = d * 2 ^ 104 * (2 ^ 24 - 1) := by ring
      by_cases hq2 : n / (d * 2 ^ 104) = 2 ^ 24 - 1
      · -- the quotient is the largest significand: the remainder is zero
        have hdm := Nat.div_add_mod n (d * 2 ^ 104)
        rw [hq2] at hdm
        have hM : maxFloatNat = 2 ^ 104 * (2 ^ 24 - 1) := by decide
        rw [hM] at h
        have hr : n % (d * 2 ^ 104) = 0 := by
          have : 2 ^ 104 * (2 ^ 24 - 1) * d = d * 2 ^ 104 * (2 ^ 24 - 1) := by ring
          rw [this] at h
          omega
        unfold roundHalfEven
        simp only [hq2, hr]
        have hpos : 0 < d * 2 ^ 104 := Nat.mul_pos hd (pow_pos (by omega) _)
        simp [hpos]
        omega
      · have : n / (d * 2 ^ 104) ≤ 2 ^ 24 - 2 := by omega
        have : roundHalfEven n (d * 2 ^ 104) ≤ 2 ^ 24 - 1 := by omega
        have h24 : (2 : Nat) ^ (23 + 1) = 2 ^ 24 := rfl
        rw [h24]
        have : (2 : Nat) ^ 24 - 1 < 2 ^ 24 := by decide
        omega
    have hexp : (255 : Nat) ≠ 0 := by decide
    by_cases hc : scaleRound2 n d e0 = 2 ^ (23 + 1)
    · have hne : e0 ≠ 104 := fun h104 => hcarry h104 hc
      simp only [hc, beq_self_eq_true, if_true]
      split
      · simp [Fp.isInf, hmax]
      · split
        · omega
        · simp only [Fp.isInf, hmax]
          have : (e0 + 1 + 127 + 23).toNat ≠ 255 := by omega
          simp [this]
    · have hb : (scaleRound2 n d e0 == 2 ^ (23 + 1)) = false := by simpa using hc
      simp only [hb]
      simp only [Bool.false_eq_true, if_false]
      split
      · simp [Fp.isInf, hmax]
      · split
        · omega
        · simp only [Fp.isInf, hmax]
          have : (e0 + 127 + 23).toNat ≠ 255 := by omega
          simp [this]

theorem roundHalfEven_le_of_lt (a b c : Nat) (h : a < b * c) : roundHalfEven a b ≤ c := by
  have h1 := roundHalfEven_le a b
  have h2 : a / b < c := Nat.div_lt_of_lt_mul h
  omega

/-- The quotient `n / d` lies below `b ^ (floorLog b n d + 1)`. -/
theorem floorLog_upper (b : Nat) (hb : 2 ≤ b) (n d : Nat) (hn : 0 < n) (hd : 0 < d) :
    n * b ^ (-(floorLog b n d) - 1).toNat < d * b ^ (floorLog b n d + 1).toNat := by
  unfold floorLog
  by_cases h : d ≤ n
  · simp only [h, if_true]
    have h1 := ilog_lt_pow b hb n (n / d) (Nat.div_le_self n d)
    have h2 : n < d * b ^ (ilog b n (n / d) + 1) := by
      have := (Nat.div_lt_iff_lt_mul hd).1 h1
      rw [Nat.mul_comm]
      exact this
    have e1 : (-((ilog b n (n / d) : Nat) : Int) - 1).toNat = 0 := by omega
    have e2 : (((ilog b n (n / d) : Nat) : Int) + 1).toNat = ilog b n (n / d) + 1 := by omega
    rw [e1, e2]
    simpa using h2
  · simp only [h, if_false]
    have hlt : n < d := by omega
    have hq : 1 ≤ d / n := (Nat.one_le_div_iff hn).2 (by omega)
    have hlo := pow_ilog_le b hb d (d / n) hq
    have hhi := ilog_lt_pow b hb d (d / n) (Nat.div_le_self d n)
    generalize ilog b d (d / n) = j at hlo hhi
    have hlo2 : n * b ^ j ≤ d := by
      have := (Nat.le_div_iff_mul_le hn).1 hlo
      rw [Nat.mul_comm]
      exact this
    have hhi2 : d < n * b ^ (j + 1) := by
      have := (Nat.div_lt_iff_lt_mul hn).1 hhi
      rw [Nat.mul_comm]
      exact this
    by_cases h2 : d ≤ n * b ^ j
    · simp only [h2, if_true]
      have hj : j ≠ 0 := by
        intro h0
        rw [h0] at h2
        simp at h2
        omega
      obtain ⟨i, hi⟩ := Nat.exists_eq_succ_of_ne_zero hj
      rw [Nat.succ_eq_add_one] at hi
      subst hi
      have e1 : (-(((i + 1 : Nat)) : Int) - 1).toNat = 0 := by omega
      have e1b : (- -(((i + 1 : Nat)) : Int) - 1).toNat = i := by omega
      have e2 : (-(((i + 1 : Nat)) : Int) + 1).toNat = 0 := by omega
      rw [e1b, e2]
      have hd2 : d = n * b ^ (i + 1) := by omega
      rw [hd2, pow_succ]
      have hp : 0 < n * b ^ i := Nat.mul_pos hn (pow_pos (by omega) _)
      have : n * b ^ i * 2 ≤ n * b ^ i * b := Nat.mul_le_mul_left _ hb
      simp only [pow_zero, Nat.mul_one]
      calc n * b ^ i < n * b ^ i * 2 := by omega
        _ ≤ n * b ^ i * b := this
        _ = n * (b ^ i * b) := by ring
    · simp only [h2, if_false]
      have e1 : (-(-((j : Nat) : Int) - 1) - 1).toNat = j := by omega
      have e2 : (-((j : Nat) : Int) - 1 + 1).toNat = 0 := by omega
      rw [e1, e2]
      simp only [pow_zero, Nat.mul_one]
      omega

theorem floorLog10_le (n d : Nat) (h : n ≤ maxFloatNat * d) : floorLog 10 n d ≤ 38 := by
  unfold floorLog
  split
  · have h1 : n / d ≤ maxFloatNat := by
      rw [Nat.mul_comm] at h
      exact Nat.div_le_of_le_mul h
    have h2 : n / d < 10 ^ (38 + 1) := by
      have : maxFloatNat < 10 ^ (38 + 1) := by decide
      omega
    have := ilog_le_of_lt_pow 10 (by omega) n (n / d) 38 h2
    omega
  · simp only
    split <;> omega

theorem sigDigits_raw_le (n d : Nat) (X : Int)
    (hup : n * 10 ^ (-X - 1).toNat < d * 10 ^ (X + 1).toNat) :
    (if 0 ≤ (5 : Int) - X then roundHalfEven (n * 10 ^ ((5 : Int) - X).toNat) d
      else roundHalfEven n (d * 10 ^ (-((5 : Int) - X)).toNat)) ≤ 10 ^ 6 := by
  by_cases h0 : 0 ≤ X
  · obtain ⟨x, rfl⟩ := Int.eq_ofNat_of_zero_le h0
    have e1 : (-(x : Int) - 1).toNat = 0 := by omega
    have e2 : ((x : Int) + 1).toNat = x + 1 := by omega
    rw [e1, e2] at hup
    simp only [pow_zero, Nat.mul_one] at hup
    by_cases h5 : x ≤ 5
    · have hs : 0 ≤ (5 : Int) - x := by omega
      rw [if_pos hs]
      have e3 : ((5 : Int) - x).toNat = 5 - x := by omega
      rw [e3]
      apply roundHalfEven_le_of_lt
      have h6 : (10 : Nat) ^ 6 = 10 ^ (x + 1) * 10 ^ (5 - x) := by
        rw [← pow_add]
        congr 1
        omega
      rw [h6, ← Nat.mul_assoc]
      exact Nat.mul_lt_mul_of_pos_right hup (pow_pos (by omega) _)
    · have hs : ¬ (0 ≤ (5 : Int) - x) := by omega
      rw [if_neg hs]
      have e3 : (-((5 : Int) - x)).toNat = x - 5 := by omega
      rw [e3]
      apply roundHalfEven_le_of_lt
      have h6 : (10 : Nat) ^ (x + 1) = 10 ^ (x - 5) * 10 ^ 6 := by
        rw [← pow_add]
        congr 1
        omega
      rw [Nat.mul_assoc, ← h6]
      exact hup
  · obtain ⟨x, hx⟩ : ∃ x : Nat, X = -(x : Int) - 1 := ⟨(-X - 1).toNat, by omega⟩
    subst hx
    have e1 : (-(-(x : Int) - 1) - 1).toNat = x := by omega
    have e2 : (-(x : Int) - 1 + 1).toNat = 0 := by omega
    rw [e1, e2] at hup
    simp only [pow_zero, Nat.mul_one] at hup
    have hs : 0 ≤ (5 : Int) - (-(x : Int) - 1) := by omega
    rw [if_pos hs]
    have e3 : ((5 : Int) - (-(x : Int) - 1)).toNat = x + 6 := by omega
    rw [e3]
    apply roundHalfEven_le_of_lt
    rw [pow_add, ← Nat.mul_assoc]
    exact Nat.mul_lt_mul_of_pos_right hup (pow_pos (by omega) _)

theorem roundHalfEven_top (n d : Nat) (hd : 0 < d) (h : n ≤ maxFloatNat * d) :
    roundHalfEven n (d * 10 ^ 33) ≤ 340282 := by
  have hM : maxFloatNat = 340282346638528859811704183484516925440 := rfl
  rw [hM] at h
  have hw : d * 10 ^ 33 = 1000000000000000000000000000000000 * d := by
    rw [Nat.mul_comm]
    norm_num
  rw [hw]
  generalize hwd : 1000000000000000000000000000000000 * d = w at *
  have hq : n / w < 340283 := by
    apply Nat.div_lt_of_lt_mul
    omega
  have hdm := Nat.div_add_mod n w
  have hle := roundHalfEven_le n w
  by_cases hq2 : n / w = 340282
  · rw [hq2] at hdm
    have hr : 2 * (n % w) < w := by omega
    unfold roundHalfEven
    simp only [hr, if_true, hq2]
    omega
  · omega

theorem sigDigits_lt (n d : Nat) (hn : 0 < n) (hd : 0 < d) :
    (sigDigits 6 n d).1 < 10 ^ 6 := by
  have hup := floorLog_upper 10 (by omega) n d hn hd
  have hraw := sigDigits_raw_le n d (floorLog 10 n d) hup
  unfold sigDigits
  simp only [Nat.cast_ofNat, show (6 : Int) - 1 = 5 by rfl]
  generalize (if 0 ≤ (5 : Int) - floorLog 10 n d then
      roundHalfEven (n * 10 ^ ((5 : Int) - floorLog 10 n d).toNat) d
    else roundHalfEven n (d * 10 ^ (-((5 : Int) - floorLog 10 n d)).toNat)) = D at hraw ⊢
  by_cases hc : D = 10 ^ 6
  · rw [if_pos hc]
    show 10 ^ (6 - 1) < 10 ^ 6
    norm_num
  · rw [if_neg hc]
    simp only
    omega

theorem sigDigits_top (n d : Nat) (hd : 0 < d) (h : n ≤ maxFloatNat * d) :
    (sigDigits 6 n d).2 ≤ 38 ∧ ((sigDigits 6 n d).2 = 38 → (sigDigits 6 n d).1 ≤ 340282) := by
  have hX := floorLog10_le n d h
  have htop := roundHalfEven_top n d hd h
  unfold sigDigits
  simp only [Nat.cast_ofNat, show (6 : Int) - 1 = 5 by rfl]
  have h38 : floorLog 10 n d = 38 →
      (if 0 ≤ (5 : Int) - floorLog 10 n d then
          roundHalfEven (n * 10 ^ ((5 : Int) - floorLog 10 n d).toNat) d
        else roundHalfEven n (d * 10 ^ (-((5 : Int) - floorLog 10 n d)).toNat)) ≤ 340282 := by
    intro e
    rw [e]
    simpa using htop
  generalize (if 0 ≤ (5 : Int) - floorLog 10 n d then
      roundHalfEven (n * 10 ^ ((5 : Int) - floorLog 10 n d).toNat) d
    else roundHalfEven n (d * 10 ^ (-((5 : Int) - floorLog 10 n d)).toNat)) = D at h38 ⊢
  by_cases hc : D = 10 ^ 6
  · rw [if_pos hc]
    simp only
    constructor
    · by_contra hcon
      have e : floorLog 10 n d = 38 := by omega
      have := h38 e
      rw [hc] at this
      omega
    · intro _
      show 10 ^ (6 - 1) ≤ 340282
      norm_num
  · rw [if_neg hc]
    simp only
    exact ⟨hX, h38⟩

theorem sixDigits_not_inf (neg : Bool) (n d : Nat) (hn : 0 < n) (hd : 0 < d)
    (h : n ≤ maxFloatNat * d) :
    (Fp.ofDecimal binary32 neg (sigDigits 6 n d).1 ((sigDigits 6 n d).2 - 5)).isInf = false := by
  have hlt := sigDigits_lt n d hn hd
  obtain ⟨h1, h2⟩ := sigDigits_top n d hd h
  generalize (sigDigits 6 n d).1 = D at hlt h2
  generalize (sigDigits 6 n d).2 = X at h1 h2
  have hM : maxFloatNat = 340282346638528859811704183484516925440 := rfl
  unfold Fp.ofDecimal
  split
  · apply Fp.round_not_inf _ _ _ (by omega)
    rw [Nat.mul_one]
    by_cases h38 : X = 38
    · subst h38
      have := h2 rfl
      have e : ((38 : Int) - 5).toNat = 33 := by rfl
      rw [e, hM]
      have : D * 10 ^ 33 ≤ 340282 * 10 ^ 33 := Nat.mul_le_mul_right _ this
      omega
    · have hk : (X - 5).toNat ≤ 32 := by omega
      have hp : 10 ^ (X - 5).toNat ≤ 10 ^ 32 := Nat.pow_le_pow_right (by omega) hk
      have : D * 10 ^ (X - 5).toNat ≤ 10 ^ 6 * 10 ^ 32 := Nat.mul_le_mul (by omega) hp
      rw [hM]
      omega
  · apply Fp.round_not_inf _ _ _ (pow_pos (by omega) _)
    have hp : 1 ≤ 10 ^ (-(X - 5)).toNat := Nat.one_le_pow _ _ (by omega)
    have : maxFloatNat * 1 ≤ maxFloatNat * 10 ^ (-(X - 5)).toNat := Nat.mul_le_mul_left _ hp
    rw [hM] at this ⊢
    omega

theorem digitChar_isDigit (d : Nat) : isDigit (digitChar d) = true := by
  unfold digitChar
  have h := Nat.mod_lt d (show 0 < 10 by decide)
  generalize d % 10 = m at h
  interval_cases m <;> decide

theorem digitChar_val (d : Nat) : (digitChar d).toNat - 48 = d % 10 := by
  unfold digitChar
  have h := Nat.mod_lt d (show 0 < 10 by decide)
  generalize d % 10 = m at h
  interval_cases m <;> decide

theorem isDigit_not_sign (c : Char) (h : isDigit c = true) :
    (c == '-') = false ∧ (c == '+') = false := by
  unfold isDigit at h
  simp only [Bool.and_eq_true, decide_eq_true_eq] at h
  constructor
  · apply beq_false_of_ne
    intro e
    rw [e] at h
    revert h
    decide
  · apply beq_false_of_ne
    intro e
    rw [e] at h
    revert h
    decide

theorem foldl_digits (l : List Char) (acc : Nat) :
    l.foldl (fun a c => 10 * a + (c.toNat - 48)) acc = acc * 10 ^ l.length + natOfDigits l := by
  induction l generalizing acc with
  | nil => simp [natOfDigits]
  | cons c cs ih =>
    unfold natOfDigits
    simp only [List.foldl_cons, List.length_cons]
    rw [ih, ih (10 * 0 + (c.toNat - 48))]
    ring

theorem natOfDigits_cons (c : Char) (l : List Char) :
    natOfDigits (c :: l) = (c.toNat - 48) * 10 ^ l.length + natOfDigits l := by
  show List.foldl _ _ (c :: l) = _
  rw [List.foldl_cons, foldl_digits]
  simp

theorem natOfDigits_append (a b : List Char) :
    natOfDigits (a ++ b) = natOfDigits a * 10 ^ b.length + natOfDigits b := by
  show List.foldl _ _ (a ++ b) = _
  rw [List.foldl_append, foldl_digits]
  rfl

theorem natOfDigits_zeros (z : Nat) : natOfDigits (List.replicate z '0') = 0 := by
  induction z with
  | zero => rfl
  | succ k ih =>
    rw [List.replicate_succ, natOfDigits_cons, ih]
    have : '0'.toNat - 48 = 0 := by decide
    rw [this]
    simp

theorem digitsFixed_succ (w n : Nat) :
    digitsFixed (w + 1) n = digitChar (n / 10 ^ w) :: digitsFixed w n := by
  unfold digitsFixed
  rw [List.range_succ_eq_map, List.map_cons, List.map_map]
  congr 1
  apply List.map_congr_left
  intro i hi
  have hi2 := List.mem_range.1 hi
  simp only [Function.comp]
  congr 2
  congr 1
  omega

theorem length_digitsFixed (w n : Nat) : (digitsFixed w n).length = w := by
  simp [digitsFixed]

theorem all_digitsFixed (w n : Nat) : (digitsFixed w n).all isDigit = true := by
  simp [digitsFixed, List.all_eq_true, digitChar_isDigit]

theorem natOfDigits_digitsFixed (w n : Nat) : natOfDigits (digitsFixed w n) = n % 10 ^ w := by
  induction w with
  | zero => simp [digitsFixed, natOfDigits, Nat.mod_one]
  | succ k ih =>
    rw [digitsFixed_succ, natOfDigits_cons, ih, digitChar_val, length_digitsFixed,
      Nat.mod_pow_succ]
    ring

theorem stripZeros_spec (l : List Char) :
    l = stripZeros l ++ List.replicate (l.length - (stripZeros l).length) '0' := by
  unfold stripZeros
  have h := List.takeWhile_append_dropWhile (fun c => c == '0') l.reverse
  have h2 : l = (l.reverse.dropWhile (fun c => c == '0')).reverse
      ++ (l.reverse.takeWhile (fun c => c == '0')).reverse := by
    rw [← List.reverse_append, h, List.reverse_reverse]
  have h3 : (l.reverse.takeWhile (fun c => c == '0')).reverse
      = List.replicate (l.reverse.takeWhile (fun c => c == '0')).length '0' := by
    rw [List.eq_replicate_iff]
    refine ⟨by simp, ?_⟩
    intro b hb
    rw [List.mem_reverse] at hb
    have := List.mem_takeWhile_imp hb
    simpa using this
  have hlen : l.length = (l.reverse.dropWhile (fun c => c == '0')).reverse.length
      + (l.reverse.takeWhile (fun c => c == '0')).length := by
    conv_lhs => rw [h2]
    simp
  have e : l.length - (l.reverse.dropWhile (fun c => c == '0')).reverse.length
      = (l.reverse.takeWhile (fun c => c == '0')).length := by omega
  rw [e, ← h3]
  exact h2

theorem stripZeros_length_le (l : List Char) : (stripZeros l).length ≤ l.length := by
  have h := congrArg List.length (stripZeros_spec l)
  simp only [List.length_append, List.length_replicate] at h
  omega

theorem all_stripZeros (l : List Char) (h : l.all isDigit = true) :
    (stripZeros l).all isDigit = true := by
  rw [stripZeros_spec l, List.all_append] at h
  simp only [Bool.and_eq_true] at h
  exact h.1

theorem natOfDigits_stripZeros (l : List Char) :
    natOfDigits l = natOfDigits (stripZeros l) * 10 ^ (l.length - (stripZeros l).length) := by
  conv_lhs => rw [stripZeros_spec l]
  rw [natOfDigits_append, natOfDigits_zeros, List.length_replicate]
  rfl

theorem takeWhile_digits (a rest : List Char) (ha : a.all isDigit = true)
    (hr : rest.takeWhile isDigit = []) :
    (a ++ rest).takeWhile isDigit = a ∧ (a ++ rest).dropWhile isDigit = rest := by
  induction a with
  | nil =>
    refine ⟨hr, ?_⟩
    have := List.takeWhile_append_dropWhile isDigit rest
    rw [hr] at this
    simpa using this
  | cons c cs ih =>
    simp only [List.all_cons, Bool.and_eq_true] at ha
    obtain ⟨h1, h2⟩ := ih ha.2
    simp only [List.cons_append, List.takeWhile_cons, List.dropWhile_cons, ha.1, if_true]
    exact ⟨by rw [h1], h2⟩

theorem splitSign_sgn (neg : Bool) (c : Char) (cs : List Char) (hc : isDigit c = true) :
    splitSign ((if neg then ['-'] else []) ++ c :: cs) = (neg, c :: cs) := by
  obtain ⟨h1, h2⟩ := isDigit_not_sign c hc
  cases neg
  · simp [splitSign, h1, h2]
  · simp [splitSign]

theorem parseDecimal_point (neg : Bool) (ip fp tail : List Char) (ex : Int)
    (hip : ip.all isDigit = true) (hne : ip ≠ []) (hfp : fp.all isDigit = true)
    (htw : tail.takeWhile isDigit = []) (hex : parseExponent tail = some ex) :
    parseDecimal ((if neg then ['-'] else []) ++ (ip ++ '.' :: (fp ++ tail)))
      = some (neg, natOfDigits (ip ++ fp), ex - (fp.length : Int)) := by
  obtain ⟨c, cs, rfl⟩ := List.exists_cons_of_ne_nil hne
  have hc : isDigit c = true := by
    simp only [List.all_cons, Bool.and_eq_true] at hip
    exact hip.1
  have hdot : ('.' :: (fp ++ tail)).takeWhile isDigit = [] := by
    rw [List.takeWhile_cons]
    have : isDigit '.' = false := by decide
    simp [this]
  obtain ⟨t1, t2⟩ := takeWhile_digits (c :: cs) ('.' :: (fp ++ tail)) hip hdot
  obtain ⟨f1, f2⟩ := takeWhile_digits fp tail hfp htw
  unfold parseDecimal
  rw [List.cons_append, splitSign_sgn neg c _ hc]
  simp only
  rw [← List.cons_append, t1, t2]
  simp only [splitFraction, beq_self_eq_true, if_true, f1, f2, hex]
  simp

theorem parseDecimal_plain (neg : Bool) (ip tail : List Char) (ex : Int)
    (hip : ip.all isDigit = true) (hne : ip ≠ [])
    (htw : tail.takeWhile isDigit = []) (hfr : splitFraction tail = ([], tail))
    (hex : parseExponent tail = some ex) :
    parseDecimal ((if neg then ['-'] else []) ++ (ip ++ tail))
      = some (neg, natOfDigits ip, ex) := by
  obtain ⟨c, cs, rfl⟩ := List.exists_cons_of_ne_nil hne
  have hc : isDigit c = true := by
    simp only [List.all_cons, Bool.and_eq_true] at hip
    exact hip.1
  obtain ⟨t1, t2⟩ := takeWhile_digits (c :: cs) tail hip htw
  unfold parseDecimal
  rw [List.cons_append, splitSign_sgn neg c _ hc]
  simp only
  rw [← List.cons_append, t1, t2, hfr]
  simp [hex]

/-- A field `[-] digits [. digits] tail` as `fmtG` builds it with `withPoint`. -/
theorem parseDecimal_withPoint (neg : Bool) (ip fp tail : List Char) (ex : Int)
    (hip : ip.all isDigit = true) (hne : ip ≠ []) (hfp : fp.all isDigit = true)
    (htw : tail.takeWhile isDigit = []) (hfr : splitFraction tail = ([], tail))
    (hex : parseExponent tail = some ex) :
    parseDecimal ((if neg then ['-'] else []) ++ (ip ++ (withPoint fp ++ tail)))
      = some (neg, natOfDigits (ip ++ fp), ex - (fp.length : Int)) := by
  cases fp with
  | nil =>
    have := parseDecimal_plain neg ip tail ex hip hne htw hfr hex
    simpa [withPoint] using this
  | cons c cs =>
    have := parseDecimal_point neg ip (c :: cs) tail ex hip hne hfp htw hex
    simpa [withPoint] using this

theorem expDigits_all (a : Nat) : (expDigits a).all isDigit = true := by
  unfold expDigits
  split <;> exact all_digitsFixed _ _

theorem expDigits_ne_nil (a : Nat) : expDigits a ≠ [] := by
  intro h
  have := congrArg List.length h
  unfold expDigits at this
  split at this <;> simp [length_digitsFixed] at this

theorem natOfDigits_expDigits (a : Nat) : natOfDigits (expDigits a) = a := by
  unfold expDigits
  split
  · rw [natOfDigits_digitsFixed]
    omega
  · rw [natOfDigits_digitsFixed]
    exact Nat.mod_eq_of_lt (ilog_lt_pow 10 (by omega) a a (Nat.le_refl a))

/-- The exponent part `e±dd` written by `fmtG` denotes the exponent. -/
theorem parseExponent_expDigits (X : Int) :
    parseExponent ('e' :: (if X < 0 then '-' else '+') :: expDigits X.natAbs) = some X := by
  have hne := expDigits_ne_nil X.natAbs
  have hall := expDigits_all X.natAbs
  have hval := natOfDigits_expDigits X.natAbs
  have hemp : (expDigits X.natAbs).isEmpty = false := by
    cases h : expDigits X.natAbs with
    | nil => exact absurd h hne
    | cons => rfl
  by_cases hX : X < 0
  · simp only [parseExponent, hX, if_true, splitSign, beq_self_eq_true, Bool.true_or, hemp,
      Bool.not_false, hall, Bool.and_self, hval]
    congr 1
    omega
  · have hp : ('+' == '-') = false := by decide
    simp only [parseExponent, hX, if_false, splitSign, beq_self_eq_true, Bool.true_or, hemp,
      Bool.not_false, hall, Bool.and_self, hval, hp, if_true]
    simp only [Bool.false_eq_true, if_false]
    rw [hemp, hall, hval]
    simp only [Bool.not_false, Bool.and_self, if_true]
    congr 1
    omega

theorem natOfDigits_six (D : Nat) (hD : D < 10 ^ 6) : natOfDigits (digitsFixed 6 D) = D := by
  rw [natOfDigits_digitsFixed]
  exact Nat.mod_eq_of_lt hD

theorem all_take_drop (l : List Char) (k : Nat) (h : l.all isDigit = true) :
    (l.take k).all isDigit = true ∧ (l.drop k).all isDigit = true := by
  have := List.take_append_drop k l
  rw [← this, List.all_append] at h
  simpa using h

/-- Fixed notation with the decimal point inside or after the six digits. -/
theorem parse_fixed_pos (neg : Bool) (D x : Nat) (hD : D < 10 ^ 6) (hx : x ≤ 5) :
    ∃ N z : Nat, parseDecimal ((if neg then ['-'] else []) ++ (digitsFixed 6 D).take (x + 1)
        ++ withPoint (stripZeros ((digitsFixed 6 D).drop (x + 1))))
      = some (neg, N, (x : Int) - 5 + z) ∧ D = N * 10 ^ z := by
  have hall := all_digitsFixed 6 D
  have hlen := length_digitsFixed 6 D
  have hval := natOfDigits_six D hD
  obtain ⟨ha, hb⟩ := all_take_drop (digitsFixed 6 D) (x + 1) hall
  generalize digitsFixed 6 D = ds at *
  have hsl := stripZeros_length_le (ds.drop (x + 1))
  have hbl : (ds.drop (x + 1)).length = 5 - x := by
    rw [List.length_drop]
    omega
  have hne : ds.take (x + 1) ≠ [] := by
    intro h
    have h2 : (ds.take (x + 1)).length = min (x + 1) ds.length := List.length_take _ _
    rw [h, hlen, List.length_nil] at h2
    omega
  have hp := parseDecimal_withPoint neg (ds.take (x + 1)) (stripZeros (ds.drop (x + 1))) [] 0
    ha hne (all_stripZeros _ hb) rfl rfl rfl
  refine ⟨natOfDigits (ds.take (x + 1) ++ stripZeros (ds.drop (x + 1))),
    (ds.drop (x + 1)).length - (stripZeros (ds.drop (x + 1))).length, ?_, ?_⟩
  · rw [List.append_nil] at hp
    have ek : (0 : Int) - ((stripZeros (ds.drop (x + 1))).length : Int) = (x : Int) - 5
        + (((ds.drop (x + 1)).length - (stripZeros (ds.drop (x + 1))).length : Nat) : Int) := by
      omega
    rw [List.append_assoc, hp, ek]
  · rw [natOfDigits_append, Nat.add_mul, ← natOfDigits_stripZeros, Nat.mul_assoc, ← pow_add]
    have e : (stripZeros (ds.drop (x + 1))).length
        + ((ds.drop (x + 1)).length - (stripZeros (ds.drop (x + 1))).length)
        = (ds.drop (x + 1)).length := by omega
    rw [e, ← natOfDigits_append, List.take_append_drop, hval]

/-- Fixed notation with zeros between the decimal point and the six digits. -/
theorem parse_fixed_neg (neg : Bool) (D m : Nat) (hD : D < 10 ^ 6) :
    ∃ N z : Nat, parseDecimal ((if neg then ['-'] else []) ++ ['0', '.']
        ++ stripZeros (List.replicate m '0' ++ digitsFixed 6 D))
      = some (neg, N, -(m : Int) - 6 + z) ∧ D = N * 10 ^ z := by
  have hall := all_digitsFixed 6 D
  have hlen := length_digitsFixed 6 D
  have hval := natOfDigits_six D hD
  generalize digitsFixed 6 D = ds at *
  have hc : (List.replicate m '0' ++ ds).all isDigit = true := by
    rw [List.all_append, hall]
    have : isDigit '0' = true := by decide
    simp [List.all_replicate, this]
  have hcl : (List.replicate m '0' ++ ds).length = m + 6 := by simp [hlen]
  have hsl := stripZeros_length_le (List.replicate m '0' ++ ds)
  have hp := parseDecimal_point neg ['0'] (stripZeros (List.replicate m '0' ++ ds)) [] 0
    (by decide) (by simp) (all_stripZeros _ hc) rfl rfl
  refine ⟨natOfDigits (stripZeros (List.replicate m '0' ++ ds)),
    (List.replicate m '0' ++ ds).length - (stripZeros (List.replicate m '0' ++ ds)).length,
    ?_, ?_⟩
  · rw [List.append_nil] at hp
    have e : (if neg then ['-'] else []) ++ ['0', '.'] ++ stripZeros (List.replicate m '0' ++ ds)
        = (if neg then ['-'] else []) ++ (['0'] ++ '.' :: stripZeros (List.replicate m '0' ++ ds)) := by
      simp
    have en : natOfDigits (['0'] ++ stripZeros (List.replicate m '0' ++ ds))
        = natOfDigits (stripZeros (List.replicate m '0' ++ ds)) := by
      rw [List.singleton_append, natOfDigits_cons]
      have : '0'.toNat - 48 = 0 := by decide
      rw [this]
      simp
    have ek : (0 : Int) - ((stripZeros (List.replicate m '0' ++ ds)).length : Int)
        = -(m : Int) - 6 + (((List.replicate m '0' ++ ds).length
            - (stripZeros (List.replicate m '0' ++ ds)).length : Nat) : Int) := by
      omega
    rw [e, hp, en, ek]
  · rw [← natOfDigits_stripZeros, natOfDigits_append, natOfDigits_zeros, hval]
    simp

/-- Scientific notation. -/
theorem parse_sci (neg : Bool) (D : Nat) (X : Int) (hD : D < 10 ^ 6) :
    ∃ N z : Nat, parseDecimal ((if neg then ['-'] else []) ++ (digitsFixed 6 D).take 1
        ++ withPoint (stripZeros ((digitsFixed 6 D).drop 1))
        ++ ['e', if X < 0 then '-' else '+'] ++ expDigits X.natAbs)
      = some (neg, N, X - 5 + z) ∧ D = N * 10 ^ z := by
  have hall := all_digitsFixed 6 D
  have hlen := length_digitsFixed 6 D
  have hval := natOfDigits_six D hD
  obtain ⟨ha, hb⟩ := all_take_drop (digitsFixed 6 D) 1 hall
  generalize digitsFixed 6 D = ds at *
  have hsl := stripZeros_length_le (ds.drop 1)
  have hbl : (ds.drop 1).length = 5 := by
    rw [List.length_drop]
    omega
  have hne : ds.take 1 ≠ [] := by
    intro h
    have h2 : (ds.take 1).length = min 1 ds.length := List.length_take _ _
    rw [h, hlen, List.length_nil] at h2
    omega
  have htw : ('e' :: (if X < 0 then '-' else '+') :: expDigits X.natAbs).takeWhile isDigit = [] := by
    rw [List.takeWhile_cons]
    have : isDigit 'e' = false := by decide
    simp [this]
  have hfr : splitFraction ('e' :: (if X < 0 then '-' else '+') :: expDigits X.natAbs)
      = ([], 'e' :: (if X < 0 then '-' else '+') :: expDigits X.natAbs) := by
    have : ('e' == '.') = false := by decide
    simp [splitFraction, this]
  have hp := parseDecimal_withPoint neg (ds.take 1) (stripZeros (ds.drop 1))
    ('e' :: (if X < 0 then '-' else '+') :: expDigits X.natAbs) X
    ha hne (all_stripZeros _ hb) htw hfr (parseExponent_expDigits X)
  refine ⟨natOfDigits (ds.take 1 ++ stripZeros (ds.drop 1)),
    (ds.drop 1).length - (stripZeros (ds.drop 1)).length, ?_, ?_⟩
  · have e : (if neg then ['-'] else []) ++ ds.take 1 ++ withPoint (stripZeros (ds.drop 1))
          ++ ['e', if X < 0 then '-' else '+'] ++ expDigits X.natAbs
        = (if neg then ['-'] else []) ++ (ds.take 1 ++ (withPoint (stripZeros (ds.drop 1))
          ++ 'e' :: (if X < 0 then '-' else '+') :: expDigits X.natAbs)) := by
      simp
    have ek : X - ((stripZeros (ds.drop 1)).length : Int) = X - 5
        + (((ds.drop 1).length - (stripZeros (ds.drop 1)).length : Nat) : Int) := by
      omega
    rw [e, hp, ek]
  · rw [natOfDigits_append, Nat.add_mul, ← natOfDigits_stripZeros, Nat.mul_assoc, ← pow_add]
    have e : (stripZeros (ds.drop 1)).length
        + ((ds.drop 1).length - (stripZeros (ds.drop 1)).length)
        = (ds.drop 1).length := by omega
    rw [e, ← natOfDigits_append, List.take_append_drop, hval]

theorem isNumber_iff (v : CFloat) (hv : v.isNumber = true) : v.expo < 255 ∧ v.frac < 2 ^ 23 := by
  unfold Fp.isNumber at hv
  simp only [Bool.and_eq_true, decide_eq_true_eq] at hv
  have h1 : binary32.expoMax = 255 := by decide
  have h2 : binary32.mbits = 23 := rfl
  rw [h1, h2] at hv
  exact hv

theorem number_le_max (v : CFloat) (hv : v.isNumber = true) :
    (if 0 ≤ v.exp2 then v.mant * 2 ^ v.exp2.toNat else v.mant)
      ≤ maxFloatNat * (if 0 ≤ v.exp2 then 1 else 2 ^ (-v.exp2).toNat) := by
  obtain ⟨he, hf⟩ := isNumber_iff v hv
  have hM : maxFloatNat = (2 ^ 24 - 1) * 2 ^ 104 := by decide
  have hmant : v.mant ≤ 2 ^ 24 - 1 := by
    unfold Fp.mant
    have h2 : binary32.mbits = 23 := rfl
    rw [h2]
    split <;> omega
  have hexp : v.exp2 ≤ 104 := by
    unfold Fp.exp2
    have h1 : ((binary32.bias : Nat) : Int) = 127 := by decide
    have h2 : ((binary32.mbits : Nat) : Int) = 23 := by decide
    rw [h1, h2]
    split <;> omega
  split
  · rw [Nat.mul_one, hM]
    have hk : v.exp2.toNat ≤ 104 := by omega
    exact Nat.mul_le_mul hmant (Nat.pow_le_pow_right (by omega) hk)
  · have hp : 1 ≤ 2 ^ (-v.exp2).toNat := Nat.one_le_pow _ _ (by omega)
    have h3 : maxFloatNat * 1 ≤ maxFloatNat * 2 ^ (-v.exp2).toNat := Nat.mul_le_mul_left _ hp
    have h4 : (2 : Nat) ^ 24 - 1 ≤ maxFloatNat := by decide
    omega

theorem number_pos (v : CFloat) (hm : v.mant ≠ 0) :
    0 < (if 0 ≤ v.exp2 then v.mant * 2 ^ v.exp2.toNat else v.mant)
      ∧ 0 < (if 0 ≤ v.exp2 then 1 else 2 ^ (-v.exp2).toNat) := by
  have hm2 : 0 < v.mant := Nat.pos_of_ne_zero hm
  constructor
  · split
    · exact Nat.mul_pos hm2 (pow_pos (by omega) _)
    · exact hm2
  · split
    · omega
    · exact pow_pos (by omega) _

theorem convFloat_of_parse (neg : Bool) (N z D : Nat) (X : Int) (text : List Char)
    (hp : parseDecimal text = some (neg, N, X - 5 + z)) (hD : D = N * 10 ^ z)
    (hinf : (Fp.ofDecimal binary32 neg D (X - 5)).isInf = false) :
    convFloat text = Conv.ok (Fp.ofDecimal binary32 neg D (X - 5)) := by
  unfold convFloat
  rw [hp]
  simp only
  rw [Fp.ofDecimal_scale, ← hD, hinf]
  simp

/-- Reading back the text written for a finite `float` gives the `float` nearest to its
value rounded to six significant digits. -/
theorem convFloat_putFloat (v : CFloat) (hv : v.isNumber = true) :
    convFloat (putFloat v) = Conv.ok (sixDigits v) := by
  obtain ⟨he, hf⟩ := isNumber_iff v hv
  have hmax : binary32.expoMax = 255 := by decide
  have hnan : v.isNaN = false := by
    unfold Fp.isNaN
    rw [hmax]
    have : (v.expo == 255) = false := beq_false_of_ne (by omega)
    rw [this]
    rfl
  have hinf : v.isInf = false := by
    unfold Fp.isInf
    rw [hmax]
    have : (v.expo == 255) = false := beq_false_of_ne (by omega)
    rw [this]
    rfl
  unfold putFloat fmtG sixDigits
  simp only [hnan, hinf, Bool.false_eq_true, if_false]
  by_cases hm : v.mant = 0
  · simp only [hm, if_true]
    cases v.sign <;> rfl
  · simp only [hm, if_false]
    obtain ⟨hn, hd⟩ := number_pos v hm
    have hle := number_le_max v hv
    generalize (if 0 ≤ v.exp2 then v.mant * 2 ^ v.exp2.toNat else v.mant) = n at hn hle ⊢
    generalize (if 0 ≤ v.exp2 then 1 else 2 ^ (-v.exp2).toNat) = d at hd hle ⊢
    have hp6 : defaultPrecision = 6 := rfl
    rw [hp6]
    have hD := sigDigits_lt n d hn hd
    have hni := sixDigits_not_inf v.sign n d hn hd hle
    generalize (sigDigits 6 n d).1 = D at hD hni ⊢
    generalize (sigDigits 6 n d).2 = X at hni ⊢
    by_cases hfix : -4 ≤ X ∧ X < ((6 : Nat) : Int)
    · rw [if_pos hfix]
      by_cases hX : 0 ≤ X
      · rw [if_pos hX]
        obtain ⟨N, z, h1, h2⟩ := parse_fixed_pos v.sign D X.toNat hD (by omega)
        have e : ((X.toNat : Nat) : Int) = X := by omega
        rw [e] at h1
        exact convFloat_of_parse v.sign N z D X _ h1 h2 hni
      · rw [if_neg hX]
        obtain ⟨N, z, h1, h2⟩ := parse_fixed_neg v.sign D ((-X).toNat - 1) hD
        have e : -((((-X).toNat - 1 : Nat)) : Int) - 6 = X - 5 := by omega
        rw [e] at h1
        exact convFloat_of_parse v.sign N z D X _ h1 h2 hni
    · rw [if_neg hfix]
      obtain ⟨N, z, h1, h2⟩ := parse_sci v.sign D X hD
      exact convFloat_of_parse v.sign N z D X _ h1 h2 hni

/-! ## Lemmas on the callbacks and the event loop -/

theorem key_callback_F1_ui (a : App) (sc mods : Int) :
    (key_callback a GLFW_KEY_F1 sc GLFW_PRESS mods).programState.ImGuiEnabled
      = !a.programState.ImGuiEnabled := by
  unfold key_callback
  cases h : a.programState.ImGuiEnabled <;> simp [h]

theorem key_callback_cursorMatchesUi (a : App) (sc mods : Int) :
    cursorMatchesUi (key_callback a GLFW_KEY_F1 sc GLFW_PRESS mods) := by
  unfold key_callback cursorMatchesUi
  cases h : a.programState.ImGuiEnabled <;> simp [h]

theorem pressF1_ui (presses : List (Int × Int)) (a : App) :
    (pressF1 presses a).programState.ImGuiEnabled
      = (if presses.length % 2 = 0 then a.programState.ImGuiEnabled
         else !a.programState.ImGuiEnabled) := by
  induction presses generalizing a with
  | nil => simp [pressF1]
  | cons p ps ih =>
    have := ih (key_callback a GLFW_KEY_F1 p.1 GLFW_PRESS p.2)
    simp only [pressF1, List.foldl_cons] at this ⊢
    rw [this, key_callback_F1_ui, List.length_cons]
    rcases Nat.mod_two_eq_zero_or_one ps.length with h | h
    · have : (ps.length + 1) % 2 = 1 := by omega
      simp [h, this]
    · have : (ps.length + 1) % 2 = 0 := by omega
      simp [h, this]

theorem pressF1_cursorMatchesUi (presses : List (Int × Int)) (a : App)
    (h : cursorMatchesUi a) : cursorMatchesUi (pressF1 presses a) := by
  induction presses generalizing a with
  | nil => simpa [pressF1] using h
  | cons p ps ih =>
    simp only [pressF1, List.foldl_cons]
    exact ih _ (key_callback_cursorMatchesUi a p.1 p.2)

theorem saveText_eq_tokens (s : ProgramState) :
    s.saveText = tokensText s.saveTokens ++ ['\n'] := by
  simp [ProgramState.saveText, ProgramState.saveTokens, tokensText]

theorem separated_saveTokens (s : ProgramState) : separated s.saveTokens = true := rfl

theorem convBool_putBool (b : Bool) : convBool (putBool b) = Conv.ok b := by
  cases b <;> rfl

theorem decode_saveTokens (s t : ProgramState)
    (hs : ∀ v ∈ s.persistedFloats, v.isNumber = true) :
    decodeTokens t.persisted s.saveTokens = some (s.persisted.map Field.sixDigits) := by
  have h1 := convFloat_putFloat _ (hs s.clearColor.x (by simp [ProgramState.persistedFloats]))
  have h2 := convFloat_putFloat _ (hs s.clearColor.y (by simp [ProgramState.persistedFloats]))
  have h3 := convFloat_putFloat _ (hs s.clearColor.z (by simp [ProgramState.persistedFloats]))
  have h4 := convFloat_putFloat _
    (hs s.camera.Position.x (by simp [ProgramState.persistedFloats]))
  have h5 := convFloat_putFloat _
    (hs s.camera.Position.y (by simp [ProgramState.persistedFloats]))
  have h6 := convFloat_putFloat _
    (hs s.camera.Position.z (by simp [ProgramState.persistedFloats]))
  have h7 := convFloat_putFloat _ (hs s.camera.Front.x (by simp [ProgramState.persistedFloats]))
  have h8 := convFloat_putFloat _ (hs s.camera.Front.y (by simp [ProgramState.persistedFloats]))
  have h9 := convFloat_putFloat _ (hs s.camera.Front.z (by simp [ProgramState.persistedFloats]))
  simp [decodeTokens, ProgramState.persisted, ProgramState.saveTokens, Field.conv,
    Field.sixDigits, h1, h2, h3, h4, h5, h6, h7, h8, h9, convBool_putBool]

theorem SaveToFile_same (s : ProgramState) (filename : String) (writable : String → Bool)
    (fs : FileSystem) (hw : writable filename = true) :
    s.SaveToFile filename writable fs filename = some s.saveText := by
  simp [ProgramState.SaveToFile, hw]

theorem SaveToFile_failed (s : ProgramState) (filename : String) (writable : String → Bool)
    (fs : FileSystem) (hw : writable filename = false) :
    s.SaveToFile filename writable fs = fs := by
  simp [ProgramState.SaveToFile, hw]

theorem moveIf_ui (ops : CameraOps) (down : Bool) (dir : Camera_Movement) (a : App) :
    (moveIf ops down dir a).programState.ImGuiEnabled = a.programState.ImGuiEnabled := by
  cases down <;> simp [moveIf]

theorem processInput_ui (ops : CameraOps) (pressed : Int → Bool) (a : App) :
    (processInput ops pressed a).programState.ImGuiEnabled = a.programState.ImGuiEnabled := by
  unfold processInput
  simp only [moveIf_ui]
  cases pressed GLFW_KEY_ESCAPE <;> simp

theorem frame_ui (ops : CameraOps) (now : CDouble) (pressed : Int → Bool) (edit : UiEdit)
    (a : App) :
    (frame ops now pressed edit a).programState.ImGuiEnabled = a.programState.ImGuiEnabled := by
  unfold frame
  simp only
  split
  · simp [DrawImGui, processInput_ui]
  · simp [processInput_ui]

theorem mouse_callback_ui (ops : CameraOps) (a : App) (xpos ypos : CDouble) :
    (mouse_callback ops a xpos ypos).programState.ImGuiEnabled
      = a.programState.ImGuiEnabled := by
  unfold mouse_callback
  cases a.firstMouse <;> cases h : a.programState.CameraMouseMovementUpdateEnabled
    <;> simp [h]

theorem handle_ui (ops : CameraOps) (a : App) (e : Event) (h : e.isF1Press = false) :
    (handle ops a e).programState.ImGuiEnabled = a.programState.ImGuiEnabled := by
  cases e with
  | frame now pressed edit => exact frame_ui ops now pressed edit a
  | key k sc act mods =>
    have hk : ¬(k = GLFW_KEY_F1 ∧ act = GLFW_PRESS) := by
      simpa [Event.isF1Press] using h
    simp [handle, key_callback, hk]
  | cursorPos x y => exact mouse_callback_ui ops a x y
  | scroll x y => simp [handle, scroll_callback]

theorem run_ui (ops : CameraOps) (evs : List Event) (a : App)
    (h : evs.all (fun e => !e.isF1Press) = true) :
    (run ops evs a).programState.ImGuiEnabled = a.programState.ImGuiEnabled := by
  induction evs generalizing a with
  | nil => rfl
  | cons e es ih =>
    simp only [List.all_cons, Bool.and_eq_true, Bool.not_eq_true'] at h
    simp only [run, List.foldl_cons]
    have := ih (handle ops a e) h.2
    simp only [run] at this
    rw [this, handle_ui ops a e h.1]

theorem run_append (ops : CameraOps) (xs ys : List Event) (a : App) :
    run ops (xs ++ ys) a = run ops ys (run ops xs a) := by
  simp [run, List.foldl_append]

theorem startup_no_file (own : Camera) (pl : PointLight) (fs : FileSystem)
    (h : fs stateFile = none) :
    (startup own pl fs).programState
        = { ProgramState.new own pl with pointLight := mainPointLight }
      ∧ (startup own pl fs).window.cursorMode = CursorMode.GLFW_CURSOR_DISABLED := by
  simp [startup, LoadFromFile_none _ _ _ h, ProgramState.new]

theorem startup_cursorMatchesUi (own : Camera) (pl : PointLight) (fs : FileSystem) :
    cursorMatchesUi (startup own pl fs) := by
  simp [cursorMatchesUi, startup]

/-! ## Main results -/

/-- C1 (as amended): when the file can be opened for writing and the nine persisted
`float` members of `s` are finite, `SaveToFile` followed by `LoadFromFile` of the same file
into any state `t` leaves `ImGuiEnabled` of `t` equal to that of `s` and each of the nine
`float` members of `t` equal to the `float` nearest to the member of `s` rounded to six
significant decimal digits. -/
theorem save_load_roundtrip (s t : ProgramState) (filename : String)
    (writable : String → Bool) (fs : FileSystem)
    (hw : writable filename = true)
    (hs : ∀ v ∈ s.persistedFloats, v.isNumber = true) :
    (t.LoadFromFile filename (s.SaveToFile filename writable fs)).persisted
      = s.persisted.map Field.sixDigits := by
  have hfile : s.SaveToFile filename writable fs filename
      = some (tokensText s.saveTokens ++ ['\n']) := by
    rw [SaveToFile_same s filename writable fs hw, saveText_eq_tokens]
  have h := LoadFromFile_tokens t filename _ s.saveTokens ['\n']
    (s.persisted.map Field.sixDigits)
    (separated_saveTokens s) rfl (decode_saveTokens s t hs) hfile
  rw [h]
  simp [ProgramState.saveTokens, ProgramState.persisted]

set_option maxRecDepth 20000 in
/-- C1, witness: the members of `tunedState` (0.5, 0.25, 0.1, -2.5, 1, 3, 0, -1) are finite
and have at most six significant digits; the round trip into a fresh state reproduces
them. -/
theorem save_load_roundtrip_witness :
    allWritable stateFile = true
      ∧ (∀ v ∈ tunedState.persistedFloats, v.isNumber = true)
      ∧ tunedState.saveText = String.toList "0.5\n0.25\n0.1\n1\n-2.5\n1\n3\n0\n0\n-1\n"
      ∧ tunedState.persisted.map Field.sixDigits = tunedState.persisted
      ∧ (sampleState.LoadFromFile stateFile
            (tunedState.SaveToFile stateFile allWritable noFiles)).persisted
          = tunedState.persisted.map Field.sixDigits :=
  ⟨rfl, by decide, by decide, by decide,
    save_load_roundtrip tunedState sampleState stateFile allWritable noFiles rfl (by decide)⟩

set_option maxRecDepth 20000 in
/-- C1, counterexample: in three cases the round trip does not reproduce the state.  A
camera at `x = 1234567` is written as `1.23457e+06`, six significant digits, and read back
as `1234570`.  When the file cannot be opened for writing nothing is written and the load
leaves the target as it was.  A camera at `x = +infinity` is written as `inf`, which does
not read back: the target gets `x = 0` and keeps its own `y`. -/
theorem save_load_not_exact :
    (farState.camera.Position.x = flt 1234567 0
      ∧ farState.saveText = String.toList "0\n0\n0\n0\n1.23457e+06\n0\n3\n0\n0\n-1\n"
      ∧ (sampleState.LoadFromFile stateFile
            (farState.SaveToFile stateFile allWritable noFiles)).camera.Position.x
          = flt 1234570 0
      ∧ (sampleState.LoadFromFile stateFile
            (farState.SaveToFile stateFile allWritable noFiles)).camera.Position.x
          ≠ farState.camera.Position.x)
    ∧ (tunedState.SaveToFile stateFile noneWritable noFiles stateFile = none
      ∧ sampleState.LoadFromFile stateFile
            (tunedState.SaveToFile stateFile noneWritable noFiles) = sampleState
      ∧ (sampleState.LoadFromFile stateFile
            (tunedState.SaveToFile stateFile noneWritable noFiles)).ImGuiEnabled
          ≠ tunedState.ImGuiEnabled)
    ∧ (overflowState.camera.Position.x = Fp.inf binary32 false
      ∧ overflowState.saveText = String.toList "0.5\n0.25\n0.1\n1\ninf\n1\n3\n0\n0\n-1\n"
      ∧ (sampleState.LoadFromFile stateFile
            (overflowState.SaveToFile stateFile allWritable noFiles)).camera.Position.x
          = flt 0 0
      ∧ (sampleState.LoadFromFile stateFile
            (overflowState.SaveToFile stateFile allWritable noFiles)).camera.Position.y
          = sampleState.camera.Position.y
      ∧ (sampleState.LoadFromFile stateFile
            (overflowState.SaveToFile stateFile allWritable noFiles)).camera.Position.y
          ≠ overflowState.camera.Position.y) := by
  have h1 : (sampleState.LoadFromFile stateFile
      (farState.SaveToFile stateFile allWritable noFiles)).camera.Position.x
        = ⟨false, 147, 1487952⟩ := by
    decide
  have h2 : farState.camera.Position.x = ⟨false, 147, 1487928⟩ := by decide
  have h3 : (sampleState.LoadFromFile stateFile
      (overflowState.SaveToFile stateFile allWritable noFiles)).camera.Position.y
        = ⟨false, 0, 0⟩ := by
    decide
  have h4 : overflowState.camera.Position.y = ⟨false, 127, 0⟩ := by decide
  refine ⟨⟨by decide, by decide, by decide, ?_⟩, ⟨by decide, by decide, by decide⟩,
    ⟨by decide, by decide, by decide, by decide, ?_⟩⟩
  · rw [h1, h2]
    simp
  · rw [h3, h4]
    simp

/-- C2: a state file that holds `k < 10` well-formed tokens separated by white space
and then ends (after optional white space) sets the first `k` persisted members to the
tokens' values and leaves the other `10 - k` at their values before the load. -/
theorem LoadFromFile_partial_file (t : ProgramState) (filename : String) (fs : FileSystem)
    (k : Nat) (toks : List Token) (trail : List Char) (vals : List Field)
    (_hk : k < 10) (hlen : toks.length = k)
    (hsep : separated toks = true) (htrail : trail.all isSpace = true)
    (hdec : decodeTokens t.persisted toks = some vals)
    (hfile : fs filename = some (tokensText toks ++ trail)) :
    (t.LoadFromFile filename fs).persisted = vals ++ t.persisted.drop k
      ∧ vals.length = k ∧ (t.persisted.drop k).length = 10 - k := by
  subst hlen
  refine ⟨LoadFromFile_tokens t filename fs toks trail vals hsep htrail hdec hfile,
    decodeTokens_length hdec, ?_⟩
  simp [ProgramState.persisted]

set_option maxRecDepth 20000 in
/-- C2, witness: a file with five tokens sets the colour, the UI flag and
`camera.Position.x`, and keeps the other five members of a fresh state. -/
theorem LoadFromFile_partial_file_witness :
    (sampleState.LoadFromFile stateFile
        (oneFile stateFile (String.toList "0.5 0.25\n 1 1 7"))).persisted
      = [Field.num (flt 5 (-1)), Field.num (flt 25 (-2)), Field.num (flt 1 0), Field.flag true,
          Field.num (flt 7 0)] ++ sampleState.persisted.drop 5
      ∧ [Field.num (flt 5 (-1)), Field.num (flt 25 (-2)), Field.num (flt 1 0), Field.flag true,
          Field.num (flt 7 0)].length = 5
      ∧ (sampleState.persisted.drop 5).length = 10 - 5 :=
  LoadFromFile_partial_file sampleState stateFile
    (oneFile stateFile (String.toList "0.5 0.25\n 1 1 7")) 5
    [⟨[], String.toList "0.5"⟩, ⟨[' '], String.toList "0.25"⟩,
     ⟨['\n', ' '], String.toList "1"⟩, ⟨[' '], String.toList "1"⟩, ⟨[' '], String.toList "7"⟩]
    [] _ (by decide) (by decide) (by decide) (by decide) (by decide) (by decide)

/-- C3: loading a well-formed state file with all ten tokens sets the ten persisted
members (`clearColor`, `ImGuiEnabled`, `camera.Position`, `camera.Front`) to the
tokens' values and leaves every other member unchanged: the mouse-look flag, the
backpack position and scale, the point light, and the camera's up and right vectors,
yaw, pitch and zoom. -/
theorem LoadFromFile_full_file (t : ProgramState) (filename : String) (fs : FileSystem)
    (toks : List Token) (trail : List Char) (vals : List Field)
    (hlen : toks.length = 10)
    (hsep : separated toks = true) (htrail : trail.all isSpace = true)
    (hdec : decodeTokens t.persisted toks = some vals)
    (hfile : fs filename = some (tokensText toks ++ trail)) :
    (t.LoadFromFile filename fs).persisted = vals
      ∧ (t.LoadFromFile filename fs).CameraMouseMovementUpdateEnabled
          = t.CameraMouseMovementUpdateEnabled
      ∧ (t.LoadFromFile filename fs).backpackPosition = t.backpackPosition
      ∧ (t.LoadFromFile filename fs).backpackScale = t.backpackScale
      ∧ (t.LoadFromFile filename fs).pointLight = t.pointLight
      ∧ (t.LoadFromFile filename fs).camera.Up = t.camera.Up
      ∧ (t.LoadFromFile filename fs).camera.Right = t.camera.Right
      ∧ (t.LoadFromFile filename fs).camera.Yaw = t.camera.Yaw
      ∧ (t.LoadFromFile filename fs).camera.Pitch = t.camera.Pitch
      ∧ (t.LoadFromFile filename fs).camera.Zoom = t.camera.Zoom := by
  refine ⟨?_, LoadFromFile_frame t filename fs⟩
  rw [LoadFromFile_tokens t filename fs toks trail vals hsep htrail hdec hfile, hlen]
  simp [ProgramState.persisted]

set_option maxRecDepth 20000 in
/-- C3, witness: the file `SaveToFile` writes for `tunedState`, loaded into a fresh
state. -/
theorem LoadFromFile_full_file_witness :
    (sampleState.LoadFromFile stateFile
        (oneFile stateFile (String.toList "0.5\n0.25\n0.1\n1\n-2.5\n1\n3\n0\n0\n-1\n"))).persisted
      = tunedState.persisted
      ∧ (sampleState.LoadFromFile stateFile
          (oneFile stateFile
            (String.toList "0.5\n0.25\n0.1\n1\n-2.5\n1\n3\n0\n0\n-1\n"))).pointLight
        = sampleState.pointLight :=
  have h := LoadFromFile_full_file sampleState stateFile
    (oneFile stateFile (String.toList "0.5\n0.25\n0.1\n1\n-2.5\n1\n3\n0\n0\n-1\n"))
    tunedState.saveTokens ['\n'] tunedState.persisted
    (by decide) (by decide) (by decide) (by decide) (by decide)
  ⟨h.1, h.2.2.2.2.1⟩

/-- C4: when no file exists at the path, the stream fails to open and `LoadFromFile`
leaves the whole state unchanged; a freshly constructed state keeps clear colour
`(0, 0, 0)`, the UI hidden, the camera at `(0, 0, 3)` and mouse-look enabled. -/
theorem LoadFromFile_absent_file (t : ProgramState) (own : Camera) (pl : PointLight)
    (filename : String) (fs : FileSystem) (h : fs filename = none) :
    (ifstreamOpen fs filename).toBool = false
      ∧ t.LoadFromFile filename fs = t
      ∧ ((ProgramState.new own pl).LoadFromFile filename fs).clearColor
          = ⟨flt 0 0, flt 0 0, flt 0 0⟩
      ∧ ((ProgramState.new own pl).LoadFromFile filename fs).ImGuiEnabled = false
      ∧ ((ProgramState.new own pl).LoadFromFile filename fs).camera.Position
          = ⟨flt 0 0, flt 0 0, flt 3 0⟩
      ∧ ((ProgramState.new own pl).LoadFromFile filename fs).CameraMouseMovementUpdateEnabled
          = true := by
  refine ⟨by simp [ifstreamOpen, h, IStream.toBool], LoadFromFile_none t filename fs h, ?_⟩
  rw [LoadFromFile_none _ filename fs h]
  exact ⟨rfl, rfl, rfl, rfl⟩

/-- C4, witness: a file system without files. -/
theorem LoadFromFile_absent_file_witness :
    noFiles stateFile = none ∧ tunedState.LoadFromFile stateFile noFiles = tunedState :=
  ⟨rfl, (LoadFromFile_absent_file tunedState sampleCamera mainPointLight stateFile noFiles
    rfl).2.1⟩

/-- C5: with mouse-look disabled, `mouse_callback` leaves the program state, and so the
camera, unchanged for every cursor position and every `lastX`, `lastY`, `firstMouse`;
its result does not depend on the camera's orientation update, which is not called. -/
theorem mouse_callback_disabled (ops : CameraOps) (a : App) (xpos ypos : CDouble)
    (h : a.programState.CameraMouseMovementUpdateEnabled = false) :
    (mouse_callback ops a xpos ypos).programState = a.programState
      ∧ (mouse_callback ops a xpos ypos).programState.camera = a.programState.camera
      ∧ ∀ ops2 : CameraOps, mouse_callback ops2 a xpos ypos = mouse_callback ops a xpos ypos := by
  unfold mouse_callback
  cases hf : a.firstMouse <;> simp [h, hf]

/-- C5, witness: a jump of the cursor to `(100000, 0.5)` with mouse-look off. -/
theorem mouse_callback_disabled_witness :
    sampleApp.programState.CameraMouseMovementUpdateEnabled = false
      ∧ (mouse_callback sampleOps sampleApp (dbl 100000 0) (dbl 5 (-1))).programState.camera
          = sampleApp.programState.camera :=
  ⟨rfl, (mouse_callback_disabled sampleOps sampleApp (dbl 100000 0) (dbl 5 (-1)) rfl).2.1⟩

/-- C6: from a state in which the cursor is free exactly when the UI is shown, an even
number of `F1` press events restores the cursor mode and `ImGuiEnabled`. -/
theorem F1_even_presses (a : App) (presses : List (Int × Int))
    (hinv : cursorMatchesUi a) (heven : Even presses.length) :
    (pressF1 presses a).window.cursorMode = a.window.cursorMode
      ∧ (pressF1 presses a).programState.ImGuiEnabled = a.programState.ImGuiEnabled := by
  have hui : (pressF1 presses a).programState.ImGuiEnabled = a.programState.ImGuiEnabled := by
    rw [pressF1_ui]
    have : presses.length % 2 = 0 := Nat.even_iff.mp heven
    simp [this]
  refine ⟨?_, hui⟩
  have h1 := pressF1_cursorMatchesUi presses a hinv
  unfold cursorMatchesUi at h1 hinv
  rw [h1, hinv, hui]

/-- C6, witness: two presses from the state after a startup without a state file. -/
theorem F1_even_presses_witness :
    cursorMatchesUi (startup sampleCamera mainPointLight noFiles)
      ∧ (pressF1 [(59, 0), (59, 0)]
          (startup sampleCamera mainPointLight noFiles)).window.cursorMode
        = (startup sampleCamera mainPointLight noFiles).window.cursorMode :=
  ⟨startup_cursorMatchesUi sampleCamera mainPointLight noFiles,
    (F1_even_presses (startup sampleCamera mainPointLight noFiles) [(59, 0), (59, 0)]
      (startup_cursorMatchesUi sampleCamera mainPointLight noFiles) ⟨1, rfl⟩).1⟩

/-- C7: `key_callback` acts only on a press of `F1`, where it negates `ImGuiEnabled`:
when the UI becomes visible it also clears the mouse-look flag and frees the cursor;
when the UI becomes hidden it captures the cursor; every other key or action leaves
the state and the window unchanged. -/
theorem key_callback_spec :
    (∀ (a : App) (sc mods : Int), a.programState.ImGuiEnabled = false →
        key_callback a GLFW_KEY_F1 sc GLFW_PRESS mods
          = { a with
              programState := { a.programState with
                ImGuiEnabled := true, CameraMouseMovementUpdateEnabled := false }
              window := { a.window with cursorMode := CursorMode.GLFW_CURSOR_NORMAL } })
      ∧ (∀ (a : App) (sc mods : Int), a.programState.ImGuiEnabled = true →
        key_callback a GLFW_KEY_F1 sc GLFW_PRESS mods
          = { a with
              programState := { a.programState with ImGuiEnabled := false }
              window := { a.window with cursorMode := CursorMode.GLFW_CURSOR_DISABLED } })
      ∧ (∀ (a : App) (key sc action mods : Int),
        ¬(key = GLFW_KEY_F1 ∧ action = GLFW_PRESS) →
          key_callback a key sc action mods = a) := by
  refine ⟨?_, ?_, ?_⟩
  · intro a sc mods h
    simp [key_callback, h]
  · intro a sc mods h
    simp [key_callback, h]
  · intro a key sc action mods h
    simp [key_callback, h]

/-- C7, witness: a press of `F1` with the UI hidden, and a release of `F1`. -/
theorem key_callback_spec_witness :
    (key_callback sampleApp GLFW_KEY_F1 59 GLFW_PRESS 0).programState.ImGuiEnabled = true
      ∧ (key_callback sampleApp GLFW_KEY_F1 59 GLFW_PRESS 0).window.cursorMode
          = CursorMode.GLFW_CURSOR_NORMAL
      ∧ key_callback sampleApp GLFW_KEY_F1 59 GLFW_RELEASE 0 = sampleApp :=
  ⟨congrArg (fun b : App => b.programState.ImGuiEnabled)
      (key_callback_spec.1 sampleApp 59 0 rfl),
    congrArg (fun b : App => b.window.cursorMode) (key_callback_spec.1 sampleApp 59 0 rfl),
    key_callback_spec.2.2 sampleApp GLFW_KEY_F1 59 GLFW_RELEASE 0 (by decide)⟩

/-- C8: for a decoded image `loadTexture` uploads with format `GL_RED` for one channel,
`GL_RGB` for three and `GL_RGBA` for four; for any other channel count the format
variable has no value. -/
theorem loadTexture_format :
    (∀ w h : Int, loadTexture (some (w, h, 1)) = some ⟨some GL_RED, w, h, some GL_RED⟩)
      ∧ (∀ w h : Int, loadTexture (some (w, h, 3)) = some ⟨some GL_RGB, w, h, some GL_RGB⟩)
      ∧ (∀ w h : Int, loadTexture (some (w, h, 4)) = some ⟨some GL_RGBA, w, h, some GL_RGBA⟩)
      ∧ (∀ w h n : Int, n ≠ 1 → n ≠ 3 → n ≠ 4 →
          loadTexture (some (w, h, n)) = some ⟨none, w, h, none⟩) := by
  refine ⟨fun w h => rfl, fun w h => rfl, fun w h => rfl, ?_⟩
  intro w h n h1 h3 h4
  simp [loadTexture, textureFormat, h1, h3, h4]

/-- C8, witness: an image with two channels. -/
theorem loadTexture_format_witness :
    loadTexture (some (64, 32, 2)) = some ⟨none, 64, 32, none⟩ :=
  loadTexture_format.2.2.2 64 32 2 (by decide) (by decide) (by decide)

/-- C9 (as amended): started without a state file, the program has the UI hidden, the
camera at `(0, 0, 3)` and the cursor captured; after the one `F1` press among the events
handled, the UI is visible, the cursor is free and mouse-look is off; at exit, when the
state file can be opened for writing, the file written has `1` as its fourth line and
the camera position and front vector of that moment as lines five to ten, and when it
cannot be opened no file is created or changed. -/
theorem end_to_end_ui_toggle (ops : CameraOps) (own : Camera) (pl : PointLight)
    (writable : String → Bool) (fs : FileSystem) (before after : List Event) (sc mods : Int)
    (hfile : fs stateFile = none)
    (hbefore : before.all (fun e => !e.isF1Press) = true)
    (hafter : after.all (fun e => !e.isF1Press) = true) :
    ((startup own pl fs).programState.ImGuiEnabled = false
      ∧ (startup own pl fs).programState.camera.Position = ⟨flt 0 0, flt 0 0, flt 3 0⟩
      ∧ (startup own pl fs).window.cursorMode = CursorMode.GLFW_CURSOR_DISABLED)
    ∧ ((session ops own pl (before ++ [Event.key GLFW_KEY_F1 sc GLFW_PRESS mods])
          fs).programState.ImGuiEnabled = true
      ∧ (session ops own pl (before ++ [Event.key GLFW_KEY_F1 sc GLFW_PRESS mods])
          fs).window.cursorMode = CursorMode.GLFW_CURSOR_NORMAL
      ∧ (session ops own pl (before ++ [Event.key GLFW_KEY_F1 sc GLFW_PRESS mods])
          fs).programState.CameraMouseMovementUpdateEnabled = false)
    ∧ (writable stateFile = false →
        mainRun ops own pl (before ++ Event.key GLFW_KEY_F1 sc GLFW_PRESS mods :: after)
          writable fs = fs)
    ∧ (writable stateFile = true →
      mainRun ops own pl (before ++ Event.key GLFW_KEY_F1 sc GLFW_PRESS mods :: after)
        writable fs stateFile
      = some (linesText
        [putFloat (session ops own pl (before ++ Event.key GLFW_KEY_F1 sc GLFW_PRESS mods
            :: after) fs).programState.clearColor.x,
         putFloat (session ops own pl (before ++ Event.key GLFW_KEY_F1 sc GLFW_PRESS mods
            :: after) fs).programState.clearColor.y,
         putFloat (session ops own pl (before ++ Event.key GLFW_KEY_F1 sc GLFW_PRESS mods
            :: after) fs).programState.clearColor.z,
         ['1'],
         putFloat (session ops own pl (before ++ Event.key GLFW_KEY_F1 sc GLFW_PRESS mods
            :: after) fs).programState.camera.Position.x,
         putFloat (session ops own pl (before ++ Event.key GLFW_KEY_F1 sc GLFW_PRESS mods
            :: after) fs).programState.camera.Position.y,
         putFloat (session ops own pl (before ++ Event.key GLFW_KEY_F1 sc GLFW_PRESS mods
            :: after) fs).programState.camera.Position.z,
         putFloat (session ops own pl (before ++ Event.key GLFW_KEY_F1 sc GLFW_PRESS mods
            :: after) fs).programState.camera.Front.x,
         putFloat (session ops own pl (before ++ Event.key GLFW_KEY_F1 sc GLFW_PRESS mods
            :: after) fs).programState.camera.Front.y,
         putFloat (session ops own pl (before ++ Event.key GLFW_KEY_F1 sc GLFW_PRESS mods
            :: after) fs).programState.camera.Front.z])) := by
  have h0 := startup_no_file own pl fs hfile
  have hui0 : (startup own pl fs).programState.ImGuiEnabled = false := by
    rw [h0.1]; rfl
  have hb : (run ops before (startup own pl fs)).programState.ImGuiEnabled = false := by
    rw [run_ui ops before _ hbefore, hui0]
  have hpress : session ops own pl (before ++ [Event.key GLFW_KEY_F1 sc GLFW_PRESS mods]) fs
      = key_callback (run ops before (startup own pl fs)) GLFW_KEY_F1 sc GLFW_PRESS mods := by
    rw [session, run_append]; rfl
  have hfinal : (session ops own pl
      (before ++ Event.key GLFW_KEY_F1 sc GLFW_PRESS mods :: after) fs).programState.ImGuiEnabled
        = true := by
    have : before ++ Event.key GLFW_KEY_F1 sc GLFW_PRESS mods :: after
        = (before ++ [Event.key GLFW_KEY_F1 sc GLFW_PRESS mods]) ++ after := by simp
    rw [session, this, run_append, run_ui ops after _ hafter]
    have := hpress
    rw [session] at this
    rw [this, key_callback_F1_ui, hb]
    rfl
  refine ⟨⟨hui0, ?_, h0.2⟩, ⟨?_, ?_, ?_⟩, ?_, ?_⟩
  · rw [h0.1]; rfl
  · rw [hpress, key_callback_F1_ui, hb]; rfl
  · rw [hpress]; simp [key_callback, hb]
  · rw [hpress]; simp [key_callback, hb]
  · intro hw
    exact SaveToFile_failed _ _ _ _ hw
  · intro hw
    simp only [mainRun, SaveToFile_same _ _ _ _ hw, ProgramState.saveText, hfinal, putBool,
      linesText]
    simp

set_option maxRecDepth 20000 in
/-- C9, witness: a cursor motion, the `F1` press, and one more loop iteration in which
the `W` key is held; the file left at exit when every path can be opened. -/
theorem end_to_end_ui_toggle_witness :
    noFiles stateFile = none
      ∧ mainRun sampleOps sampleCamera mainPointLight
          ([Event.cursorPos (dbl 410 0) (dbl 300 0)]
            ++ Event.key GLFW_KEY_F1 59 GLFW_PRESS 0
            :: [Event.frame (dbl 5 (-1)) (fun k => decide (k = GLFW_KEY_W))
                  ⟨Vec3.splat (flt 0 0), Vec3.splat (flt 0 0), flt 1 0, flt 1 0, flt 9 (-2),
                    flt 32 (-3), false⟩])
          allWritable noFiles stateFile
        = some (String.toList "0\n0\n0\n1\n0\n0\n3\n0\n0\n-1\n") :=
  ⟨rfl, ((end_to_end_ui_toggle sampleOps sampleCamera mainPointLight allWritable noFiles
      [Event.cursorPos (dbl 410 0) (dbl 300 0)]
      [Event.frame (dbl 5 (-1)) (fun k => decide (k = GLFW_KEY_W))
        ⟨Vec3.splat (flt 0 0), Vec3.splat (flt 0 0), flt 1 0, flt 1 0, flt 9 (-2),
          flt 32 (-3), false⟩]
      59 0 rfl (by decide) (by decide)).2.2.2 rfl).trans (by decide)⟩

/-- C9, counterexample: started where no state file exists and none can be created (the
directory `resources` is missing), the program handles one `F1` press, the UI flag is
set at exit, and still no state file is written. -/
theorem end_to_end_no_file_written :
    noFiles stateFile = none
      ∧ noneWritable stateFile = false
      ∧ (session sampleOps sampleCamera mainPointLight [Event.key GLFW_KEY_F1 59 GLFW_PRESS 0]
          noFiles).programState.ImGuiEnabled = true
      ∧ mainRun sampleOps sampleCamera mainPointLight [Event.key GLFW_KEY_F1 59 GLFW_PRESS 0]
          noneWritable noFiles stateFile = none := by
  refine ⟨rfl, rfl, ?_, rfl⟩
  decide

/-- C10 (as amended): when the state file holds well-formed tokens separated by white
space for the members before member `k` and then, after white space (none is needed for
`k = 1`), text that starts with a visible character and does not begin with a number, in
that the longest run of characters that can continue a number of the type of member `k`
(no character as in `xyz`, or an unfinished number as in `-`, `.x`, `1e+x`) does not
convert, `LoadFromFile` sets the members before `k` to the tokens' values, stores zero
(`0.0f`, or `false` for the UI flag) in member `k`, and leaves every later member at the
value it had before the load.  Text that begins with a number, as `12abc`, and a number
out of range are not text of this kind. -/
theorem LoadFromFile_malformed_field (t : ProgramState) (filename : String) (fs : FileSystem)
    (toks : List Token) (pre junk : List Char) (vals : List Field) (slot : Field)
    (later : List Field)
    (hsep : separated toks = true) (hpre : pre.all isSpace = true)
    (hgap : toks ≠ [] → pre ≠ [])
    (hdec : decodeTokens t.persisted toks = some vals)
    (hslot : t.persisted.drop toks.length = slot :: later)
    (hjunk : nonNumeric slot junk = true)
    (hfile : fs filename = some (tokensText toks ++ (pre ++ junk))) :
    (t.LoadFromFile filename fs).persisted = vals ++ slot.zero :: later := by
  have hend : toks ≠ [] → fieldEnd (pre ++ junk) = true := by
    intro hne
    have := hgap hne
    cases pre with
    | nil => exact absurd rfl this
    | cons c cs =>
      simp only [List.all_cons, Bool.and_eq_true] at hpre
      simpa [fieldEnd] using hpre.1
  have hemp : (pre ++ junk).isEmpty = false := by
    cases pre <;> cases junk <;> simp_all [nonNumeric]
  have hj := Field.extract_junk hjunk pre hpre
  rw [persisted_LoadFromFile_some t filename fs _ hfile,
    extractAll_tokens toks _ vals (pre ++ junk) hsep hdec hend, hslot, hemp]
  simp [IStream.extractAll, hj.1, extractAll_failed later _ hj.2]

set_option maxRecDepth 20000 in
/-- C10, witness: six zeros and then `xyz` where `camera.Position.z` is expected. -/
theorem LoadFromFile_malformed_field_witness :
    (sampleState.LoadFromFile stateFile
        (oneFile stateFile (String.toList "0 0 0 0 0 0 xyz"))).persisted
      = [Field.num (flt 0 0), Field.num (flt 0 0), Field.num (flt 0 0), Field.flag false,
          Field.num (flt 0 0), Field.num (flt 0 0)]
        ++ (Field.num (flt 3 0)).zero
          :: [Field.num (flt 0 0), Field.num (flt 0 0),
              Field.num (Fp.ofDecimal binary32 true 1 0)] :=
  LoadFromFile_malformed_field sampleState stateFile
    (oneFile stateFile (String.toList "0 0 0 0 0 0 xyz"))
    [⟨[], ['0']⟩, ⟨[' '], ['0']⟩, ⟨[' '], ['0']⟩, ⟨[' '], ['0']⟩, ⟨[' '], ['0']⟩,
     ⟨[' '], ['0']⟩]
    [' '] (String.toList "xyz") _ _ _ (by decide) (by decide) (by decide) (by decide)
    (by decide) (by decide) (by decide)

set_option maxRecDepth 20000 in
/-- C10, counterexample: in a fresh state `camera.Position.z` is `3`; a state file with
six zeros and then `xyz`, malformed at the seventh field, leaves it at `0`, not at the
value it had before the load.  A token that begins with a number behaves differently
again: from eight zeros and then `12abc`, the ninth member `camera.Front.y` is set to `12`
and it is the tenth, `camera.Front.z`, that goes from `-1` to `0`. -/
theorem malformed_field_zeroed :
    nonNumeric (Field.num (flt 3 0)) (String.toList "xyz") = true
      ∧ sampleState.camera.Position.z = flt 3 0
      ∧ (sampleState.LoadFromFile stateFile
          (oneFile stateFile (String.toList "0 0 0 0 0 0 xyz"))).camera.Position.z = flt 0 0
      ∧ (sampleState.LoadFromFile stateFile
          (oneFile stateFile (String.toList "0 0 0 0 0 0 xyz"))).camera.Position.z
          ≠ sampleState.camera.Position.z
      ∧ nonNumeric (Field.num (flt 0 0)) (String.toList "12abc") = false
      ∧ sampleState.camera.Front.y = flt 0 0
      ∧ sampleState.camera.Front.z = Fp.ofDecimal binary32 true 1 0
      ∧ (sampleState.LoadFromFile stateFile
          (oneFile stateFile (String.toList "0 0 0 0 0 0 0 0 12abc"))).camera.Front.y
          = flt 12 0
      ∧ (sampleState.LoadFromFile stateFile
          (oneFile stateFile (String.toList "0 0 0 0 0 0 0 0 12abc"))).camera.Front.z
          = flt 0 0 := by
  have h1 : (sampleState.LoadFromFile stateFile
      (oneFile stateFile (String.toList "0 0 0 0 0 0 xyz"))).camera.Position.z
        = ⟨false, 0, 0⟩ := by decide
  have h2 : sampleState.camera.Position.z = ⟨false, 128, 4194304⟩ := by decide
  refine ⟨by decide, by decide, by decide, ?_, by decide, by decide, by decide, by decide,
    by decide⟩
  rw [h1, h2]
  simp

/-! ## Lemmas on rendering and on the cursor offsets -/

theorem renderScene_summary (ps : ProgramState) (g : GLContext) :
    (renderScene ps g).draws.map DrawCall.summary = sceneDraws ps.pointLight.position := by
  rfl

theorem renderScene_culling (ps : ProgramState) (g : GLContext) :
    (renderScene ps g).draws.map DrawCall.culling
      = sceneCulling (if g.cullFace then some g.cullMode else none) := by
  rfl

theorem renderScene_leaves_cull (ps : ProgramState) (g : GLContext) :
    (renderScene ps g).gl.cullFace = false := rfl

theorem renderScene_ranges (ps : ProgramState) (g : GLContext) :
    (renderScene ps g).draws.map (fun d => (d.vertexArray, d.first, d.count))
      = [(some VaoId.VAO, 0, 6), (some VaoId.VAO, 6, 6), (some VaoId.VAO, 12, 6),
         (some VaoId.VAO, 18, 6), (some VaoId.VAO1, 0, 36), (some VaoId.VAO1, 0, 6)] := by
  rfl

set_option maxRecDepth 20000 in
theorem renderScene_inBounds (ps : ProgramState) (g : GLContext) :
    (renderScene ps g).draws.all DrawCall.inBounds = true := by
  have h : (renderScene ps g).draws.all DrawCall.inBounds
      = ((renderScene ps g).draws.map (fun d => (d.vertexArray, d.first, d.count))).all
          (fun t => rangeInBounds t.1 t.2.1 t.2.2) := by
    induction (renderScene ps g).draws with
    | nil => rfl
    | cons d ds ih => simp only [List.all_cons, List.map_cons, ih, DrawCall.inBounds]
  rw [h, renderScene_ranges]
  decide

theorem moveIf_light (ops : CameraOps) (down : Bool) (dir : Camera_Movement) (a : App) :
    (moveIf ops down dir a).programState.pointLight = a.programState.pointLight := by
  cases down <;> simp [moveIf]

theorem processInput_light (ops : CameraOps) (pressed : Int → Bool) (a : App) :
    (processInput ops pressed a).programState.pointLight = a.programState.pointLight := by
  unfold processInput
  simp only [moveIf_light]
  cases pressed GLFW_KEY_ESCAPE <;> simp

theorem afterInput_light (ops : CameraOps) (now : CDouble) (pressed : Int → Bool) (a : App) :
    (afterInput ops now pressed a).programState.pointLight = a.programState.pointLight := by
  simp [afterInput, processInput_light]

theorem frame_light (ops : CameraOps) (now : CDouble) (pressed : Int → Bool) (edit : UiEdit)
    (a : App) :
    (frame ops now pressed edit a).programState.pointLight.position
      = a.programState.pointLight.position := by
  unfold frame
  simp only
  split
  · simp [DrawImGui, processInput_light]
  · simp [processInput_light]

theorem handle_light (ops : CameraOps) (a : App) (e : Event) :
    (handle ops a e).programState.pointLight.position
      = a.programState.pointLight.position := by
  cases e with
  | frame now pressed edit => exact frame_light ops now pressed edit a
  | key k sc act mods =>
    simp only [handle, key_callback]
    split
    · split <;> rfl
    · rfl
  | cursorPos x y =>
    simp only [handle, mouse_callback]
    cases a.firstMouse <;> cases h : a.programState.CameraMouseMovementUpdateEnabled
      <;> simp [h]
  | scroll x y => simp [handle, scroll_callback]

theorem Machine.step_app (ops : CameraOps) (m : Machine) (e : Event) :
    (Machine.step ops m e).app = handle ops m.app e := by
  cases e <;> rfl

theorem Machine.run_app (ops : CameraOps) (evs : List Event) (m : Machine) :
    (Machine.run ops evs m).app = Projekat.run ops evs m.app := by
  induction evs generalizing m with
  | nil => rfl
  | cons e es ih =>
    simp only [Machine.run, Projekat.run, List.foldl_cons] at ih ⊢
    rw [ih, Machine.step_app]

theorem Machine.run_summaries (ops : CameraOps) (evs : List Event) (m : Machine) (light : Vec3)
    (h : m.app.programState.pointLight.position = light) :
    (Machine.run ops evs m).frames.map (fun f => f.map DrawCall.summary)
      = m.frames.map (fun f => f.map DrawCall.summary)
        ++ List.replicate (evs.countP Event.isFrame) (sceneDraws light) := by
  induction evs generalizing m with
  | nil => simp [Machine.run]
  | cons e es ih =>
    have hstep : (Machine.step ops m e).app.programState.pointLight.position = light := by
      rw [Machine.step_app, handle_light, h]
    have := ih (Machine.step ops m e) hstep
    simp only [Machine.run, List.foldl_cons] at this ⊢
    rw [this]
    cases e with
    | frame now pressed edit =>
      have hl : (afterInput ops now pressed m.app).programState.pointLight.position = light := by
        rw [afterInput_light, h]
      simp [Machine.step, Event.isFrame, renderScene_summary, hl, List.replicate_succ]
    | key k sc act mods => simp [Machine.step, Event.isFrame]
    | cursorPos x y => simp [Machine.step, Event.isFrame]
    | scroll x y => simp [Machine.step, Event.isFrame]

theorem Machine.run_cullings (ops : CameraOps) (evs : List Event) (m : Machine) :
    (Machine.run ops evs m).frames.map (fun f => f.map DrawCall.culling)
      = m.frames.map (fun f => f.map DrawCall.culling)
        ++ (List.range (evs.countP Event.isFrame)).map (fun i =>
            if i = 0 then sceneCulling (if m.gl.cullFace then some m.gl.cullMode else none)
            else sceneCulling none) := by
  induction evs generalizing m with
  | nil => simp [Machine.run]
  | cons e es ih =>
    have := ih (Machine.step ops m e)
    simp only [Machine.run, List.foldl_cons] at this ⊢
    rw [this]
    cases e with
    | frame now pressed edit =>
      simp only [Machine.step, renderScene_leaves_cull, List.map_append, List.map_cons,
        List.map_nil, renderScene_culling, List.countP_cons, Event.isFrame, if_true,
        List.append_assoc, List.singleton_append]
      congr 1
      rw [List.range_succ_eq_map]
      simp [Function.comp_def]
    | key k sc act mods => simp [Machine.step, Event.isFrame]
    | cursorPos x y => simp [Machine.step, Event.isFrame]
    | scroll x y => simp [Machine.step, Event.isFrame]

theorem Fp.sub_self_finite {f : FpFormat} (x : Fp f) (h : x.isFinite = true) :
    Fp.sub x x = Fp.zero f false := by
  have hne : x.expo ≠ f.expoMax := by simpa [Fp.isFinite] using h
  have hnan : x.isNaN = false := by simp [Fp.isNaN, hne]
  have hinf : x.isInf = false := by simp [Fp.isInf, hne]
  simp [Fp.sub, hnan, hinf]

theorem toFloat_zero : toFloat (Fp.zero binary64 false) = Fp.zero binary32 false := by
  decide

theorem offset_fitsFloat (x : CDouble) (h : fitsFloat x = true) :
    toFloat (Fp.sub x (toDouble (toFloat x))) = Fp.zero binary32 false
      ∧ toFloat (Fp.sub (toDouble (toFloat x)) x) = Fp.zero binary32 false := by
  simp only [fitsFloat, Bool.and_eq_true, beq_iff_eq] at h
  rw [h.2, Fp.sub_self_finite x h.1, toFloat_zero]
  exact ⟨rfl, rfl⟩

theorem startup_light (own : Camera) (pl : PointLight) (fs : FileSystem) :
    (startup own pl fs).programState.pointLight.position = ⟨flt 1 0, flt 1 0, flt 1 0⟩ := by
  have h : toFloat (dbl 1 0) = flt 1 0 := by decide
  simp [startup, mainPointLight, Vec3.splat, h]

theorem fitsFloat_of_eq (x y : CDouble) (h1 : toDouble (toFloat x) = y) (h2 : x = y)
    (h3 : y.isFinite = true) : fitsFloat x = true := by
  subst h2
  simp [fitsFloat, h1, h3]

set_option maxRecDepth 20000 in
theorem fitsFloat_sample :
    fitsFloat (dbl 4105 (-1)) = true ∧ fitsFloat (dbl 300 0) = true :=
  ⟨fitsFloat_of_eq _ ⟨false, 1031, 2717992743862272⟩ (by decide) (by decide) (by decide),
   fitsFloat_of_eq _ ⟨false, 1031, 774056185954304⟩ (by decide) (by decide) (by decide)⟩

theorem Machine.run_inBounds (ops : CameraOps) (evs : List Event) (m : Machine) :
    (Machine.run ops evs m).frames.all (fun f => f.all DrawCall.inBounds)
      = m.frames.all (fun f => f.all DrawCall.inBounds) := by
  induction evs generalizing m with
  | nil => rfl
  | cons e es ih =>
    have := ih (Machine.step ops m e)
    simp only [Machine.run, List.foldl_cons] at this ⊢
    rw [this]
    cases e with
    | frame now pressed edit => simp [Machine.step, renderScene_inBounds]
    | key k sc act mods => rfl
    | cursorPos x y => rfl
    | scroll x y => rfl

/-! ## Main results on the cursor callback and on rendering -/

/-- C11 (as amended): after every callback, with mouse-look on or off, `lastX` and
`lastY` hold the cursor position narrowed to `float` and `firstMouse` is false; the
offset forwarded to the camera is `(xpos - lastX, lastY - ypos)`, each difference taken
in `double` from the `float` `lastX`, `lastY` (the narrowed position of the previous
callback, or of this one on the first callback) and narrowed to `float`; on the first
callback the forwarded offset is `(0, 0)` for every cursor position that `float`
carries without loss. -/
theorem mouse_callback_offsets (ops : CameraOps) (a : App) (xpos ypos : CDouble) :
    ((mouse_callback ops a xpos ypos).lastX = toFloat xpos
      ∧ (mouse_callback ops a xpos ypos).lastY = toFloat ypos
      ∧ (mouse_callback ops a xpos ypos).firstMouse = false)
    ∧ (a.programState.CameraMouseMovementUpdateEnabled = true →
        (mouse_callback ops a xpos ypos).programState.camera
          = ops.ProcessMouseMovement a.programState.camera
              (toFloat (Fp.sub xpos (toDouble (if a.firstMouse then toFloat xpos else a.lastX))))
              (toFloat (Fp.sub (toDouble (if a.firstMouse then toFloat ypos else a.lastY)) ypos)))
    ∧ (a.programState.CameraMouseMovementUpdateEnabled = true → a.firstMouse = true →
        fitsFloat xpos = true → fitsFloat ypos = true →
        (mouse_callback ops a xpos ypos).programState.camera
          = ops.ProcessMouseMovement a.programState.camera
              (Fp.zero binary32 false) (Fp.zero binary32 false)) := by
  refine ⟨?_, ?_, ?_⟩
  · unfold mouse_callback
    cases hf : a.firstMouse <;> cases he : a.programState.CameraMouseMovementUpdateEnabled
      <;> simp [hf, he]
  · intro he
    unfold mouse_callback
    cases hf : a.firstMouse <;> simp [hf, he]
  · intro he hf hx hy
    unfold mouse_callback
    simp [hf, he, (offset_fitsFloat xpos hx).1, (offset_fitsFloat ypos hy).2]

set_option maxRecDepth 20000 in
/-- C11, witness: the first callback at `(410.5, 300)` forwards the offset `(0, 0)`. -/
theorem mouse_callback_offsets_witness :
    fitsFloat (dbl 4105 (-1)) = true ∧ fitsFloat (dbl 300 0) = true
      ∧ (mouse_callback sampleOps (startup sampleCamera mainPointLight noFiles)
          (dbl 4105 (-1)) (dbl 300 0)).programState.camera
        = sampleOps.ProcessMouseMovement
            (startup sampleCamera mainPointLight noFiles).programState.camera
            (Fp.zero binary32 false) (Fp.zero binary32 false) :=
  ⟨fitsFloat_sample.1, fitsFloat_sample.2,
    (mouse_callback_offsets sampleOps (startup sampleCamera mainPointLight noFiles)
      (dbl 4105 (-1)) (dbl 300 0)).2.2 (by decide) (by decide)
      fitsFloat_sample.1 fitsFloat_sample.2⟩

set_option maxRecDepth 20000 in
/-- C11, counterexample: on the first callback at `xpos = 0.1`, a `double` that `float`
does not carry, `lastX` becomes `0.1f`, which differs from `xpos`, and the horizontal
offset forwarded to the camera is `(float) (0.1 - 0.1f)`, about `-1.49e-9`, not `0`. -/
theorem mouse_first_offset_not_zero :
    (startup sampleCamera mainPointLight noFiles).firstMouse = true
      ∧ (startup sampleCamera mainPointLight noFiles).programState.CameraMouseMovementUpdateEnabled
          = true
      ∧ (mouse_callback sampleOps (startup sampleCamera mainPointLight noFiles)
          (dbl 1 (-1)) (dbl 300 0)).programState.camera.Yaw = ⟨true, 97, 5033165⟩
      ∧ (mouse_callback sampleOps (startup sampleCamera mainPointLight noFiles)
          (dbl 1 (-1)) (dbl 300 0)).programState.camera.Yaw ≠ Fp.zero binary32 false
      ∧ toDouble (mouse_callback sampleOps (startup sampleCamera mainPointLight noFiles)
          (dbl 1 (-1)) (dbl 300 0)).lastX ≠ dbl 1 (-1) := by
  have h1 : (mouse_callback sampleOps (startup sampleCamera mainPointLight noFiles)
      (dbl 1 (-1)) (dbl 300 0)).programState.camera.Yaw = ⟨true, 97, 5033165⟩ := by decide
  have h2 : toDouble (mouse_callback sampleOps (startup sampleCamera mainPointLight noFiles)
      (dbl 1 (-1)) (dbl 300 0)).lastX = ⟨false, 1019, 2702159883796480⟩ := by decide
  have h3 : dbl 1 (-1) = ⟨false, 1019, 2702159776422298⟩ := by decide
  refine ⟨by decide, by decide, h1, ?_, ?_⟩
  · rw [h1]; simp [Fp.zero]
  · rw [h2, h3]; simp

/-- C12: every loop iteration since startup issues the same six draw calls, in this
order: the room faces on the room vertex array with one model matrix (shader 1 and
texture 1 for vertices 0-5, shader 3 and texture 3 for 6-11, shader 1 and texture 1 for
12-17, shader 2 and texture 2 for 18-23), the terrain (shader 4, texture 4, vertices
0-35 of the cube vertex array) and the plant (shader 5, texture 5, vertices 0-5 of the
cube vertex array), each with light position `(1, 1, 1)`; for any program state and
context the list is the same up to the light position the state holds. -/
theorem frame_draw_calls (ops : CameraOps) (own : Camera) (pl : PointLight) (fs : FileSystem)
    (g0 : GLContext) (evs : List Event) :
    (Machine.run ops evs (Machine.start own pl fs g0)).frames.map
        (fun f => f.map DrawCall.summary)
      = List.replicate (evs.countP Event.isFrame) (sceneDraws ⟨flt 1 0, flt 1 0, flt 1 0⟩)
    ∧ ∀ (ps : ProgramState) (g : GLContext),
        (renderScene ps g).draws.map DrawCall.summary = sceneDraws ps.pointLight.position := by
  refine ⟨?_, renderScene_summary⟩
  have h := Machine.run_summaries ops evs (Machine.start own pl fs g0) _
    (startup_light own pl fs)
  simpa [Machine.start] using h

/-- C13: `key_callback` never turns mouse-look on; two successive `F1` presses leave
mouse-look off, restore `ImGuiEnabled` and, from a state where the cursor is free
exactly when the UI is shown, the cursor mode; so from a state with mouse-look on they
do not give the state back. -/
theorem key_callback_never_enables_mouse_look :
    (∀ (a : App) (key sc action mods : Int),
        (key_callback a key sc action mods).programState.CameraMouseMovementUpdateEnabled = true →
          a.programState.CameraMouseMovementUpdateEnabled = true)
    ∧ (∀ (a : App) (p q : Int × Int),
        (pressF1 [p, q] a).programState.CameraMouseMovementUpdateEnabled = false
          ∧ (pressF1 [p, q] a).programState.ImGuiEnabled = a.programState.ImGuiEnabled
          ∧ (cursorMatchesUi a → (pressF1 [p, q] a).window.cursorMode = a.window.cursorMode))
    ∧ (∀ (a : App) (p q : Int × Int),
        a.programState.CameraMouseMovementUpdateEnabled = true → pressF1 [p, q] a ≠ a) := by
  have htwo : ∀ (a : App) (p q : Int × Int),
      (pressF1 [p, q] a).programState.CameraMouseMovementUpdateEnabled = false := by
    intro a p q
    simp only [pressF1, List.foldl_cons, List.foldl_nil, key_callback]
    cases h : a.programState.ImGuiEnabled <;> simp [h]
  refine ⟨?_, ?_, ?_⟩
  · intro a key sc action mods
    unfold key_callback
    split
    · cases h : a.programState.ImGuiEnabled <;> simp [h]
    · exact id
  · intro a p q
    refine ⟨htwo a p q, ?_, ?_⟩
    · simp only [pressF1, List.foldl_cons, List.foldl_nil, key_callback]
      cases h : a.programState.ImGuiEnabled <;> simp [h]
    · intro hinv
      unfold cursorMatchesUi at hinv
      rw [hinv]
      simp only [pressF1, List.foldl_cons, List.foldl_nil, key_callback]
      cases h : a.programState.ImGuiEnabled <;> simp [h]
  · intro a p q hen heq
    have := htwo a p q
    rw [heq, hen] at this
    exact absurd this (by simp)

/-- C13, witness: two presses from the state after a startup without a state file, in
which mouse-look is on. -/
theorem key_callback_never_enables_mouse_look_witness :
    (startup sampleCamera mainPointLight noFiles).programState.CameraMouseMovementUpdateEnabled
        = true
      ∧ (pressF1 [(59, 0), (59, 0)] (startup sampleCamera mainPointLight noFiles)).programState.CameraMouseMovementUpdateEnabled
        = false
      ∧ pressF1 [(59, 0), (59, 0)] (startup sampleCamera mainPointLight noFiles)
        ≠ startup sampleCamera mainPointLight noFiles :=
  ⟨rfl,
   (key_callback_never_enables_mouse_look.2.1 (startup sampleCamera mainPointLight noFiles)
      (59, 0) (59, 0)).1,
   key_callback_never_enables_mouse_look.2.2 (startup sampleCamera mainPointLight noFiles)
      (59, 0) (59, 0) rfl⟩

set_option maxRecDepth 20000 in
/-- C14: every draw call of the render loop reads only floats inside the buffer of
the bound vertex array; the four room draws (first vertex 0, 6, 12, 18, six vertices
each) read each of the 24 vertices of `vertices1` (192 floats, 8 per vertex) exactly
once, and the terrain draw (36 vertices from 0) and the plant draw (6 from 0) stay
within the 36 vertices of `vertices0` (288 floats). -/
theorem draw_calls_in_bounds (ops : CameraOps) (own : Camera) (pl : PointLight)
    (fs : FileSystem) (g0 : GLContext) (evs : List Event) (ps : ProgramState) (g : GLContext) :
    (Machine.run ops evs (Machine.start own pl fs g0)).frames.all
        (fun f => f.all DrawCall.inBounds) = true
    ∧ (renderScene ps g).draws.all DrawCall.inBounds = true
    ∧ (renderScene ps g).draws.map (fun d => (d.vertexArray, d.first, d.count))
        = [(some VaoId.VAO, 0, 6), (some VaoId.VAO, 6, 6), (some VaoId.VAO, 12, 6),
           (some VaoId.VAO, 18, 6), (some VaoId.VAO1, 0, 36), (some VaoId.VAO1, 0, 6)]
    ∧ (vertices1.length = 192 ∧ vertexCount VaoId.VAO = 24)
    ∧ (vertices0.length = 288 ∧ vertexCount VaoId.VAO1 = 36)
    ∧ (((renderScene ps g).draws.take 4).map DrawCall.vertices).flatten
        = List.range (vertexCount VaoId.VAO)
    ∧ (((renderScene ps g).draws.take 4).map DrawCall.vertices).flatten.Nodup
    ∧ ((renderScene ps g).draws.drop 4).all
        (fun d => decide (d.first + d.count ≤ vertexCount VaoId.VAO1)) = true := by
  have hv : ((renderScene ps g).draws.take 4).map DrawCall.vertices
      = [List.range' 0 6, List.range' 6 6, List.range' 12 6, List.range' 18 6] := rfl
  refine ⟨?_, renderScene_inBounds ps g, renderScene_ranges ps g, by decide, by decide,
    ?_, ?_, ?_⟩
  · rw [Machine.run_inBounds]; rfl
  · rw [hv]; decide
  · rw [hv]; decide
  · have hd : ((renderScene ps g).draws.drop 4).map (fun d => (d.first, d.count))
        = [(0, 36), (0, 6)] := rfl
    have h : ((renderScene ps g).draws.drop 4).all
        (fun d => decide (d.first + d.count ≤ vertexCount VaoId.VAO1))
        = (((renderScene ps g).draws.drop 4).map (fun d => (d.first, d.count))).all
            (fun t => decide (t.1 + t.2 ≤ vertexCount VaoId.VAO1)) := by
      induction (renderScene ps g).draws.drop 4 with
      | nil => rfl
      | cons d ds ih => simp only [List.all_cons, List.map_cons, ih]
    rw [h, hd]
    decide

/-- C15: in the first loop iteration the four room faces and the terrain are drawn
with front faces culled and the plant with culling disabled; in every later iteration
the room faces are drawn with culling disabled, as the iteration before left it, the
terrain with front faces culled and the plant with culling disabled. -/
theorem culling_carries_over (ops : CameraOps) (own : Camera) (pl : PointLight)
    (fs : FileSystem) (g0 : GLContext) (evs : List Event) :
    (Machine.run ops evs (Machine.start own pl fs g0)).frames.map
        (fun f => f.map DrawCall.culling)
      = (List.range (evs.countP Event.isFrame)).map (fun i =>
          if i = 0 then
            [some CullMode.GL_FRONT, some CullMode.GL_FRONT, some CullMode.GL_FRONT,
             some CullMode.GL_FRONT, some CullMode.GL_FRONT, none]
          else [none, none, none, none, some CullMode.GL_FRONT, none]) := by
  have h := Machine.run_cullings ops evs (Machine.start own pl fs g0)
  simpa [Machine.start, sceneCulling] using h

end Projekat
